import Mathlib

/-! # libcppdebounce: the Debounce and Throttle engines as a thread-interleaving machine

Source: `include/libcppdebounce/debounce.hpp` and `include/libcppdebounce/throttle.hpp`.

Both classes have the same statics (`_operations`, `_global_mutex`) and the same shape of
Operation record (`mtx`, `cv`, `is_cancelled`, one stored callback).  `State` holds the statics
of ONE class; `Kind` says which class it is, and `step k` only admits the entry points of class
`k`.  Every thread of the program is a program counter `Pc` in `State.threads`; an `Action` lets
the scheduler (and the environment) pick what happens next, and `step` returns `none` when the
picked thread cannot move (it is blocked on a mutex that somebody else owns, it has finished,
or the process has been terminated).

Granularity.  A thread blocks only when it acquires a mutex, so each `step` covers the source
text from one mutex acquisition up to the next acquisition, callback invocation or wait.  The
statements in between touch only data protected by a mutex the thread owns at that point.

What is abstracted.
* `std::chrono` time: whether a `wait_for` deadline has passed is the environment's choice
  (`Action.timeout`); the `duration` argument therefore does not appear.
* `cv.notify_one()`: a blocked waiter may re-evaluate its predicate at any time (`Action.step`
  on a blocked waiter), which covers notification and spurious wake-ups.
* A `shared_ptr<Operation>` is a `Nat`, the index of the Operation in `State.heap`; Operations
  are never reused, which is what pointer equality on live `shared_ptr`s gives (the waiter keeps
  its Operation alive).
* A `std::function` is an `Option Nat`: `none` is the empty function, `some f` is the user
  code numbered `f`.  Running user code is recorded in `State.log`; whether it returns or
  throws is the environment's choice (`Action.step` / `Action.throws`).  User code does not
  call the two classes itself.
* `unordered_map` iteration order in `reset_for_testing` is the order of the association list.
-/

namespace Libcppdebounce

/-- A tag is the `std::string` key of `_operations`. -/
abbrev Tag := String

/-- Which class the statics belong to. -/
inductive Kind where
  | debounce
  | throttle
  deriving DecidableEq, Repr

/-- The record `DebounceOperation` / `ThrottleOperation`.  `mtx` is the owner of the
`std::mutex`; `callback` is `DebounceOperation::callback` or `ThrottleOperation::on_after`. -/
structure Operation where
  mtx : Option Nat
  is_cancelled : Bool
  callback : Option Nat
  deriving DecidableEq, Repr

/-- User code that has been run. -/
inductive Event where
  /-- `Throttle::throttle` ran `on_execute` (throttle.hpp line 57). -/
  | on_execute (f : Nat)
  /-- A waiter ran the callback stored in Operation `op` (debounce.hpp line 74,
  throttle.hpp line 87). -/
  | callback (op : Nat) (f : Nat)
  deriving DecidableEq, Repr

/-- Program counters.  Each constructor names the source line the thread is about to execute
and carries the locals that are live there. -/
inductive Pc where
  /-- debounce.hpp line 38: about to lock `_global_mutex`. -/
  | debounce (tag : Tag) (on_execute : Option Nat)
  /-- debounce.hpp line 44: owns `_global_mutex`, about to lock `old_op->mtx`. -/
  | debounce_old (tag : Tag) (on_execute : Option Nat) (old_op : Nat)
  /-- throttle.hpp line 44: about to lock `_global_mutex`. -/
  | throttle (tag : Tag) (on_execute : Option Nat) (on_after : Option Nat)
  /-- throttle.hpp lines 55-58: owns no mutex, about to run `on_execute`. -/
  | throttle_execute (tag : Tag) (on_execute : Option Nat) (op : Nat)
  /-- throttle.hpp line 60: about to re-lock `_global_mutex` and spawn the waiter. -/
  | throttle_spawn (tag : Tag) (op : Nat)
  /-- `cancel`, line 86 / 102: about to lock `_global_mutex`. -/
  | cancel (tag : Tag)
  /-- `cancel`, line 95 / 111: owns `_global_mutex`, entry erased, about to lock
  `op_context->mtx`. -/
  | cancel_signal (tag : Tag) (op : Nat)
  /-- `is_pending` / `is_active`: about to lock `_global_mutex`. -/
  | query (tag : Tag)
  /-- `reset_for_testing`: about to lock `_global_mutex`. -/
  | reset
  /-- `reset_for_testing` loop: owns `_global_mutex`; `rest` are the entries still to visit. -/
  | reset_loop (rest : List (Tag × Nat))
  /-- Waiter lambda, line 55 / 63: about to lock `op_context->mtx`. -/
  | waiter (tag : Tag) (op : Nat)
  /-- Waiter lambda inside `cv.wait_for`, blocked, `op_context->mtx` released. -/
  | waiter_blocked (tag : Tag) (op : Nat)
  /-- Waiter lambda, line 66 / 74: `wait_for` returned false; owns `op_context->mtx`, about to
  lock `_global_mutex`. -/
  | waiter_check (tag : Tag) (op : Nat)
  /-- Waiter lambda, line 74 / 87: still owns `op_context->mtx`, about to run the stored
  callback. -/
  | waiter_call (tag : Tag) (op : Nat)
  /-- The function or lambda has returned (`some b` for a `bool` result). -/
  | returned (result : Option Bool)
  /-- An exception thrown by user code left the function or lambda. -/
  | raised
  deriving DecidableEq, Repr

/-- The statics of one class together with every Operation and thread made so far. -/
structure State where
  /-- The map `_operations`, as an association list with distinct keys. -/
  operations : List (Tag × Nat)
  /-- Owner of `_global_mutex`. -/
  global_mutex : Option Nat
  /-- Every Operation ever made, indexed by identity. -/
  heap : List Operation
  threads : List Pc
  /-- User code run so far, oldest first. -/
  log : List Event
  /-- `std::terminate` has been called (an exception left a detached thread). -/
  terminated : Bool
  deriving DecidableEq, Repr

/-- The public entry points. -/
inductive Call where
  | debounce (tag : Tag) (on_execute : Option Nat)
  | throttle (tag : Tag) (on_execute : Option Nat) (on_after : Option Nat)
  | cancel (tag : Tag)
  /-- `Debounce::is_pending` or `Throttle::is_active`. -/
  | query (tag : Tag)
  | reset_for_testing
  deriving DecidableEq, Repr

/-- What the scheduler and the environment may choose. -/
inductive Action where
  /-- A new thread enters a public function. -/
  | call (c : Call)
  /-- Thread `tid` executes up to its next blocking point; user code it runs returns; a
  blocked waiter re-evaluates its predicate (notification or spurious wake-up). -/
  | step (tid : Nat)
  /-- The `wait_for` deadline of the blocked waiter `tid` passes. -/
  | timeout (tid : Nat)
  /-- Thread `tid` runs its user code and the user code throws. -/
  | throws (tid : Nat)
  deriving DecidableEq, Repr

/-! ## The map `_operations` -/

/-- The lookup `_operations.find(tag)`: `none` is `end()`. -/
def find : List (Tag × Nat) → Tag → Option Nat
  | [], _ => none
  | (k, v) :: rest, tag => if k = tag then some v else find rest tag

/-- The call `_operations.erase(it)` for the entry with key `tag`. -/
def erase (m : List (Tag × Nat)) (tag : Tag) : List (Tag × Nat) :=
  m.filter (fun e => decide (e.1 ≠ tag))

/-- The assignment `_operations[tag] = op`. -/
def assign (m : List (Tag × Nat)) (tag : Tag) (op : Nat) : List (Tag × Nat) :=
  (tag, op) :: erase m tag

/-! ## State updates -/

/-- Owner of `op->mtx` (`none` also when `op` does not exist). -/
def mtx_owner (s : State) (op : Nat) : Option Nat :=
  (s.heap[op]?).bind (fun o => o.mtx)

/-- Update Operation `op` in place. -/
def update_op (h : List Operation) (op : Nat) (f : Operation → Operation) : List Operation :=
  match h[op]? with
  | some o => h.set op (f o)
  | none => h

/-- The block `lock_guard op_lock(op->mtx); op->is_cancelled = true;` followed by
`op->cv.notify_one()`.  Blocked (`none`) while another thread owns `op->mtx`. -/
def signal_cancel (s : State) (op : Nat) : Option State :=
  match s.heap[op]? with
  | none => none
  | some o =>
    if o.mtx = none then
      some { s with heap := s.heap.set op { o with is_cancelled := true } }
    else none

/-- Thread `tid` moves to `pc`. -/
def goto (s : State) (tid : Nat) (pc : Pc) : State :=
  { s with threads := s.threads.set tid pc }

/-- The statement `std::thread(...).detach()`: a new thread starting at `pc`. -/
def spawn (s : State) (pc : Pc) : State :=
  { s with threads := s.threads ++ [pc] }

/-- The waiter leaves its lambda: `op_lock` is destroyed, releasing `op->mtx`. -/
def waiter_exit (s : State) (tid : Nat) (op : Nat) : State :=
  goto { s with heap := update_op s.heap op (fun o => { o with mtx := none }) } tid
    (Pc.returned none)

/-- An exception leaves the waiter lambda of Debounce: `op_lock` is destroyed, and since the
thread is detached nothing can catch the exception, so `std::terminate` ends the process. -/
def waiter_raise (s : State) (tid : Nat) (op : Nat) : State :=
  goto
    { s with
      heap := update_op s.heap op (fun o => { o with mtx := none })
      terminated := true }
    tid Pc.raised

/-! ## Debounce::debounce -/

/-- Lines 50-79 of debounce.hpp, run while owning `_global_mutex`: make the Operation, store it
under `tag`, spawn the waiter, return (releasing `_global_mutex`). -/
def debounce_insert (s : State) (tid : Nat) (tag : Tag) (on_execute : Option Nat) :
    State :=
  let op_context := s.heap.length
  spawn
    (goto
      { s with
        heap := s.heap ++ [{ mtx := none, is_cancelled := false, callback := on_execute }]
        operations := assign s.operations tag op_context
        global_mutex := none }
      tid (Pc.returned none))
    (Pc.waiter tag op_context)

/-- Lines 38-42 of debounce.hpp: lock `_global_mutex`, look `tag` up.  With an old Operation
the thread goes on to lock `old_op->mtx`; without one it runs lines 50-79. -/
def debounce (s : State) (tid : Nat) (tag : Tag) (on_execute : Option Nat) :
    Option State :=
  if s.global_mutex = none then
    match find s.operations tag with
    | some old_op =>
      some (goto { s with global_mutex := some tid } tid (Pc.debounce_old tag on_execute old_op))
    | none => some (debounce_insert s tid tag on_execute)
  else none

/-- Lines 43-79 of debounce.hpp: cancel and notify the old Operation, then lines 50-79. -/
def debounce_old (s : State) (tid : Nat) (tag : Tag) (on_execute : Option Nat)
    (old_op : Nat) : Option State :=
  (signal_cancel s old_op).map (fun s1 => debounce_insert s1 tid tag on_execute)

/-! ## Throttle::throttle -/

/-- Lines 44-53 of throttle.hpp: lock `_global_mutex`; an existing entry returns `true`;
otherwise make the Operation, store it and unlock. -/
def throttle (s : State) (tid : Nat) (tag : Tag) (on_execute on_after : Option Nat) :
    Option State :=
  if s.global_mutex = none then
    match find s.operations tag with
    | some _ => some (goto s tid (Pc.returned (some true)))
    | none =>
      let op_context := s.heap.length
      some (goto
        { s with
          heap := s.heap ++ [{ mtx := none, is_cancelled := false, callback := on_after }]
          operations := assign s.operations tag op_context }
        tid (Pc.throttle_execute tag on_execute op_context))
  else none

/-- Lines 55-58 of throttle.hpp: run `on_execute` if it is not empty.  `threw` says whether
the user code throws; an exception leaves `throttle` (nothing catches it). -/
def throttle_execute (s : State) (tid : Nat) (tag : Tag) (on_execute : Option Nat)
    (op : Nat) (threw : Bool) : Option State :=
  match on_execute with
  | none => if threw then none else some (goto s tid (Pc.throttle_spawn tag op))
  | some f =>
    let s1 := { s with log := s.log ++ [Event.on_execute f] }
    if threw then some (goto s1 tid Pc.raised)
    else some (goto s1 tid (Pc.throttle_spawn tag op))

/-- Lines 60-93 of throttle.hpp: re-lock `_global_mutex`, spawn the waiter, return `false`. -/
def throttle_spawn (s : State) (tid : Nat) (tag : Tag) (op : Nat) : Option State :=
  if s.global_mutex = none then
    some (spawn (goto s tid (Pc.returned (some false))) (Pc.waiter tag op))
  else none

/-! ## cancel, is_pending / is_active, reset_for_testing (identical in both classes) -/

/-- Function `cancel`, lines 86-91 / 102-108: lock `_global_mutex`, look `tag` up, erase the
entry. -/
def cancel (s : State) (tid : Nat) (tag : Tag) : Option State :=
  if s.global_mutex = none then
    match find s.operations tag with
    | some op_context =>
      some (goto
        { s with operations := erase s.operations tag, global_mutex := some tid }
        tid (Pc.cancel_signal tag op_context))
    | none => some (goto s tid (Pc.returned none))
  else none

/-- Function `cancel`, lines 94-100 / 110-116: cancel and notify the erased Operation,
return. -/
def cancel_signal (s : State) (tid : Nat) (op : Nat) : Option State :=
  (signal_cancel s op).map (fun s1 => goto { s1 with global_mutex := none } tid
    (Pc.returned none))

/-- Functions `is_pending` / `is_active`: the value of
`_operations.find(tag) != _operations.end()`. -/
def is_registered (s : State) (tag : Tag) : Bool :=
  (find s.operations tag).isSome

/-- Functions `is_pending` / `is_active` as a call: needs `_global_mutex`. -/
def query (s : State) (tid : Nat) (tag : Tag) : Option State :=
  if s.global_mutex = none then
    some (goto s tid (Pc.returned (some (is_registered s tag))))
  else none

/-- Function `reset_for_testing`, line 108 / 125: lock `_global_mutex`, start the loop. -/
def reset_for_testing (s : State) (tid : Nat) : Option State :=
  if s.global_mutex = none then
    some (goto { s with global_mutex := some tid } tid (Pc.reset_loop s.operations))
  else none

/-- Function `reset_for_testing`, one loop iteration (cancel and notify one Operation), or after the
loop `_operations.clear()` and return. -/
def reset_loop (s : State) (tid : Nat) : List (Tag × Nat) → Option State
  | [] => some (goto { s with operations := [], global_mutex := none } tid (Pc.returned none))
  | (_, op) :: rest => (signal_cancel s op).map (fun s1 => goto s1 tid (Pc.reset_loop rest))

/-! ## The waiter lambda (debounce.hpp lines 54-78, throttle.hpp lines 62-91) -/

/-- Lines 55-59 / 63-67: lock `op_context->mtx` and enter `wait_for`, which evaluates the
predicate first: if `is_cancelled` is already set it returns `true` and the lambda returns;
otherwise the thread blocks, releasing the mutex. -/
def waiter (s : State) (tid : Nat) (tag : Tag) (op : Nat) : Option State :=
  match s.heap[op]? with
  | none => none
  | some o =>
    if o.mtx = none then
      if o.is_cancelled then some (goto s tid (Pc.returned none))
      else some (goto s tid (Pc.waiter_blocked tag op))
    else none

/-- A blocked waiter wakes inside `wait_for` and re-acquires `op_context->mtx`.
Not timed out: the loop `while (!pred())` goes round; the lambda returns if `is_cancelled` is
set and blocks again otherwise.  Timed out: `wait_for` returns `pred()`; the lambda returns if
`is_cancelled` is set, and otherwise goes on to line 66 / 74 still owning the mutex. -/
def waiter_wake (s : State) (tid : Nat) (tag : Tag) (op : Nat) (timed_out : Bool) :
    Option State :=
  match s.heap[op]? with
  | none => none
  | some o =>
    if o.mtx = none then
      if o.is_cancelled then some (goto s tid (Pc.returned none))
      else if timed_out then
        some (goto { s with heap := s.heap.set op { o with mtx := some tid } } tid
          (Pc.waiter_check tag op))
      else some s
    else none

/-- Lines 66-77 / 74-85: lock `_global_mutex`; if the entry for `tag` is still this Operation,
erase it and (unlocking `_global_mutex`) go on to the callback when there is one; in every
other case the lambda returns. -/
def waiter_check (s : State) (tid : Nat) (tag : Tag) (op : Nat) : Option State :=
  if s.global_mutex = none then
    if find s.operations tag = some op then
      let s1 := { s with operations := erase s.operations tag }
      match (s.heap[op]?).bind (fun o => o.callback) with
      | some _ => some (goto s1 tid (Pc.waiter_call tag op))
      | none => some (waiter_exit s1 tid op)
    else some (waiter_exit s tid op)
  else none

/-- Line 74 of debounce.hpp / lines 86-89 of throttle.hpp: run the stored callback.  In
Throttle the call sits in `try { } catch (...) { }`, so the lambda returns either way; in
Debounce nothing catches the exception (`waiter_raise`). -/
def waiter_call (k : Kind) (s : State) (tid : Nat) (op : Nat) (threw : Bool) :
    Option State :=
  match (s.heap[op]?).bind (fun o => o.callback) with
  | none => none
  | some f =>
    let s1 := { s with log := s.log ++ [Event.callback op f] }
    match k, threw with
    | Kind.debounce, true => some (waiter_raise s1 tid op)
    | _, _ => some (waiter_exit s1 tid op)

/-! ## The machine -/

/-- The program counter at which a call of class `k` starts; `none` for an entry point the
class does not have. -/
def entry : Kind → Call → Option Pc
  | Kind.debounce, Call.debounce tag f => some (Pc.debounce tag f)
  | Kind.throttle, Call.throttle tag f a => some (Pc.throttle tag f a)
  | _, Call.cancel tag => some (Pc.cancel tag)
  | _, Call.query tag => some (Pc.query tag)
  | _, Call.reset_for_testing => some Pc.reset
  | _, _ => none

/-- Thread `tid`, at `pc`, executes up to its next blocking point. -/
def advance (k : Kind) (s : State) (tid : Nat) : Pc → Option State
  | Pc.debounce tag f => debounce s tid tag f
  | Pc.debounce_old tag f old_op => debounce_old s tid tag f old_op
  | Pc.throttle tag f a => throttle s tid tag f a
  | Pc.throttle_execute tag f op => throttle_execute s tid tag f op false
  | Pc.throttle_spawn tag op => throttle_spawn s tid tag op
  | Pc.cancel tag => cancel s tid tag
  | Pc.cancel_signal _ op => cancel_signal s tid op
  | Pc.query tag => query s tid tag
  | Pc.reset => reset_for_testing s tid
  | Pc.reset_loop rest => reset_loop s tid rest
  | Pc.waiter tag op => waiter s tid tag op
  | Pc.waiter_blocked tag op => waiter_wake s tid tag op false
  | Pc.waiter_check tag op => waiter_check s tid tag op
  | Pc.waiter_call _ op => waiter_call k s tid op false
  | Pc.returned _ => none
  | Pc.raised => none

/-- One transition of the machine; `none` when the action is not possible in `s`. -/
def step (k : Kind) (s : State) (a : Action) : Option State :=
  if s.terminated then none
  else
    match a with
    | Action.call c => (entry k c).map (fun pc => spawn s pc)
    | Action.step tid => (s.threads[tid]?).bind (fun pc => advance k s tid pc)
    | Action.timeout tid =>
      match s.threads[tid]? with
      | some (Pc.waiter_blocked tag op) => waiter_wake s tid tag op true
      | _ => none
    | Action.throws tid =>
      match s.threads[tid]? with
      | some (Pc.throttle_execute tag f op) => throttle_execute s tid tag f op true
      | some (Pc.waiter_call _ op) => waiter_call k s tid op true
      | _ => none

/-- Run a schedule. -/
def run (k : Kind) (s : State) : List Action → Option State
  | [] => some s
  | a :: rest => (step k s a).bind (fun s1 => run k s1 rest)

/-- The state at program start: empty map, free mutex, no thread, nothing run. -/
def init : State :=
  { operations := [], global_mutex := none, heap := [], threads := [], log := [],
    terminated := false }

/-- States the class `k` can reach from program start. -/
def Reachable (k : Kind) (s : State) : Prop :=
  ∃ acts, run k init acts = some s

/-- How often the callback stored in Operation `op` has been run. -/
def fired (s : State) (op : Nat) : Nat :=
  s.log.countP (fun e => match e with
    | Event.callback o _ => decide (o = op)
    | Event.on_execute _ => false)

/-! ## Invariants of reachable states -/

/-- Operation `op` is stored in `_operations` under some tag. -/
def Registered (s : State) (op : Nat) : Prop :=
  ∃ tag, (tag, op) ∈ s.operations

/-- Whether a thread at this program counter owns `_global_mutex`. -/
def Pc.owns_global : Pc → Bool
  | Pc.debounce_old _ _ _ => true
  | Pc.cancel_signal _ _ => true
  | Pc.reset_loop _ => true
  | _ => false

/-- The Operation whose `mtx` a thread at this program counter owns. -/
def Pc.owns_mtx : Pc → Option Nat
  | Pc.waiter_check _ op => some op
  | Pc.waiter_call _ op => some op
  | _ => none

/-- The Operation a thread is the waiter of (or, inside `Throttle::throttle`, will spawn the
waiter of). -/
def Pc.waits_for : Pc → Option Nat
  | Pc.throttle_execute _ _ op => some op
  | Pc.throttle_spawn _ op => some op
  | Pc.waiter _ op => some op
  | Pc.waiter_blocked _ op => some op
  | Pc.waiter_check _ op => some op
  | Pc.waiter_call _ op => some op
  | _ => none

/-- What holds in every reachable state (`inv_of_reachable`). -/
structure Inv (s : State) : Prop where
  /-- Stored Operations exist. -/
  reg_lt : ∀ (tag : Tag) (op : Nat), (tag, op) ∈ s.operations → op < s.heap.length
  /-- An Operation is stored under at most one tag. -/
  reg_inj : ∀ (t1 t2 : Tag) (op : Nat), (t1, op) ∈ s.operations → (t2, op) ∈ s.operations →
    t1 = t2
  /-- Only existing Operations have run their callback. -/
  fired_lt : ∀ op : Nat, 0 < fired s op → op < s.heap.length
  /-- A thread between locking and unlocking `_global_mutex` is its owner. -/
  global_owner : ∀ (i : Nat) (pc : Pc), s.threads[i]? = some pc → pc.owns_global = true →
    s.global_mutex = some i
  /-- The owner of `_global_mutex` is such a thread. -/
  global_held : ∀ (i : Nat), s.global_mutex = some i →
    ∃ pc : Pc, s.threads[i]? = some pc ∧ pc.owns_global = true
  /-- A waiter past `wait_for` owns its Operation's mutex; the Operation is not cancelled. -/
  mtx_owner : ∀ (i : Nat) (pc : Pc) (op : Nat), s.threads[i]? = some pc →
    pc.owns_mtx = some op →
    ∃ o : Operation, s.heap[op]? = some o ∧ o.mtx = some i ∧ o.is_cancelled = false
  /-- The owner of an Operation's mutex is such a waiter. -/
  mtx_held : ∀ (op : Nat) (o : Operation) (i : Nat), s.heap[op]? = some o → o.mtx = some i →
    ∃ pc : Pc, s.threads[i]? = some pc ∧ pc.owns_mtx = some op
  /-- Waiters wait for existing Operations. -/
  waits_lt : ∀ (i : Nat) (pc : Pc) (op : Nat), s.threads[i]? = some pc →
    pc.waits_for = some op → op < s.heap.length
  /-- An Operation has at most one waiter. -/
  waits_inj : ∀ (i j : Nat) (pci pcj : Pc) (op : Nat), s.threads[i]? = some pci →
    s.threads[j]? = some pcj →
    pci.waits_for = some op → pcj.waits_for = some op → i = j
  /-- A waiter about to run the callback: the Operation has left the map for good, has a
  callback that has not run, and no `cancel` is in flight for it. -/
  call_state : ∀ (i : Nat) (tag : Tag) (op : Nat),
    s.threads[i]? = some (Pc.waiter_call tag op) →
    ¬ Registered s op ∧ fired s op = 0 ∧
    (∀ (j : Nat) (t : Tag), s.threads[j]? ≠ some (Pc.cancel_signal t op)) ∧
    ∃ f : Nat, (s.heap[op]?).bind (fun o : Operation => o.callback) = some f
  /-- A `cancel` that has erased its entry: the Operation has left the map and has not run. -/
  cancel_state : ∀ (i : Nat) (tag : Tag) (op : Nat),
    s.threads[i]? = some (Pc.cancel_signal tag op) →
    op < s.heap.length ∧ ¬ Registered s op ∧ fired s op = 0
  /-- A `debounce` about to cancel the old Operation: it is still the entry for the tag. -/
  old_state : ∀ (i : Nat) (tag : Tag) (f : Option Nat) (op : Nat),
    s.threads[i]? = some (Pc.debounce_old tag f op) →
    (tag, op) ∈ s.operations
  /-- A `reset_for_testing` in its loop: the entries still to visit are in the map. -/
  reset_state : ∀ (i : Nat) (rest : List (Tag × Nat)),
    s.threads[i]? = some (Pc.reset_loop rest) →
    ∀ e, e ∈ rest → e ∈ s.operations
  /-- A stored Operation has not run its callback. -/
  registered_unfired : ∀ (tag : Tag) (op : Nat), (tag, op) ∈ s.operations → fired s op = 0
  /-- A callback that has run has run once, and its Operation is not cancelled. -/
  fired_once : ∀ op : Nat, 0 < fired s op →
    fired s op = 1 ∧ ∃ o : Operation, s.heap[op]? = some o ∧ o.is_cancelled = false

/-! ## Vocabulary of the properties -/

/-- The Operation whose `mtx` a thread at this program counter is about to lock while it owns
`_global_mutex`. -/
def Pc.wants_mtx : Pc → Option Nat
  | Pc.debounce_old _ _ old_op => some old_op
  | Pc.cancel_signal _ op => some op
  | Pc.reset_loop ((_, op) :: _) => some op
  | _ => none

/-- Waiter `w` owns the mutex of Operation `op` and is about to lock `_global_mutex`, while
thread `c` owns `_global_mutex` and is about to lock the mutex of `op`. -/
def Deadlock (s : State) (w c op : Nat) : Prop :=
  (∃ tag : Tag, s.threads[w]? = some (Pc.waiter_check tag op)) ∧ mtx_owner s op = some w ∧
  s.global_mutex = some c ∧ ∃ pc : Pc, s.threads[c]? = some pc ∧ pc.wants_mtx = some op

/-- Thread `i` is blocked: it needs `_global_mutex`, which is owned, or it needs the mutex of
an Operation, which is owned. -/
def Blocked (s : State) (i : Nat) : Prop :=
  (∃ (tag : Tag) (op : Nat), s.threads[i]? = some (Pc.waiter_check tag op) ∧
    s.global_mutex ≠ none) ∨
  (∃ (pc : Pc) (op : Nat), s.threads[i]? = some pc ∧ pc.wants_mtx = some op ∧
    mtx_owner s op ≠ none)

/-- The tag a thread is working on (`none` for `reset_for_testing` and finished threads). -/
def Pc.tag : Pc → Option Tag
  | Pc.debounce tag _ => some tag
  | Pc.debounce_old tag _ _ => some tag
  | Pc.throttle tag _ _ => some tag
  | Pc.throttle_execute tag _ _ => some tag
  | Pc.throttle_spawn tag _ => some tag
  | Pc.cancel tag => some tag
  | Pc.cancel_signal tag _ => some tag
  | Pc.query tag => some tag
  | Pc.waiter tag _ => some tag
  | Pc.waiter_blocked tag _ => some tag
  | Pc.waiter_check tag _ => some tag
  | Pc.waiter_call tag _ => some tag
  | _ => none

/-- The thread an action moves (`none` for a new call). -/
def Action.thread : Action → Option Nat
  | Action.call _ => none
  | Action.step tid => some tid
  | Action.timeout tid => some tid
  | Action.throws tid => some tid

/-- The tag argument of a call (`none` for `reset_for_testing`). -/
def Call.tag : Call → Option Tag
  | Call.debounce tag _ => some tag
  | Call.throttle tag _ _ => some tag
  | Call.cancel tag => some tag
  | Call.query tag => some tag
  | Call.reset_for_testing => none

/-- Action `a` in state `s` is work on tag `t`: a new call with argument `t`, or a move of a
thread that is working on `t` (a call in progress or a waiter, by step, time-out or throw). -/
def acts_on (s : State) (a : Action) (t : Tag) : Prop :=
  match a with
  | Action.call c => c.tag = some t
  | Action.step tid => ∃ pc : Pc, s.threads[tid]? = some pc ∧ pc.tag = some t
  | Action.timeout tid => ∃ pc : Pc, s.threads[tid]? = some pc ∧ pc.tag = some t
  | Action.throws tid => ∃ pc : Pc, s.threads[tid]? = some pc ∧ pc.tag = some t

/-- The schedule in which a new call `c` runs alone: it enters and takes `steps` steps with no
other thread moving in between. -/
def sequential (s : State) (c : Call) (steps : Nat) : List Action :=
  Action.call c :: List.replicate steps (Action.step s.threads.length)

/-- The number of steps `debounce(tag, ...)` takes when it runs alone: one more when it has to
cancel an old Operation. -/
def debounce_steps (s : State) (tag : Tag) : Nat :=
  if (find s.operations tag).isSome then 2 else 1

/-- The schedule in which the blocked waiter `w` times out and runs to its end with no other
thread moving in between; `stored` is the callback of its Operation and `threw` says whether
that callback throws. -/
def expiry (w : Nat) (stored : Option Nat) (threw : Bool) : List Action :=
  match stored with
  | none => [Action.timeout w, Action.step w]
  | some _ => [Action.timeout w, Action.step w, if threw then Action.throws w else Action.step w]

/-- The entries of `n` concurrent `throttle(tag, d, f, a)` calls, one per pair `(f, a)`. -/
def race_calls (tag : Tag) (args : List (Option Nat × Option Nat)) : List Action :=
  args.map (fun x => Action.call (Call.throttle tag x.1 x.2))

/-- The thread that moves first in a schedule. -/
def first_mover (acts : List Action) : Option Nat :=
  acts.findSome? Action.thread

/-- Action `a` is a step (or a throw of user code) of a thread numbered `base` or higher; it is
not a new call and not a time-out. -/
def Action.moves_from (base : Nat) : Action → Bool
  | Action.step tid => decide (base ≤ tid)
  | Action.throws tid => decide (base ≤ tid)
  | _ => false

/-- Program counters of threads that are not inside a call and have not timed out: a waiter
before or inside `wait_for`, or a finished thread. -/
def Pc.calm : Pc → Bool
  | Pc.waiter _ _ => true
  | Pc.waiter_blocked _ _ => true
  | Pc.returned _ => true
  | Pc.raised => true
  | _ => false

/-- What holds during a race of `throttle` calls for `tag` (threads `base`, `base + 1`, ... with
the arguments `args`) once thread `w`, called with `on_execute = f`, has taken `_global_mutex`
first and stored Operation `op`: the entry stays; `w` is on its way to returning `false`, the
log holding `f` from the moment `w` has run it; every other racing call is still at its entry
or has returned `true`; all later threads are waiters that have not timed out. -/
def RaceInv (tag : Tag) (base : Nat) (args : List (Option Nat × Option Nat)) (w : Nat)
    (f : Option Nat) (op : Nat) (log0 : List Event) (s : State) : Prop :=
  find s.operations tag = some op ∧
  w < base + args.length ∧
  ((s.threads[w]? = some (Pc.throttle_execute tag f op) ∧ s.log = log0) ∨
    ((s.threads[w]? = some (Pc.throttle_spawn tag op) ∨
        s.threads[w]? = some (Pc.returned (some false)) ∨ s.threads[w]? = some Pc.raised) ∧
      s.log = log0 ++ f.toList.map Event.on_execute)) ∧
  (∀ (j : Nat) (x : Option Nat × Option Nat), args[j]? = some x → base + j ≠ w →
    (s.threads[base + j]? = some (Pc.throttle tag x.1 x.2) ∨
      s.threads[base + j]? = some (Pc.returned (some true)))) ∧
  (∀ (j : Nat) (pc : Pc), base + args.length ≤ j → s.threads[j]? = some pc → pc.calm = true)

/-- Debounce after `debounce("t", d, f1)`, `debounce("t", d, f2)` and the expiry of the second
waiter: Operation 0 is cancelled and has not run, Operation 1 has run once. -/
def superseded_state : State :=
  { operations := [], global_mutex := none,
    heap := [{ mtx := none, is_cancelled := true, callback := some 1 },
             { mtx := none, is_cancelled := false, callback := some 2 }],
    threads := [Pc.returned none, Pc.returned none, Pc.returned none, Pc.returned none],
    log := [Event.callback 1 2], terminated := false }

/-- The schedule that leads to `superseded_state`. -/
def superseded_schedule : List Action :=
  [Action.call (Call.debounce "t" (some 1)), Action.step 0, Action.step 1,
   Action.call (Call.debounce "t" (some 2)), Action.step 2, Action.step 2, Action.step 1,
   Action.step 3, Action.timeout 3, Action.step 3, Action.step 3]

/-- The race of `cancel("t")` with a waiter whose `wait_for` has just timed out. -/
def deadlock_schedule : List Action :=
  [Action.call (Call.debounce "t" (some 7)), Action.step 0, Action.step 1, Action.timeout 1,
   Action.call (Call.cancel "t"), Action.step 2]

/-- Throttle after `throttle("t", d, f, a)` has stored its Operation and run `on_execute`, its
waiter (thread 1) blocked in `wait_for`. -/
def active_state : State :=
  { operations := [("t", 0)], global_mutex := none,
    heap := [{ mtx := none, is_cancelled := false, callback := some 8 }],
    threads := [Pc.returned (some false), Pc.waiter_blocked "t" 0],
    log := [Event.on_execute 7], terminated := false }

/-- The schedule that leads to `active_state`. -/
def active_schedule : List Action :=
  [Action.call (Call.throttle "t" (some 7) (some 8)), Action.step 0, Action.step 0,
   Action.step 0, Action.step 1]

/-- Three racing `throttle("t", d, f, a)` calls, as pairs `(f, a)`. -/
def race_args : List (Option Nat × Option Nat) :=
  [(some 1, none), (some 2, some 3), (none, none)]

/-- The schedule after which the waiter of the active tag "t" of a Throttle has timed out and
has not yet locked `_global_mutex`. -/
def expired_schedule : List Action :=
  active_schedule ++ [Action.timeout 1]

/-- Throttle after `expired_schedule`: "t" is still active, `_global_mutex` is free, and the
waiter (thread 1) owns the mutex of its Operation. -/
def expired_state : State :=
  { operations := [("t", 0)], global_mutex := none,
    heap := [{ mtx := some 1, is_cancelled := false, callback := some 8 }],
    threads := [Pc.returned (some false), Pc.waiter_check "t" 0],
    log := [Event.on_execute 7], terminated := false }

/-- The state `expired_state` after `cancel("t")` (thread 2) has locked `_global_mutex` and
erased the entry. -/
def stuck_state : State :=
  { operations := [], global_mutex := some 2,
    heap := [{ mtx := some 1, is_cancelled := false, callback := some 8 }],
    threads := [Pc.returned (some false), Pc.waiter_check "t" 0, Pc.cancel_signal "t" 0],
    log := [Event.on_execute 7], terminated := false }

/-- The schedule of `debounce("a", d, f1)` and `debounce("b", d, f2)` after which both waiters
are blocked in `wait_for`. -/
def both_pending_schedule : List Action :=
  [Action.call (Call.debounce "a" (some 1)), Action.step 0,
   Action.call (Call.debounce "b" (some 2)), Action.step 2, Action.step 1, Action.step 3]

/-- Debounce after `both_pending_schedule`: "a" and "b" are pending, their waiters (threads 1
and 3) are blocked in `wait_for`. -/
def both_pending_state : State :=
  { operations := [("b", 1), ("a", 0)], global_mutex := none,
    heap := [{ mtx := none, is_cancelled := false, callback := some 1 },
             { mtx := none, is_cancelled := false, callback := some 2 }],
    threads := [Pc.returned none, Pc.waiter_blocked "a" 0, Pc.returned none,
                Pc.waiter_blocked "b" 1],
    log := [], terminated := false }

/-- Work on tag "a" only: the wait of the waiter of "a" times out, then `cancel("a")` enters
(thread 4) and locks `_global_mutex`. -/
def work_on_a : List Action :=
  [Action.timeout 1, Action.call (Call.cancel "a"), Action.step 4]

/-- The state `both_pending_state` after `work_on_a`. -/
def a_stuck_state : State :=
  { operations := [("b", 1)], global_mutex := some 4,
    heap := [{ mtx := some 1, is_cancelled := false, callback := some 1 },
             { mtx := none, is_cancelled := false, callback := some 2 }],
    threads := [Pc.returned none, Pc.waiter_check "a" 0, Pc.returned none,
                Pc.waiter_blocked "b" 1, Pc.cancel_signal "a" 0],
    log := [], terminated := false }

/-- The state `both_pending_state` after the expiry of the waiter of "b" alone: "b" is removed
and its callback has run. -/
def b_done_state : State :=
  { operations := [("a", 0)], global_mutex := none,
    heap := [{ mtx := none, is_cancelled := false, callback := some 1 },
             { mtx := none, is_cancelled := false, callback := some 2 }],
    threads := [Pc.returned none, Pc.waiter_blocked "a" 0, Pc.returned none,
                Pc.returned none],
    log := [Event.callback 1 2], terminated := false }

/-- The state `a_stuck_state` after the wait of the waiter of "b" has timed out. -/
def b_stuck_state : State :=
  { operations := [("b", 1)], global_mutex := some 4,
    heap := [{ mtx := some 1, is_cancelled := false, callback := some 1 },
             { mtx := some 3, is_cancelled := false, callback := some 2 }],
    threads := [Pc.returned none, Pc.waiter_check "a" 0, Pc.returned none,
                Pc.waiter_check "b" 1, Pc.cancel_signal "a" 0],
    log := [], terminated := false }

/-! ## The transitions, one by one

`Trans k s who s1` lists every way `step k` can move from `s` to `s1`, with the guard of each
move and the thread `who` that makes it.
It is derived from `step` (`trans_of_step`) and used for proofs by cases. -/

/-- The moves of `step k`, each with its guard, the thread that moves (`none` for a new call)
and its result. -/
inductive Trans (k : Kind) (s : State) : Option Nat → State → Prop where
  | call (c : Call) (pc : Pc) (he : entry k c = some pc) : Trans k s none (spawn s pc)
  | debounce_new (tid : Nat) (tag : Tag) (f : Option Nat)
      (ht : s.threads[tid]? = some (Pc.debounce tag f)) (hg : s.global_mutex = none)
      (hf : find s.operations tag = none) : Trans k s (some tid) (debounce_insert s tid tag f)
  | debounce_lock (tid : Nat) (tag : Tag) (f : Option Nat) (old_op : Nat)
      (ht : s.threads[tid]? = some (Pc.debounce tag f)) (hg : s.global_mutex = none)
      (hf : find s.operations tag = some old_op) :
      Trans k s (some tid)
        (goto { s with global_mutex := some tid } tid (Pc.debounce_old tag f old_op))
  | debounce_old (tid : Nat) (tag : Tag) (f : Option Nat) (old_op : Nat)
      (o : Operation) (ht : s.threads[tid]? = some (Pc.debounce_old tag f old_op))
      (ho : s.heap[old_op]? = some o) (hm : o.mtx = none) :
      Trans k s (some tid) (debounce_insert
        { s with heap := s.heap.set old_op { o with is_cancelled := true } } tid tag f)
  | throttle_hit (tid : Nat) (tag : Tag) (f a : Option Nat) (op : Nat)
      (ht : s.threads[tid]? = some (Pc.throttle tag f a)) (hg : s.global_mutex = none)
      (hf : find s.operations tag = some op) :
      Trans k s (some tid) (goto s tid (Pc.returned (some true)))
  | throttle_new (tid : Nat) (tag : Tag) (f a : Option Nat)
      (ht : s.threads[tid]? = some (Pc.throttle tag f a)) (hg : s.global_mutex = none)
      (hf : find s.operations tag = none) :
      Trans k s (some tid) (goto
        { s with
          heap := s.heap ++ [{ mtx := none, is_cancelled := false, callback := a }]
          operations := assign s.operations tag s.heap.length }
        tid (Pc.throttle_execute tag f s.heap.length))
  | throttle_skip (tid : Nat) (tag : Tag) (op : Nat)
      (ht : s.threads[tid]? = some (Pc.throttle_execute tag none op)) :
      Trans k s (some tid) (goto s tid (Pc.throttle_spawn tag op))
  | throttle_run (tid : Nat) (tag : Tag) (f : Nat) (op : Nat)
      (ht : s.threads[tid]? = some (Pc.throttle_execute tag (some f) op)) :
      Trans k s (some tid) (goto { s with log := s.log ++ [Event.on_execute f] } tid
        (Pc.throttle_spawn tag op))
  | throttle_raise (tid : Nat) (tag : Tag) (f : Nat) (op : Nat)
      (ht : s.threads[tid]? = some (Pc.throttle_execute tag (some f) op)) :
      Trans k s (some tid)
        (goto { s with log := s.log ++ [Event.on_execute f] } tid Pc.raised)
  | throttle_spawn (tid : Nat) (tag : Tag) (op : Nat)
      (ht : s.threads[tid]? = some (Pc.throttle_spawn tag op)) (hg : s.global_mutex = none) :
      Trans k s (some tid) (spawn (goto s tid (Pc.returned (some false))) (Pc.waiter tag op))
  | cancel_hit (tid : Nat) (tag : Tag) (op : Nat)
      (ht : s.threads[tid]? = some (Pc.cancel tag)) (hg : s.global_mutex = none)
      (hf : find s.operations tag = some op) :
      Trans k s (some tid) (goto
        { s with operations := erase s.operations tag, global_mutex := some tid }
        tid (Pc.cancel_signal tag op))
  | cancel_miss (tid : Nat) (tag : Tag)
      (ht : s.threads[tid]? = some (Pc.cancel tag)) (hg : s.global_mutex = none)
      (hf : find s.operations tag = none) : Trans k s (some tid) (goto s tid (Pc.returned none))
  | cancel_signal (tid : Nat) (tag : Tag) (op : Nat) (o : Operation)
      (ht : s.threads[tid]? = some (Pc.cancel_signal tag op))
      (ho : s.heap[op]? = some o) (hm : o.mtx = none) :
      Trans k s (some tid) (goto
        { s with
          heap := s.heap.set op { o with is_cancelled := true }
          global_mutex := none }
        tid (Pc.returned none))
  | query (tid : Nat) (tag : Tag)
      (ht : s.threads[tid]? = some (Pc.query tag)) (hg : s.global_mutex = none) :
      Trans k s (some tid) (goto s tid (Pc.returned (some (is_registered s tag))))
  | reset (tid : Nat)
      (ht : s.threads[tid]? = some Pc.reset) (hg : s.global_mutex = none) :
      Trans k s (some tid)
        (goto { s with global_mutex := some tid } tid (Pc.reset_loop s.operations))
  | reset_visit (tid : Nat) (tag : Tag) (op : Nat) (rest : List (Tag × Nat))
      (o : Operation) (ht : s.threads[tid]? = some (Pc.reset_loop ((tag, op) :: rest)))
      (ho : s.heap[op]? = some o) (hm : o.mtx = none) :
      Trans k s (some tid)
        (goto { s with heap := s.heap.set op { o with is_cancelled := true } } tid
          (Pc.reset_loop rest))
  | reset_clear (tid : Nat)
      (ht : s.threads[tid]? = some (Pc.reset_loop [])) :
      Trans k s (some tid)
        (goto { s with operations := [], global_mutex := none } tid (Pc.returned none))
  | waiter_cancelled (tid : Nat) (tag : Tag) (op : Nat) (o : Operation)
      (ht : s.threads[tid]? = some (Pc.waiter tag op))
      (ho : s.heap[op]? = some o) (hm : o.mtx = none) (hc : o.is_cancelled = true) :
      Trans k s (some tid) (goto s tid (Pc.returned none))
  | waiter_woken (tid : Nat) (tag : Tag) (op : Nat) (o : Operation)
      (ht : s.threads[tid]? = some (Pc.waiter_blocked tag op))
      (ho : s.heap[op]? = some o) (hm : o.mtx = none) (hc : o.is_cancelled = true) :
      Trans k s (some tid) (goto s tid (Pc.returned none))
  | waiter_block (tid : Nat) (tag : Tag) (op : Nat) (o : Operation)
      (ht : s.threads[tid]? = some (Pc.waiter tag op))
      (ho : s.heap[op]? = some o) (hm : o.mtx = none) (hc : o.is_cancelled = false) :
      Trans k s (some tid) (goto s tid (Pc.waiter_blocked tag op))
  | waiter_spurious (tid : Nat) (tag : Tag) (op : Nat) (o : Operation)
      (ht : s.threads[tid]? = some (Pc.waiter_blocked tag op))
      (ho : s.heap[op]? = some o) (hm : o.mtx = none) (hc : o.is_cancelled = false) :
      Trans k s (some tid) s
  | waiter_timeout (tid : Nat) (tag : Tag) (op : Nat) (o : Operation)
      (ht : s.threads[tid]? = some (Pc.waiter_blocked tag op))
      (ho : s.heap[op]? = some o) (hm : o.mtx = none) (hc : o.is_cancelled = false) :
      Trans k s (some tid)
        (goto { s with heap := s.heap.set op { o with mtx := some tid } } tid
          (Pc.waiter_check tag op))
  | waiter_erase (tid : Nat) (tag : Tag) (op : Nat) (f : Nat)
      (ht : s.threads[tid]? = some (Pc.waiter_check tag op)) (hg : s.global_mutex = none)
      (hf : find s.operations tag = some op)
      (hcb : (s.heap[op]?).bind (fun o => o.callback) = some f) :
      Trans k s (some tid) (goto { s with operations := erase s.operations tag } tid
        (Pc.waiter_call tag op))
  | waiter_erase_exit (tid : Nat) (tag : Tag) (op : Nat)
      (ht : s.threads[tid]? = some (Pc.waiter_check tag op)) (hg : s.global_mutex = none)
      (hf : find s.operations tag = some op)
      (hcb : (s.heap[op]?).bind (fun o => o.callback) = none) :
      Trans k s (some tid) (waiter_exit { s with operations := erase s.operations tag } tid op)
  | waiter_stale (tid : Nat) (tag : Tag) (op : Nat)
      (ht : s.threads[tid]? = some (Pc.waiter_check tag op)) (hg : s.global_mutex = none)
      (hf : find s.operations tag ≠ some op) : Trans k s (some tid) (waiter_exit s tid op)
  | waiter_call (tid : Nat) (tag : Tag) (op : Nat) (f : Nat)
      (ht : s.threads[tid]? = some (Pc.waiter_call tag op))
      (hcb : (s.heap[op]?).bind (fun o => o.callback) = some f) :
      Trans k s (some tid) (waiter_exit { s with log := s.log ++ [Event.callback op f] } tid op)
  | waiter_terminate (tid : Nat) (tag : Tag) (op : Nat) (f : Nat) (hk : k = Kind.debounce)
      (ht : s.threads[tid]? = some (Pc.waiter_call tag op))
      (hcb : (s.heap[op]?).bind (fun o => o.callback) = some f) :
      Trans k s (some tid)
        (waiter_raise { s with log := s.log ++ [Event.callback op f] } tid op)

theorem signal_cancel_eq {s s1 : State} {op : Nat} (h : signal_cancel s op = some s1) :
    ∃ o, s.heap[op]? = some o ∧ o.mtx = none ∧
      s1 = { s with heap := s.heap.set op { o with is_cancelled := true } } := by
  unfold signal_cancel at h
  split at h
  · simp at h
  · rename_i o ho
    split at h
    · rename_i hm
      exact ⟨o, ho, hm, by simpa using h.symm⟩
    · simp at h

theorem trans_of_wake {k : Kind} {s s1 : State} {tid : Nat} {tag : Tag} {op : Nat}
    {b : Bool} (ht : s.threads[tid]? = some (Pc.waiter_blocked tag op))
    (h : waiter_wake s tid tag op b = some s1) : Trans k s (some tid) s1 := by
  unfold waiter_wake at h
  split at h
  · simp at h
  · rename_i o ho
    by_cases hm : o.mtx = none
    · rw [if_pos hm] at h
      by_cases hc : o.is_cancelled = true
      · rw [if_pos hc] at h
        simp only [Option.some.injEq] at h
        subst h
        exact Trans.waiter_woken tid tag op o ht ho hm hc
      · have hc2 : o.is_cancelled = false := by simpa using hc
        rw [if_neg hc] at h
        cases b
        · simp only [Bool.false_eq_true, if_false, Option.some.injEq] at h
          subst h
          exact Trans.waiter_spurious tid tag op o ht ho hm hc2
        · simp only [if_true, Option.some.injEq] at h
          subst h
          exact Trans.waiter_timeout tid tag op o ht ho hm hc2
    · rw [if_neg hm] at h
      simp at h

theorem trans_of_throttle_execute {k : Kind} {s s1 : State} {tid : Nat} {tag : Tag}
    {f : Option Nat} {op : Nat} {b : Bool}
    (ht : s.threads[tid]? = some (Pc.throttle_execute tag f op))
    (h : throttle_execute s tid tag f op b = some s1) : Trans k s (some tid) s1 := by
  unfold throttle_execute at h
  cases f with
  | none =>
    cases b
    · simp at h
      subst h
      exact Trans.throttle_skip tid tag op ht
    · simp at h
  | some g =>
    cases b
    · simp at h
      subst h
      exact Trans.throttle_run tid tag g op ht
    · simp at h
      subst h
      exact Trans.throttle_raise tid tag g op ht

theorem trans_of_waiter_call {k : Kind} {s s1 : State} {tid : Nat} {tag : Tag}
    {op : Nat} {b : Bool} (ht : s.threads[tid]? = some (Pc.waiter_call tag op))
    (h : waiter_call k s tid op b = some s1) : Trans k s (some tid) s1 := by
  unfold waiter_call at h
  split at h
  · simp at h
  · rename_i f hcb
    split at h
    · simp at h
      subst h
      exact Trans.waiter_terminate tid tag op f rfl ht hcb
    · simp at h
      subst h
      exact Trans.waiter_call tid tag op f ht hcb

theorem trans_of_step {k : Kind} {s s1 : State} {a : Action} (h : step k s a = some s1) :
    Trans k s a.thread s1 := by
  unfold step at h
  split at h
  · simp at h
  · cases a with
    | call c =>
      simp only [Option.map_eq_some'] at h
      obtain ⟨pc, he, rfl⟩ := h
      exact Trans.call c pc he
    | step tid =>
      simp only [Option.bind_eq_some] at h
      obtain ⟨pc, ht, h⟩ := h
      cases pc with
      | debounce tag f =>
        simp only [advance, debounce] at h
        split at h
        · rename_i hg
          split at h
          · rename_i old hf
            simp at h; subst h
            exact Trans.debounce_lock tid tag f old ht hg hf
          · rename_i hf
            simp at h; subst h
            exact Trans.debounce_new tid tag f ht hg hf
        · simp at h
      | debounce_old tag f old =>
        simp only [advance, debounce_old, Option.map_eq_some'] at h
        obtain ⟨s2, hs, rfl⟩ := h
        obtain ⟨o, ho, hm, rfl⟩ := signal_cancel_eq hs
        exact Trans.debounce_old tid tag f old o ht ho hm
      | throttle tag f a =>
        simp only [advance, throttle] at h
        split at h
        · rename_i hg
          split at h
          · rename_i op hf
            simp at h; subst h
            exact Trans.throttle_hit tid tag f a op ht hg hf
          · rename_i hf
            simp at h; subst h
            exact Trans.throttle_new tid tag f a ht hg hf
        · simp at h
      | throttle_execute tag f op =>
        simp only [advance] at h
        exact trans_of_throttle_execute ht h
      | throttle_spawn tag op =>
        simp only [advance, throttle_spawn] at h
        split at h
        · rename_i hg
          simp at h; subst h
          exact Trans.throttle_spawn tid tag op ht hg
        · simp at h
      | cancel tag =>
        simp only [advance, cancel] at h
        split at h
        · rename_i hg
          split at h
          · rename_i op hf
            simp at h; subst h
            exact Trans.cancel_hit tid tag op ht hg hf
          · rename_i hf
            simp at h; subst h
            exact Trans.cancel_miss tid tag ht hg hf
        · simp at h
      | cancel_signal tag op =>
        simp only [advance, cancel_signal, Option.map_eq_some'] at h
        obtain ⟨s2, hs, rfl⟩ := h
        obtain ⟨o, ho, hm, rfl⟩ := signal_cancel_eq hs
        exact Trans.cancel_signal tid tag op o ht ho hm
      | query tag =>
        simp only [advance, query] at h
        split at h
        · rename_i hg
          simp at h; subst h
          exact Trans.query tid tag ht hg
        · simp at h
      | reset =>
        simp only [advance, reset_for_testing] at h
        split at h
        · rename_i hg
          simp at h; subst h
          exact Trans.reset tid ht hg
        · simp at h
      | reset_loop rest =>
        simp only [advance] at h
        cases rest with
        | nil =>
          simp [reset_loop] at h; subst h
          exact Trans.reset_clear tid ht
        | cons e rest =>
          obtain ⟨tag, op⟩ := e
          simp only [reset_loop, Option.map_eq_some'] at h
          obtain ⟨s2, hs, rfl⟩ := h
          obtain ⟨o, ho, hm, rfl⟩ := signal_cancel_eq hs
          exact Trans.reset_visit tid tag op rest o ht ho hm
      | waiter tag op =>
        simp only [advance, waiter] at h
        split at h
        · simp at h
        · rename_i o ho
          by_cases hm : o.mtx = none
          · rw [if_pos hm] at h
            by_cases hc : o.is_cancelled = true
            · rw [if_pos hc] at h
              simp only [Option.some.injEq] at h; subst h
              exact Trans.waiter_cancelled tid tag op o ht ho hm hc
            · have hc2 : o.is_cancelled = false := by simpa using hc
              rw [if_neg hc] at h
              simp only [Option.some.injEq] at h; subst h
              exact Trans.waiter_block tid tag op o ht ho hm hc2
          · rw [if_neg hm] at h
            simp at h
      | waiter_blocked tag op =>
        simp only [advance] at h
        exact trans_of_wake ht h
      | waiter_check tag op =>
        simp only [advance, waiter_check] at h
        split at h
        · rename_i hg
          split at h
          · rename_i hf
            split at h
            · rename_i f hcb
              simp at h; subst h
              exact Trans.waiter_erase tid tag op f ht hg hf hcb
            · rename_i hcb
              simp at h; subst h
              exact Trans.waiter_erase_exit tid tag op ht hg hf hcb
          · rename_i hf
            simp at h; subst h
            exact Trans.waiter_stale tid tag op ht hg hf
        · simp at h
      | waiter_call tag op =>
        simp only [advance] at h
        exact trans_of_waiter_call ht h
      | returned r => simp [advance] at h
      | raised => simp [advance] at h
    | timeout tid =>
      simp only at h
      split at h
      · rename_i tag op ht
        exact trans_of_wake ht h
      · simp at h
    | throws tid =>
      simp only at h
      split at h
      · rename_i tag f op ht
        exact trans_of_throttle_execute ht h
      · rename_i tag op ht
        exact trans_of_waiter_call ht h
      · simp at h

/-! ### The map -/

theorem find_mem {m : List (Tag × Nat)} {tag : Tag} {op : Nat} (h : find m tag = some op) :
    (tag, op) ∈ m := by
  induction m with
  | nil => simp [find] at h
  | cons e rest ih =>
    obtain ⟨k, v⟩ := e
    unfold find at h
    split at h
    · rename_i hk
      simp only [Option.some.injEq] at h
      subst hk; subst h
      exact List.mem_cons_self _ _
    · exact List.mem_cons_of_mem _ (ih h)

theorem mem_erase {m : List (Tag × Nat)} {tag : Tag} {e : Tag × Nat} :
    e ∈ erase m tag ↔ e ∈ m ∧ e.1 ≠ tag := by
  simp [erase, List.mem_filter]

theorem mem_assign {m : List (Tag × Nat)} {tag : Tag} {op : Nat} {e : Tag × Nat} :
    e ∈ assign m tag op ↔ e = (tag, op) ∨ (e ∈ m ∧ e.1 ≠ tag) := by
  simp [assign, mem_erase]

theorem find_erase_self (m : List (Tag × Nat)) (tag : Tag) : find (erase m tag) tag = none := by
  induction m with
  | nil => rfl
  | cons e rest ih =>
    obtain ⟨k, v⟩ := e
    by_cases hk : k = tag
    · simpa [erase, List.filter_cons, hk] using ih
    · simpa [erase, List.filter_cons, hk, find] using ih

theorem find_erase_ne (m : List (Tag × Nat)) {tag t : Tag} (h : t ≠ tag) :
    find (erase m tag) t = find m t := by
  induction m with
  | nil => rfl
  | cons e rest ih =>
    obtain ⟨k, v⟩ := e
    have ih2 : find (List.filter (fun e => decide (e.1 ≠ tag)) rest) t = find rest t := ih
    by_cases hk : k = tag
    · have hkt : ¬ k = t := fun hkt => h (hkt.symm.trans hk)
      have e1 : erase ((k, v) :: rest) tag = List.filter (fun e => decide (e.1 ≠ tag)) rest := by
        simp [erase, List.filter_cons, hk]
      rw [e1, ih2]
      simp [find, hkt]
    · have e1 : erase ((k, v) :: rest) tag =
          (k, v) :: List.filter (fun e => decide (e.1 ≠ tag)) rest := by
        simp [erase, List.filter_cons, hk]
      rw [e1]
      unfold find
      rw [ih2]

theorem find_assign_self (m : List (Tag × Nat)) (tag : Tag) (op : Nat) :
    find (assign m tag op) tag = some op := by
  simp [assign, find]

theorem find_assign_ne (m : List (Tag × Nat)) {tag t : Tag} (op : Nat) (h : t ≠ tag) :
    find (assign m tag op) t = find m t := by
  have h2 : ¬ tag = t := fun e => h e.symm
  simp [assign, find, h2, find_erase_ne m h]

/-! ### Thread and heap lookups -/

theorem get_set_of_some {α : Type} {l : List α} {i : Nat} {x : α} (y : α) (j : Nat)
    (h : l[i]? = some x) : (l.set i y)[j]? = if j = i then some y else l[j]? := by
  have hi : i < l.length := by
    rcases Nat.lt_or_ge i l.length with h1 | h1
    · exact h1
    · rw [List.getElem?_eq_none h1] at h
      cases h
  by_cases hj : j = i
  · subst hj
    simp [hi]
  · have hj2 : ¬ i = j := fun e => hj e.symm
    simp [hj, List.getElem?_set, hj2]

theorem get_append_one {α : Type} (l : List α) (a : α) (j : Nat) :
    (l ++ [a])[j]? = if j = l.length then some a else l[j]? := by
  by_cases hj : j = l.length
  · subst hj
    simp
  · rcases Nat.lt_or_ge j l.length with h1 | h1
    · simp [hj, List.getElem?_append_left h1]
    · have h2 : l.length < j := lt_of_le_of_ne h1 (fun e => hj e.symm)
      have h3 : (l ++ [a]).length ≤ j := by simp; omega
      rw [List.getElem?_eq_none h3, if_neg hj, List.getElem?_eq_none h1]

theorem lt_of_get {α : Type} {l : List α} {i : Nat} {x : α} (h : l[i]? = some x) :
    i < l.length := by
  rcases Nat.lt_or_ge i l.length with h1 | h1
  · exact h1
  · rw [List.getElem?_eq_none h1] at h
    cases h

theorem get_update_op (h : List Operation) (op : Nat) (f : Operation → Operation) (j : Nat) :
    (update_op h op f)[j]? = if op = j then (h[j]?).map f else h[j]? := by
  unfold update_op
  by_cases hj : op = j
  · subst hj
    rw [if_pos rfl]
    cases hg : h[op]? with
    | none => simp [hg]
    | some o =>
      have hl := lt_of_get hg
      simp [hl]
  · rw [if_neg hj]
    split
    · simp [List.getElem?_set, hj]
    · rfl

theorem thr_split1 {l : List Pc} {tid i : Nat} {x pc : Pc}
    (hi : (if tid = i then some x else l[i]?) = some pc) :
    (tid = i ∧ pc = x) ∨ (l[i]? = some pc ∧ ¬ tid = i) := by
  split_ifs at hi with c
  · left
    exact ⟨c, (Option.some.inj hi).symm⟩
  · right
    exact ⟨hi, c⟩

theorem thr_splitA {l : List Pc} {i : Nat} {w pc : Pc}
    (hi : (if i = l.length then some w else l[i]?) = some pc) :
    (i = l.length ∧ pc = w) ∨ (l[i]? = some pc ∧ i < l.length) := by
  split_ifs at hi with c
  · left
    exact ⟨c, (Option.some.inj hi).symm⟩
  · right
    exact ⟨hi, lt_of_get hi⟩

theorem thr_split2 {l : List Pc} {tid i : Nat} {w x pc : Pc}
    (hi : (if i = l.length then some w else if tid = i then some x else l[i]?) = some pc) :
    (i = l.length ∧ pc = w) ∨ (tid = i ∧ pc = x) ∨
      (l[i]? = some pc ∧ ¬ tid = i ∧ i < l.length) := by
  split_ifs at hi with c1 c2
  · left
    exact ⟨c1, (Option.some.inj hi).symm⟩
  · right; left
    exact ⟨c2, (Option.some.inj hi).symm⟩
  · right; right
    exact ⟨hi, c2, lt_of_get hi⟩

theorem mtx_owner_of_get {s : State} {op : Nat} {o : Operation} (h : s.heap[op]? = some o) :
    mtx_owner s op = o.mtx := by
  simp [mtx_owner, h]

/-! ### The log -/

theorem fired_callback (s : State) (o op : Nat) (f : Nat) (s1 : State)
    (h : s1.log = s.log ++ [Event.callback o f]) :
    fired s1 op = fired s op + (if o = op then 1 else 0) := by
  unfold fired
  rw [h, List.countP_append]
  by_cases ho : o = op
  · simp [ho]
  · simp [ho]

theorem fired_on_execute (s : State) (op : Nat) (f : Nat) (s1 : State)
    (h : s1.log = s.log ++ [Event.on_execute f]) : fired s1 op = fired s op := by
  unfold fired
  rw [h, List.countP_append]
  simp

theorem fired_same (s s1 : State) (op : Nat) (h : s1.log = s.log) :
    fired s1 op = fired s op := by
  unfold fired
  rw [h]

theorem length_update_op (h : List Operation) (op : Nat) (f : Operation → Operation) :
    (update_op h op f).length = h.length := by
  unfold update_op
  split <;> simp

theorem inv_reg_lt {k : Kind} {s s1 : State} (h : Inv s) {who : Option Nat}
    (t : Trans k s who s1) :
    ∀ (tag : Tag) (op : Nat), (tag, op) ∈ s1.operations → op < s1.heap.length := by
  have h1 := h.reg_lt
  cases t <;>
    (try simp only [goto, spawn, debounce_insert, waiter_exit, waiter_raise, length_update_op,
      mem_assign,
      mem_erase, List.length_append, List.length_set, List.length_singleton, List.not_mem_nil]) <;>
    intro tag1 op1 hm
  all_goals first
    | exact h1 _ _ hm
    | exact h1 _ _ hm.1
    | exact Nat.lt_succ_of_lt (h1 _ _ hm)
    | exact hm.elim
    | skip
  all_goals
    rcases hm with hm | hm
    · simp only [Prod.mk.injEq] at hm
      omega
    · have := h1 _ _ hm.1
      omega

theorem entry_owns_global {k : Kind} {c : Call} {pc : Pc} (h : entry k c = some pc) :
    pc.owns_global = false := by
  cases k <;> cases c <;> simp [entry] at h <;> subst h <;> rfl

theorem inv_global_owner {k : Kind} {s s1 : State} (h : Inv s) {who : Option Nat}
    (t : Trans k s who s1) :
    ∀ (i : Nat) (pc : Pc), s1.threads[i]? = some pc → pc.owns_global = true →
      s1.global_mutex = some i := by
  have h1 := h.global_owner
  cases t <;>
    (try have hlt := lt_of_get ‹s.threads[_]? = some _›) <;>
    (try have hown := fun hp => h1 _ _ ‹s.threads[_]? = some _› hp) <;>
    intro i pc hi hp <;>
    (try simp only [goto, spawn, debounce_insert, waiter_exit, waiter_raise, List.getElem?_set,
      get_append_one, List.length_set] at hi ⊢) <;>
    (try simp only [hlt, if_true] at hi) <;>
    clear h
  case call c pc1 he =>
    have := entry_owns_global he
    split_ifs at hi
    · simp_all
    · exact h1 _ _ hi hp
  all_goals
    (try split_ifs at hi) <;>
    (try have hoth := h1 _ _ hi hp) <;>
    clear h1 <;>
    (try simp only [Option.some.injEq] at hi) <;>
    (try subst hi) <;>
    (try subst_vars) <;>
    simp_all [Pc.owns_global]

theorem inv_reg_inj {k : Kind} {s s1 : State} (h : Inv s) {who : Option Nat}
    (t : Trans k s who s1) :
    ∀ (t1 t2 : Tag) (op : Nat), (t1, op) ∈ s1.operations → (t2, op) ∈ s1.operations →
      t1 = t2 := by
  have h1 := h.reg_inj
  have h2 := h.reg_lt
  cases t <;>
    (try simp only [goto, spawn, debounce_insert, waiter_exit, waiter_raise, mem_assign, mem_erase,
      List.not_mem_nil, Prod.mk.injEq, List.length_set]) <;>
    intro t1 t2 op1 hm1 hm2
  all_goals first
    | exact h1 _ _ _ hm1 hm2
    | exact h1 _ _ _ hm1.1 hm2.1
    | exact hm1.elim
    | skip
  all_goals
    rcases hm1 with hm1 | hm1 <;> rcases hm2 with hm2 | hm2
    · rw [hm1.1, hm2.1]
    · have := h2 _ _ hm2.1
      omega
    · have := h2 _ _ hm1.1
      omega
    · exact h1 _ _ _ hm1.1 hm2.1

theorem fired_goto (s : State) (tid : Nat) (pc : Pc) (op : Nat) :
    fired (goto s tid pc) op = fired s op := rfl

theorem fired_spawn (s : State) (pc : Pc) (op : Nat) : fired (spawn s pc) op = fired s op := rfl

theorem fired_waiter_exit (s : State) (tid : Nat) (o : Nat) (op : Nat) :
    fired (waiter_exit s tid o) op = fired s op := rfl

theorem fired_debounce_insert (s : State) (tid : Nat) (tag : Tag) (f : Option Nat) (op : Nat) :
    fired (debounce_insert s tid tag f) op = fired s op := rfl

theorem fired_log_callback (s : State) (o : Nat) (f : Nat) (op : Nat) (t : Bool) :
    fired { s with log := s.log ++ [Event.callback o f], terminated := t } op =
      fired s op + (if o = op then 1 else 0) :=
  fired_callback s o op f _ rfl

theorem fired_log_on_execute (s : State) (f : Nat) (op : Nat) :
    fired { s with log := s.log ++ [Event.on_execute f] } op = fired s op :=
  fired_on_execute s op f _ rfl

theorem fired_trans {k : Kind} {s s1 : State} {who : Option Nat}
    (t : Trans k s who s1) (op : Nat) :
    fired s1 op = fired s op ∨
      (fired s1 op = fired s op + 1 ∧ ∃ (tid : Nat) (tag : Tag),
        s.threads[tid]? = some (Pc.waiter_call tag op) ∧
        s1.threads[tid]? ≠ some (Pc.waiter_call tag op)) := by
  cases t
  case waiter_call tid tag o f ht hcb =>
    rw [fired_waiter_exit]
    have := fired_log_callback s o f op s.terminated
    by_cases ho : o = op
    · subst ho
      right
      refine ⟨by simpa using this, tid, tag, ht, ?_⟩
      simp only [waiter_exit, goto, get_set_of_some _ _ ht, if_pos]
      intro hh
      cases hh
    · left
      simpa [ho] using this
  case waiter_terminate tid tag o f hk ht hcb =>
    have e1 : fired (waiter_raise { s with log := s.log ++ [Event.callback o f] } tid o) op =
        fired { s with log := s.log ++ [Event.callback o f], terminated := s.terminated } op :=
      rfl
    rw [e1]
    have := fired_log_callback s o f op s.terminated
    by_cases ho : o = op
    · subst ho
      right
      refine ⟨by simpa using this, tid, tag, ht, ?_⟩
      simp only [waiter_raise, goto, get_set_of_some _ _ ht, if_pos]
      intro hh
      cases hh
    · left
      simpa [ho] using this
  case throttle_run => left; exact fired_log_on_execute s _ op
  case throttle_raise => left; exact fired_log_on_execute s _ op
  all_goals (left; rfl)

theorem heap_length_trans {k : Kind} {s s1 : State} {who : Option Nat}
    (t : Trans k s who s1) :
    s.heap.length ≤ s1.heap.length := by
  cases t <;>
    (try simp only [goto, spawn, debounce_insert, waiter_exit, waiter_raise, length_update_op,
      List.length_append, List.length_set, List.length_singleton]) <;>
    omega

theorem inv_fired_lt {k : Kind} {s s1 : State} (h : Inv s) {who : Option Nat}
    (t : Trans k s who s1) :
    ∀ op : Nat, 0 < fired s1 op → op < s1.heap.length := by
  intro op hf
  have hl := heap_length_trans t
  rcases fired_trans t op with e | ⟨e, tid, tag, ht, -⟩
  · rw [e] at hf
    have := h.fired_lt op hf
    omega
  · have := h.waits_lt tid _ op ht rfl
    omega

theorem ne_of_not_owns {s : State} {i j : Nat} {pc pc0 : Pc} (hpc : s.threads[i]? = some pc)
    (hown : pc.owns_global = true) (ht : s.threads[j]? = some pc0)
    (h0 : pc0.owns_global = false) : ¬ j = i := by
  rintro rfl
  rw [ht] at hpc
  cases hpc
  rw [h0] at hown
  cases hown

theorem inv_global_held {k : Kind} {s s1 : State} (h : Inv s) {who : Option Nat}
    (t : Trans k s who s1) :
    ∀ (i : Nat), s1.global_mutex = some i →
      ∃ pc : Pc, s1.threads[i]? = some pc ∧ pc.owns_global = true := by
  have h1 := h.global_held
  cases t <;>
    (try have hlt := lt_of_get ‹s.threads[_]? = some _›) <;>
    (try have ht1 := ‹s.threads[_]? = some _›) <;>
    intro i hgi <;>
    (try simp only [goto, spawn, debounce_insert, waiter_exit, waiter_raise, List.getElem?_set,
      get_append_one, List.length_set] at hgi ⊢) <;>
    (try simp only [hlt, if_true]) <;>
    clear h
  all_goals first
    | exact h1 i hgi
    | exact Option.noConfusion hgi
    | (simp only [Option.some.injEq] at hgi
       subst hgi
       exact ⟨_, if_pos rfl, rfl⟩)
    | (obtain ⟨pc, hpc, hown⟩ := h1 i hgi
       have hil := lt_of_get hpc
       have hne := ne_of_not_owns hpc hown ht1 rfl
       refine ⟨pc, ?_, hown⟩
       first
         | (rw [if_neg hne]; exact hpc)
         | (rw [if_neg (Nat.ne_of_lt hil), if_neg hne]; exact hpc))
    | skip
  case call c pc1 he =>
    obtain ⟨pc, hpc, hown⟩ := h1 i hgi
    have hil := lt_of_get hpc
    exact ⟨pc, by rw [if_neg (Nat.ne_of_lt hil)]; exact hpc, hown⟩
  case reset_visit tid tag op rest o ht ho hm =>
    obtain ⟨pc, hpc, hown⟩ := h1 i hgi
    by_cases hti : tid = i
    · exact ⟨_, if_pos hti, rfl⟩
    · exact ⟨pc, by rw [if_neg hti]; exact hpc, hown⟩

theorem entry_owns_mtx {k : Kind} {c : Call} {pc : Pc} (h : entry k c = some pc) :
    pc.owns_mtx = none := by
  cases k <;> cases c <;> simp [entry] at h <;> subst h <;> rfl

theorem mtx_owner_exit {s : State} {tid i op op2 : Nat} {pc0 pc : Pc}
    (h1 : ∀ (i : Nat) (pc : Pc) (op : Nat), s.threads[i]? = some pc → pc.owns_mtx = some op →
      ∃ o : Operation, s.heap[op]? = some o ∧ o.mtx = some i ∧ o.is_cancelled = false)
    (ht : s.threads[tid]? = some pc0) (h0 : pc0.owns_mtx = some op2)
    (hi : (if tid = i then some (Pc.returned none) else s.threads[i]?) = some pc)
    (hp : pc.owns_mtx = some op) :
    ∃ o : Operation,
      (if op2 = op then
        Option.map (fun o : Operation =>
          ({ mtx := none, is_cancelled := o.is_cancelled, callback := o.callback } : Operation))
          s.heap[op]?
      else s.heap[op]?) = some o ∧ o.mtx = some i ∧ o.is_cancelled = false := by
  rcases thr_split1 hi with ⟨-, rfl⟩ | ⟨hi, hne⟩
  · cases hp
  · obtain ⟨o2, ho2, hm2, hc2⟩ := h1 i pc op hi hp
    obtain ⟨o3, ho3, hm3, -⟩ := h1 _ _ _ ht h0
    have hne2 : ¬ op2 = op := by
      rintro rfl
      rw [ho3] at ho2
      cases ho2
      rw [hm3] at hm2
      exact hne (Option.some.inj hm2)
    exact ⟨o2, by rw [if_neg hne2]; exact ho2, hm2, hc2⟩

theorem inv_mtx_owner {k : Kind} {s s1 : State} (h : Inv s) {who : Option Nat}
    (t : Trans k s who s1) :
    ∀ (i : Nat) (pc : Pc) (op : Nat), s1.threads[i]? = some pc → pc.owns_mtx = some op →
      ∃ o : Operation, s1.heap[op]? = some o ∧ o.mtx = some i ∧ o.is_cancelled = false := by
  have h1 := h.mtx_owner
  cases t <;>
    (try have hlt := lt_of_get ‹s.threads[_]? = some _›) <;>
    (try have ht1 := ‹s.threads[_]? = some _›) <;>
    (try have hol := lt_of_get ‹s.heap[_]? = some _›) <;>
    intro i pc op hi hp <;>
    (try simp only [goto, spawn, debounce_insert, waiter_exit, waiter_raise, List.getElem?_set,
      get_append_one, List.length_set, get_update_op] at hi ⊢) <;>
    (try simp only [hlt, if_true] at hi) <;>
    (try simp only [hol, if_true])
  case call c pc1 he =>
    rcases thr_splitA hi with ⟨-, rfl⟩ | ⟨hi, -⟩
    · rw [entry_owns_mtx he] at hp
      cases hp
    · exact h1 i pc op hi hp
  case debounce_new tid tag f ht hg hf =>
    rcases thr_split2 hi with ⟨-, rfl⟩ | ⟨-, rfl⟩ | ⟨hi, -, -⟩
    · cases hp
    · cases hp
    · obtain ⟨o, ho, hm⟩ := h1 i pc op hi hp
      have := lt_of_get ho
      exact ⟨o, by rw [if_neg (Nat.ne_of_lt this)]; exact ho, hm⟩
  case debounce_old tid tag f old o ht ho hm =>
    rcases thr_split2 hi with ⟨-, rfl⟩ | ⟨-, rfl⟩ | ⟨hi, -, -⟩
    · cases hp
    · cases hp
    · obtain ⟨o2, ho2, hm2, hc2⟩ := h1 i pc op hi hp
      have := lt_of_get ho2
      have hne : ¬ old = op := by
        rintro rfl
        rw [ho] at ho2
        cases ho2
        rw [hm] at hm2
        cases hm2
      exact ⟨o2, by rw [if_neg (Nat.ne_of_lt this), if_neg hne]; exact ho2, hm2, hc2⟩
  case throttle_new tid tag f a ht hg hf =>
    rcases thr_split1 hi with ⟨-, rfl⟩ | ⟨hi, -⟩
    · cases hp
    · obtain ⟨o, ho, hm⟩ := h1 i pc op hi hp
      have := lt_of_get ho
      exact ⟨o, by rw [if_neg (Nat.ne_of_lt this)]; exact ho, hm⟩
  case cancel_signal tid tag op2 o ht ho hm =>
    rcases thr_split1 hi with ⟨-, rfl⟩ | ⟨hi, -⟩
    · cases hp
    · obtain ⟨o2, ho2, hm2, hc2⟩ := h1 i pc op hi hp
      have hne : ¬ op2 = op := by
        rintro rfl
        rw [ho] at ho2
        cases ho2
        rw [hm] at hm2
        cases hm2
      exact ⟨o2, by rw [if_neg hne]; exact ho2, hm2, hc2⟩
  case reset_visit tid tag op2 rest o ht ho hm =>
    rcases thr_split1 hi with ⟨-, rfl⟩ | ⟨hi, -⟩
    · cases hp
    · obtain ⟨o2, ho2, hm2, hc2⟩ := h1 i pc op hi hp
      have hne : ¬ op2 = op := by
        rintro rfl
        rw [ho] at ho2
        cases ho2
        rw [hm] at hm2
        cases hm2
      exact ⟨o2, by rw [if_neg hne]; exact ho2, hm2, hc2⟩
  case waiter_timeout tid tag op2 o ht ho hm hc =>
    rcases thr_split1 hi with ⟨rfl, rfl⟩ | ⟨hi, -⟩
    · simp only [Pc.owns_mtx, Option.some.injEq] at hp
      subst hp
      exact ⟨_, if_pos rfl, rfl, hc⟩
    · obtain ⟨o2, ho2, hm2, hc2⟩ := h1 i pc op hi hp
      have hne : ¬ op2 = op := by
        rintro rfl
        rw [ho] at ho2
        cases ho2
        rw [hm] at hm2
        cases hm2
      exact ⟨o2, by rw [if_neg hne]; exact ho2, hm2, hc2⟩
  case waiter_erase tid tag op2 f ht hg hf hcb =>
    rcases thr_split1 hi with ⟨rfl, rfl⟩ | ⟨hi, -⟩
    · simp only [Pc.owns_mtx, Option.some.injEq] at hp
      subst hp
      exact h1 _ _ _ ht rfl
    · exact h1 i pc op hi hp
  case waiter_erase_exit tid tag op2 ht hg hf hcb =>
    exact mtx_owner_exit h1 ht rfl hi hp
  case waiter_stale tid tag op2 ht hg hf =>
    exact mtx_owner_exit h1 ht rfl hi hp
  case waiter_call tid tag op2 f ht hcb =>
    exact mtx_owner_exit h1 ht rfl hi hp
  case waiter_terminate tid tag op2 f hk ht hcb =>
    rcases thr_split1 hi with ⟨-, rfl⟩ | ⟨hi2, hne⟩
    · cases hp
    · exact mtx_owner_exit h1 ht rfl (by rw [if_neg hne]; exact hi2) hp
  all_goals first
    | exact h1 i pc op hi hp
    | (rcases thr_split1 hi with ⟨-, rfl⟩ | ⟨hi, hne⟩
       · cases hp
       · exact h1 i pc op hi hp)
    | (rcases thr_split2 hi with ⟨-, rfl⟩ | ⟨-, rfl⟩ | ⟨hi, -, -⟩
       · cases hp
       · cases hp
       · exact h1 i pc op hi hp)

theorem ne_of_not_owns_mtx {s : State} {i j op : Nat} {pc pc0 : Pc}
    (hpc : s.threads[i]? = some pc) (hown : pc.owns_mtx = some op)
    (ht : s.threads[j]? = some pc0) (h0 : pc0.owns_mtx = none) : ¬ j = i := by
  rintro rfl
  rw [ht] at hpc
  cases hpc
  rw [h0] at hown
  cases hown

theorem ne_of_owns_mtx {s : State} {i j op op2 : Nat} {pc pc0 : Pc}
    (hpc : s.threads[i]? = some pc) (hown : pc.owns_mtx = some op)
    (ht : s.threads[j]? = some pc0) (h0 : pc0.owns_mtx = some op2) (hne : ¬ op2 = op) :
    ¬ j = i := by
  rintro rfl
  rw [ht] at hpc
  cases hpc
  rw [h0] at hown
  exact hne (Option.some.inj hown)

theorem mtx_held_exit {s : State} {tid i op op2 : Nat} {pc0 : Pc} {o1 : Operation}
    (h1 : ∀ (op : Nat) (o : Operation) (i : Nat), s.heap[op]? = some o → o.mtx = some i →
      ∃ pc : Pc, s.threads[i]? = some pc ∧ pc.owns_mtx = some op)
    (ht : s.threads[tid]? = some pc0) (h0 : pc0.owns_mtx = some op2)
    (ho1 : (if op2 = op then
        Option.map (fun o : Operation =>
          ({ mtx := none, is_cancelled := o.is_cancelled, callback := o.callback } : Operation))
          s.heap[op]?
      else s.heap[op]?) = some o1)
    (hm1 : o1.mtx = some i) :
    ∃ pc : Pc, (if tid = i then some (Pc.returned none) else s.threads[i]?) = some pc ∧
      pc.owns_mtx = some op := by
  split_ifs at ho1 with c
  · simp only [Option.map_eq_some'] at ho1
    obtain ⟨o, -, rfl⟩ := ho1
    cases hm1
  · obtain ⟨pc, hpc, hown⟩ := h1 op o1 i ho1 hm1
    have hne := ne_of_owns_mtx hpc hown ht h0 c
    exact ⟨pc, by rw [if_neg hne]; exact hpc, hown⟩

theorem inv_mtx_held {k : Kind} {s s1 : State} (h : Inv s) {who : Option Nat}
    (t : Trans k s who s1) :
    ∀ (op : Nat) (o : Operation) (i : Nat), s1.heap[op]? = some o → o.mtx = some i →
      ∃ pc : Pc, s1.threads[i]? = some pc ∧ pc.owns_mtx = some op := by
  have h1 := h.mtx_held
  cases t <;>
    (try have hlt := lt_of_get ‹s.threads[_]? = some _›) <;>
    (try have ht1 := ‹s.threads[_]? = some _›) <;>
    (try have hol := lt_of_get ‹s.heap[_]? = some _›) <;>
    intro op o1 i ho1 hm1 <;>
    (try simp only [goto, spawn, debounce_insert, waiter_exit, waiter_raise, List.getElem?_set,
      get_append_one, List.length_set, get_update_op] at ho1 ⊢) <;>
    (try simp only [hlt, if_true]) <;>
    (try simp only [hol, if_true] at ho1)
  case call c pc1 he =>
    obtain ⟨pc, hpc, hown⟩ := h1 op o1 i ho1 hm1
    have hil := lt_of_get hpc
    exact ⟨pc, by rw [if_neg (Nat.ne_of_lt hil)]; exact hpc, hown⟩
  case debounce_new tid tag f ht hg hf =>
    split_ifs at ho1 with c
    · cases ho1
      cases hm1
    · obtain ⟨pc, hpc, hown⟩ := h1 op o1 i ho1 hm1
      have hil := lt_of_get hpc
      have hne := ne_of_not_owns_mtx hpc hown ht rfl
      exact ⟨pc, by rw [if_neg (Nat.ne_of_lt hil), if_neg hne]; exact hpc, hown⟩
  case debounce_old tid tag f old o ht ho hm =>
    split_ifs at ho1 with c c2
    · cases ho1
      cases hm1
    · cases ho1
      rw [hm] at hm1
      cases hm1
    · obtain ⟨pc, hpc, hown⟩ := h1 op o1 i ho1 hm1
      have hil := lt_of_get hpc
      have hne := ne_of_not_owns_mtx hpc hown ht rfl
      exact ⟨pc, by rw [if_neg (Nat.ne_of_lt hil), if_neg hne]; exact hpc, hown⟩
  case throttle_new tid tag f a ht hg hf =>
    split_ifs at ho1 with c
    · cases ho1
      cases hm1
    · obtain ⟨pc, hpc, hown⟩ := h1 op o1 i ho1 hm1
      have hne := ne_of_not_owns_mtx hpc hown ht rfl
      exact ⟨pc, by rw [if_neg hne]; exact hpc, hown⟩
  case cancel_signal tid tag op2 o ht ho hm =>
    split_ifs at ho1 with c
    · cases ho1
      rw [hm] at hm1
      cases hm1
    · obtain ⟨pc, hpc, hown⟩ := h1 op o1 i ho1 hm1
      have hne := ne_of_not_owns_mtx hpc hown ht rfl
      exact ⟨pc, by rw [if_neg hne]; exact hpc, hown⟩
  case reset_visit tid tag op2 rest o ht ho hm =>
    split_ifs at ho1 with c
    · cases ho1
      rw [hm] at hm1
      cases hm1
    · obtain ⟨pc, hpc, hown⟩ := h1 op o1 i ho1 hm1
      have hne := ne_of_not_owns_mtx hpc hown ht rfl
      exact ⟨pc, by rw [if_neg hne]; exact hpc, hown⟩
  case waiter_timeout tid tag op2 o ht ho hm hc =>
    split_ifs at ho1 with c
    · cases ho1
      cases hm1
      subst c
      exact ⟨_, if_pos rfl, rfl⟩
    · obtain ⟨pc, hpc, hown⟩ := h1 op o1 i ho1 hm1
      have hne := ne_of_not_owns_mtx hpc hown ht rfl
      exact ⟨pc, by rw [if_neg hne]; exact hpc, hown⟩
  case waiter_erase tid tag op2 f ht hg hf hcb =>
    obtain ⟨pc, hpc, hown⟩ := h1 op o1 i ho1 hm1
    by_cases hti : tid = i
    · subst hti
      rw [ht] at hpc
      cases hpc
      exact ⟨_, if_pos rfl, hown⟩
    · exact ⟨pc, by rw [if_neg hti]; exact hpc, hown⟩
  case waiter_erase_exit tid tag op2 ht hg hf hcb =>
    exact mtx_held_exit h1 ht rfl ho1 hm1
  case waiter_stale tid tag op2 ht hg hf =>
    exact mtx_held_exit h1 ht rfl ho1 hm1
  case waiter_call tid tag op2 f ht hcb =>
    exact mtx_held_exit h1 ht rfl ho1 hm1
  case waiter_terminate tid tag op2 f hk ht hcb =>
    obtain ⟨pc, hpc, hown⟩ := mtx_held_exit h1 ht rfl ho1 hm1
    rcases thr_split1 hpc with ⟨-, rfl⟩ | ⟨hi2, hne⟩
    · cases hown
    · exact ⟨pc, by rw [if_neg hne]; exact hi2, hown⟩
  all_goals first
    | exact h1 op o1 i ho1 hm1
    | (obtain ⟨pc, hpc, hown⟩ := h1 op o1 i ho1 hm1
       have hil := lt_of_get hpc
       have hne := ne_of_not_owns_mtx hpc hown ht1 rfl
       first
         | exact ⟨pc, by rw [if_neg hne]; exact hpc, hown⟩
         | exact ⟨pc, by rw [if_neg (Nat.ne_of_lt hil), if_neg hne]; exact hpc, hown⟩)

theorem entry_waits_for {k : Kind} {c : Call} {pc : Pc} (h : entry k c = some pc) :
    pc.waits_for = none := by
  cases k <;> cases c <;> simp [entry] at h <;> subst h <;> rfl

theorem inv_waits_lt {k : Kind} {s s1 : State} (h : Inv s) {who : Option Nat}
    (t : Trans k s who s1) :
    ∀ (i : Nat) (pc : Pc) (op : Nat), s1.threads[i]? = some pc → pc.waits_for = some op →
      op < s1.heap.length := by
  have h1 := h.waits_lt
  have hl := heap_length_trans t
  cases t <;>
    (try have hlt := lt_of_get ‹s.threads[_]? = some _›) <;>
    (try have ht1 := ‹s.threads[_]? = some _›) <;>
    intro i pc op hi hp <;>
    (try simp only [goto, spawn, debounce_insert, waiter_exit, waiter_raise, List.getElem?_set,
      get_append_one, List.length_set, length_update_op, List.length_append,
      List.length_singleton] at hi hl ⊢) <;>
    (try simp only [hlt, if_true] at hi)
  case call c pc1 he =>
    rcases thr_splitA hi with ⟨-, rfl⟩ | ⟨hi, -⟩
    · rw [entry_waits_for he] at hp
      cases hp
    · exact h1 i pc op hi hp
  all_goals first
    | exact h1 i pc op hi hp
    | (rcases thr_split1 hi with ⟨-, rfl⟩ | ⟨hi, -⟩
       · first
         | (cases hp; done)
         | (simp only [Pc.waits_for, Option.some.injEq] at hp
            subst hp
            first
              | exact h1 _ _ _ ht1 rfl
              | omega)
       · first
         | exact h1 i pc op hi hp
         | exact Nat.lt_succ_of_lt (h1 i pc op hi hp))
    | (rcases thr_split2 hi with ⟨-, rfl⟩ | ⟨-, rfl⟩ | ⟨hi, -, -⟩
       · simp only [Pc.waits_for, Option.some.injEq] at hp
         subst hp
         first
           | exact h1 _ _ _ ht1 rfl
           | omega
       · cases hp
       · first
         | exact h1 i pc op hi hp
         | exact Nat.lt_succ_of_lt (h1 i pc op hi hp))

/-- No two threads of the list wait for the same Operation. -/
theorem waits_inj_set {l : List Pc} {tid : Nat} {pc0 x : Pc}
    (h1 : ∀ (i j : Nat) (pci pcj : Pc) (op : Nat), l[i]? = some pci → l[j]? = some pcj →
      pci.waits_for = some op → pcj.waits_for = some op → i = j)
    (ht : l[tid]? = some pc0)
    (hx : ∀ op : Nat, x.waits_for = some op →
      pc0.waits_for = some op ∨
        ∀ (j : Nat) (pcj : Pc), l[j]? = some pcj → pcj.waits_for ≠ some op) :
    ∀ (i j : Nat) (pci pcj : Pc) (op : Nat),
      (if tid = i then some x else l[i]?) = some pci →
      (if tid = j then some x else l[j]?) = some pcj →
      pci.waits_for = some op → pcj.waits_for = some op → i = j := by
  intro i j pci pcj op hi hj hpi hpj
  rcases thr_split1 hi with ⟨rfl, rfl⟩ | ⟨ki, hni⟩ <;>
    rcases thr_split1 hj with ⟨rfl, rfl⟩ | ⟨kj, hnj⟩
  · rfl
  · rcases hx op hpi with h0 | h0
    · exact h1 _ _ _ _ op ht kj h0 hpj
    · exact absurd hpj (h0 _ _ kj)
  · rcases hx op hpj with h0 | h0
    · exact h1 _ _ _ _ op ki ht hpi h0
    · exact absurd hpi (h0 _ _ ki)
  · exact h1 _ _ _ _ op ki kj hpi hpj

theorem waits_inj_spawn {l : List Pc} {tid : Nat} {pc0 x w : Pc}
    (h1 : ∀ (i j : Nat) (pci pcj : Pc) (op : Nat), l[i]? = some pci → l[j]? = some pcj →
      pci.waits_for = some op → pcj.waits_for = some op → i = j)
    (ht : l[tid]? = some pc0) (hx : x.waits_for = none)
    (hw : ∀ op : Nat, w.waits_for = some op →
      pc0.waits_for = some op ∨
        ∀ (j : Nat) (pcj : Pc), l[j]? = some pcj → pcj.waits_for ≠ some op) :
    ∀ (i j : Nat) (pci pcj : Pc) (op : Nat),
      (if i = l.length then some w else if tid = i then some x else l[i]?) = some pci →
      (if j = l.length then some w else if tid = j then some x else l[j]?) = some pcj →
      pci.waits_for = some op → pcj.waits_for = some op → i = j := by
  intro i j pci pcj op hi hj hpi hpj
  rcases thr_split2 hi with ⟨rfl, rfl⟩ | ⟨rfl, rfl⟩ | ⟨ki, hni, -⟩ <;>
    rcases thr_split2 hj with ⟨rfl, rfl⟩ | ⟨rfl, rfl⟩ | ⟨kj, hnj, -⟩
  · rfl
  · rw [hx] at hpj
    cases hpj
  · rcases hw op hpi with h0 | h0
    · exact absurd (h1 _ _ _ _ op ht kj h0 hpj) hnj
    · exact absurd hpj (h0 _ _ kj)
  · rw [hx] at hpi
    cases hpi
  · rfl
  · rw [hx] at hpi
    cases hpi
  · rcases hw op hpj with h0 | h0
    · exact absurd (h1 _ _ _ _ op ht ki h0 hpi) hni
    · exact absurd hpi (h0 _ _ ki)
  · rw [hx] at hpj
    cases hpj
  · exact h1 _ _ _ _ op ki kj hpi hpj

theorem inv_waits_inj {k : Kind} {s s1 : State} (h : Inv s) {who : Option Nat}
    (t : Trans k s who s1) :
    ∀ (i j : Nat) (pci pcj : Pc) (op : Nat), s1.threads[i]? = some pci →
      s1.threads[j]? = some pcj → pci.waits_for = some op → pcj.waits_for = some op →
      i = j := by
  have h1 := h.waits_inj
  have h2 := h.waits_lt
  have fresh : ∀ op, op = s.heap.length →
      ∀ (j : Nat) (pcj : Pc), s.threads[j]? = some pcj → pcj.waits_for ≠ some op := by
    intro op hop j pcj hj hp
    have := h2 j pcj op hj hp
    omega
  cases t <;>
    (try have hlt := lt_of_get ‹s.threads[_]? = some _›) <;>
    (try have ht1 := ‹s.threads[_]? = some _›) <;>
    (try simp only [goto, spawn, debounce_insert, waiter_exit, waiter_raise, List.getElem?_set,
      get_append_one, List.length_set]) <;>
    (try simp only [hlt, if_true])
  case call c pc1 he =>
    intro i j pci pcj op hi hj hpi hpj
    rcases thr_splitA hi with ⟨rfl, rfl⟩ | ⟨hi, -⟩
    · rw [entry_waits_for he] at hpi
      cases hpi
    · rcases thr_splitA hj with ⟨rfl, rfl⟩ | ⟨hj, -⟩
      · rw [entry_waits_for he] at hpj
        cases hpj
      · exact h1 _ _ _ _ op hi hj hpi hpj
  all_goals first
    | exact h1
    | (refine waits_inj_set h1 ht1 ?_
       intro op hop
       first
         | (cases hop; done)
         | (left; exact hop)
         | (right
            simp only [Pc.waits_for, Option.some.injEq] at hop
            exact fresh op hop.symm))
    | (refine waits_inj_spawn h1 ht1 rfl ?_
       intro op hop
       first
         | (left; exact hop)
         | (right
            simp only [Pc.waits_for, Option.some.injEq] at hop
            exact fresh op hop.symm))

/-! ### What one transition does to the map, the heap and the threads -/

theorem ops_trans {k : Kind} {s s1 : State} {who : Option Nat}
    (t : Trans k s who s1) (tag : Tag) (op : Nat)
    (hm : (tag, op) ∈ s1.operations) : (tag, op) ∈ s.operations ∨ op = s.heap.length := by
  cases t <;>
    (try simp only [goto, spawn, debounce_insert, waiter_exit, waiter_raise, mem_assign,
      mem_erase, List.not_mem_nil, Prod.mk.injEq, List.length_set] at hm)
  all_goals first
    | exact Or.inl hm
    | exact Or.inl hm.1
    | exact hm.elim
    | (rcases hm with hm | hm
       · exact Or.inr hm.2
       · exact Or.inl hm.1)

theorem heap_trans {k : Kind} {s s1 : State} {who : Option Nat}
    (t : Trans k s who s1) (op : Nat) (o : Operation)
    (ho : s.heap[op]? = some o) :
    ∃ o1 : Operation, s1.heap[op]? = some o1 ∧ o1.callback = o.callback ∧
      (o1.is_cancelled = o.is_cancelled ∨
        (∃ (tid : Nat) (tag : Tag) (f : Option Nat),
          s.threads[tid]? = some (Pc.debounce_old tag f op)) ∨
        (∃ (tid : Nat) (tag : Tag), s.threads[tid]? = some (Pc.cancel_signal tag op)) ∨
        (∃ (tid : Nat) (tag : Tag) (rest : List (Tag × Nat)),
          s.threads[tid]? = some (Pc.reset_loop ((tag, op) :: rest)))) := by
  have hl := lt_of_get ho
  cases t <;>
    (try have hol := lt_of_get ‹s.heap[_]? = some _›) <;>
    (try simp only [goto, spawn, debounce_insert, waiter_exit, waiter_raise, List.getElem?_set,
      get_append_one, List.length_set, get_update_op]) <;>
    (try simp only [hol, if_true])
  case debounce_new => exact ⟨o, by rw [if_neg (Nat.ne_of_lt hl)]; exact ho, rfl, Or.inl rfl⟩
  case throttle_new => exact ⟨o, by rw [if_neg (Nat.ne_of_lt hl)]; exact ho, rfl, Or.inl rfl⟩
  case debounce_old tid tag f old o2 ht ho2 hm =>
    rw [if_neg (Nat.ne_of_lt hl)]
    by_cases c : old = op
    · subst c
      rw [ho] at ho2
      cases ho2
      exact ⟨_, if_pos rfl, rfl, Or.inr (Or.inl ⟨tid, tag, f, ht⟩)⟩
    · exact ⟨o, by rw [if_neg c]; exact ho, rfl, Or.inl rfl⟩
  case cancel_signal tid tag op2 o2 ht ho2 hm =>
    by_cases c : op2 = op
    · subst c
      rw [ho] at ho2
      cases ho2
      exact ⟨_, if_pos rfl, rfl, Or.inr (Or.inr (Or.inl ⟨tid, tag, ht⟩))⟩
    · exact ⟨o, by rw [if_neg c]; exact ho, rfl, Or.inl rfl⟩
  case reset_visit tid tag op2 rest o2 ht ho2 hm =>
    by_cases c : op2 = op
    · subst c
      rw [ho] at ho2
      cases ho2
      exact ⟨_, if_pos rfl, rfl, Or.inr (Or.inr (Or.inr ⟨tid, tag, rest, ht⟩))⟩
    · exact ⟨o, by rw [if_neg c]; exact ho, rfl, Or.inl rfl⟩
  case waiter_timeout tid tag op2 o2 ht ho2 hm hc =>
    by_cases c : op2 = op
    · subst c
      rw [ho] at ho2
      cases ho2
      exact ⟨_, if_pos rfl, rfl, Or.inl rfl⟩
    · exact ⟨o, by rw [if_neg c]; exact ho, rfl, Or.inl rfl⟩
  all_goals first
    | exact ⟨o, ho, rfl, Or.inl rfl⟩
    | (split_ifs with c
       · rw [ho]
         exact ⟨_, rfl, rfl, Or.inl rfl⟩
       · exact ⟨o, ho, rfl, Or.inl rfl⟩)

theorem ops_stable {k : Kind} {s s1 : State} (h : Inv s) {who : Option Nat}
    (t : Trans k s who s1) (i : Nat)
    (hg : s.global_mutex = some i) (hsame : s1.threads[i]? = s.threads[i]?) :
    s1.operations = s.operations := by
  have h1 := h.global_owner
  cases t <;>
    (try have hnone := ‹s.global_mutex = none›) <;>
    (try have ht1 := ‹s.threads[_]? = some _›)
  case debounce_old tid tag f old o ht ho hm =>
    have e := h1 _ _ ht rfl
    rw [hg] at e
    cases e
    have hlt := lt_of_get ht
    simp only [debounce_insert, goto, spawn, get_append_one, List.length_set,
      List.getElem?_set, hlt, if_true, if_neg (Nat.ne_of_lt hlt)] at hsame
    rw [ht] at hsame
    cases hsame
  case reset_clear tid ht =>
    have e := h1 _ _ ht rfl
    rw [hg] at e
    cases e
    have hlt := lt_of_get ht
    simp only [goto, List.getElem?_set, hlt, if_true] at hsame
    rw [ht] at hsame
    cases hsame
  all_goals first
    | rfl
    | (rw [hg] at hnone
       cases hnone)

theorem arrive_waiter_call {k : Kind} {s s1 : State} {who : Option Nat}
    (t : Trans k s who s1) {i : Nat} {tag : Tag}
    {op : Nat} (hi : s1.threads[i]? = some (Pc.waiter_call tag op)) :
    s.threads[i]? = some (Pc.waiter_call tag op) ∨
      (s.threads[i]? = some (Pc.waiter_check tag op) ∧ find s.operations tag = some op ∧
        s1.operations = erase s.operations tag ∧ s1.log = s.log ∧ s1.heap = s.heap ∧
        (∃ f : Nat, (s.heap[op]?).bind (fun o : Operation => o.callback) = some f) ∧
        ∀ (j : Nat) (pc : Pc), s1.threads[j]? = some pc → j ≠ i → s.threads[j]? = some pc) := by
  cases t <;>
    (try have hlt := lt_of_get ‹s.threads[_]? = some _›) <;>
    (try simp only [goto, spawn, debounce_insert, waiter_exit, waiter_raise, List.getElem?_set,
      get_append_one, List.length_set] at hi) <;>
    (try simp only [hlt, if_true] at hi)
  case call c pc1 he =>
    rcases thr_splitA hi with ⟨-, e⟩ | ⟨hi2, -⟩
    · rw [← e] at he
      cases k <;> cases c <;> simp [entry] at he
    · exact Or.inl hi2
  case waiter_erase tid tag2 op2 f ht hg hf hcb =>
    rcases thr_split1 hi with ⟨e1, e2⟩ | ⟨hi2, -⟩
    · cases e2
      subst e1
      right
      refine ⟨ht, hf, rfl, rfl, rfl, ⟨f, hcb⟩, ?_⟩
      intro j pc hj hji
      simp only [goto, List.getElem?_set, hlt, if_true] at hj
      rcases thr_split1 hj with ⟨e3, -⟩ | ⟨hj2, -⟩
      · exact absurd e3.symm hji
      · exact hj2
    · exact Or.inl hi2
  all_goals first
    | exact Or.inl hi
    | (rcases thr_split1 hi with ⟨-, e⟩ | ⟨hi2, -⟩
       · cases e
       · exact Or.inl hi2)
    | (rcases thr_split2 hi with ⟨-, e⟩ | ⟨-, e⟩ | ⟨hi2, -, -⟩
       · cases e
       · cases e
       · exact Or.inl hi2)

theorem arrive_cancel_signal {k : Kind} {s s1 : State} {who : Option Nat}
    (t : Trans k s who s1) {i : Nat}
    {tag : Tag} {op : Nat} (hi : s1.threads[i]? = some (Pc.cancel_signal tag op)) :
    s.threads[i]? = some (Pc.cancel_signal tag op) ∨
      (find s.operations tag = some op ∧ s1.operations = erase s.operations tag ∧
        s1.log = s.log ∧ s1.heap = s.heap) := by
  cases t <;>
    (try have hlt := lt_of_get ‹s.threads[_]? = some _›) <;>
    (try simp only [goto, spawn, debounce_insert, waiter_exit, waiter_raise, List.getElem?_set,
      get_append_one, List.length_set] at hi) <;>
    (try simp only [hlt, if_true] at hi)
  case call c pc1 he =>
    rcases thr_splitA hi with ⟨-, e⟩ | ⟨hi2, -⟩
    · rw [← e] at he
      cases k <;> cases c <;> simp [entry] at he
    · exact Or.inl hi2
  case cancel_hit tid tag2 op2 ht hg hf =>
    rcases thr_split1 hi with ⟨e1, e2⟩ | ⟨hi2, -⟩
    · cases e2
      exact Or.inr ⟨hf, rfl, rfl, rfl⟩
    · exact Or.inl hi2
  all_goals first
    | exact Or.inl hi
    | (rcases thr_split1 hi with ⟨-, e⟩ | ⟨hi2, -⟩
       · cases e
       · exact Or.inl hi2)
    | (rcases thr_split2 hi with ⟨-, e⟩ | ⟨-, e⟩ | ⟨hi2, -, -⟩
       · cases e
       · cases e
       · exact Or.inl hi2)

theorem arrive_debounce_old {k : Kind} {s s1 : State} {who : Option Nat}
    (t : Trans k s who s1) {i : Nat}
    {tag : Tag} {f : Option Nat} {op : Nat}
    (hi : s1.threads[i]? = some (Pc.debounce_old tag f op)) :
    s.threads[i]? = some (Pc.debounce_old tag f op) ∨
      (find s.operations tag = some op ∧ s1.operations = s.operations) := by
  cases t <;>
    (try have hlt := lt_of_get ‹s.threads[_]? = some _›) <;>
    (try simp only [goto, spawn, debounce_insert, waiter_exit, waiter_raise, List.getElem?_set,
      get_append_one, List.length_set] at hi) <;>
    (try simp only [hlt, if_true] at hi)
  case call c pc1 he =>
    rcases thr_splitA hi with ⟨-, e⟩ | ⟨hi2, -⟩
    · rw [← e] at he
      cases k <;> cases c <;> simp [entry] at he
    · exact Or.inl hi2
  case debounce_lock tid tag2 f2 op2 ht hg hf =>
    rcases thr_split1 hi with ⟨e1, e2⟩ | ⟨hi2, -⟩
    · cases e2
      exact Or.inr ⟨hf, rfl⟩
    · exact Or.inl hi2
  all_goals first
    | exact Or.inl hi
    | (rcases thr_split1 hi with ⟨-, e⟩ | ⟨hi2, -⟩
       · cases e
       · exact Or.inl hi2)
    | (rcases thr_split2 hi with ⟨-, e⟩ | ⟨-, e⟩ | ⟨hi2, -, -⟩
       · cases e
       · cases e
       · exact Or.inl hi2)

theorem arrive_reset_loop {k : Kind} {s s1 : State} {who : Option Nat}
    (t : Trans k s who s1) {i : Nat}
    {rest : List (Tag × Nat)} (hi : s1.threads[i]? = some (Pc.reset_loop rest)) :
    s.threads[i]? = some (Pc.reset_loop rest) ∨
      (rest = s.operations ∧ s1.operations = s.operations) ∨
      (∃ x : Tag × Nat, s.threads[i]? = some (Pc.reset_loop (x :: rest)) ∧
        s1.operations = s.operations) := by
  cases t <;>
    (try have hlt := lt_of_get ‹s.threads[_]? = some _›) <;>
    (try simp only [goto, spawn, debounce_insert, waiter_exit, waiter_raise, List.getElem?_set,
      get_append_one, List.length_set] at hi) <;>
    (try simp only [hlt, if_true] at hi)
  case call c pc1 he =>
    rcases thr_splitA hi with ⟨-, e⟩ | ⟨hi2, -⟩
    · rw [← e] at he
      cases k <;> cases c <;> simp [entry] at he
    · exact Or.inl hi2
  case reset tid ht hg =>
    rcases thr_split1 hi with ⟨e1, e2⟩ | ⟨hi2, -⟩
    · cases e2
      exact Or.inr (Or.inl ⟨rfl, rfl⟩)
    · exact Or.inl hi2
  case reset_visit tid tag op rest2 o ht ho hm =>
    rcases thr_split1 hi with ⟨e1, e2⟩ | ⟨hi2, -⟩
    · cases e2
      subst e1
      exact Or.inr (Or.inr ⟨(tag, op), ht, rfl⟩)
    · exact Or.inl hi2
  all_goals first
    | exact Or.inl hi
    | (rcases thr_split1 hi with ⟨-, e⟩ | ⟨hi2, -⟩
       · cases e
       · exact Or.inl hi2)
    | (rcases thr_split2 hi with ⟨-, e⟩ | ⟨-, e⟩ | ⟨hi2, -, -⟩
       · cases e
       · cases e
       · exact Or.inl hi2)

theorem not_registered_trans {k : Kind} {s s1 : State} {who : Option Nat}
    (t : Trans k s who s1) {op : Nat}
    (hlt : op < s.heap.length) (hnr : ¬ Registered s op) : ¬ Registered s1 op := by
  rintro ⟨tag, hm⟩
  rcases ops_trans t tag op hm with hold | hnew
  · exact hnr ⟨tag, hold⟩
  · omega

theorem not_registered_erase {s : State} (h : Inv s) {tag : Tag} {op : Nat}
    (hf : find s.operations tag = some op) (ops1 : List (Tag × Nat))
    (he : ops1 = erase s.operations tag) : ¬ ∃ t, (t, op) ∈ ops1 := by
  rintro ⟨t, hm⟩
  rw [he, mem_erase] at hm
  exact hm.2 (h.reg_inj t tag op hm.1 (find_mem hf))

theorem inv_registered_unfired {k : Kind} {s s1 : State} (h : Inv s) {who : Option Nat}
    (t : Trans k s who s1) :
    ∀ (tag : Tag) (op : Nat), (tag, op) ∈ s1.operations → fired s1 op = 0 := by
  intro tag op hm
  rcases ops_trans t tag op hm with hold | hnew
  · have h0 := h.registered_unfired tag op hold
    rcases fired_trans t op with e | ⟨-, tid, tag2, ht, -⟩
    · rw [e, h0]
    · exact absurd ⟨tag, hold⟩ (h.call_state tid tag2 op ht).1
  · have h0 : fired s op = 0 := by
      rcases Nat.eq_zero_or_pos (fired s op) with e | e
      · exact e
      · have := h.fired_lt op e
        omega
    rcases fired_trans t op with e | ⟨-, tid, tag2, ht, -⟩
    · rw [e, h0]
    · have := h.waits_lt tid _ op ht rfl
      omega

theorem inv_fired_once {k : Kind} {s s1 : State} (h : Inv s) {who : Option Nat}
    (t : Trans k s who s1) :
    ∀ op : Nat, 0 < fired s1 op →
      fired s1 op = 1 ∧ ∃ o : Operation, s1.heap[op]? = some o ∧ o.is_cancelled = false := by
  intro op hf
  rcases fired_trans t op with e | ⟨e, tid, tag, ht, -⟩
  · rw [e] at hf
    obtain ⟨e1, o, ho, hc⟩ := h.fired_once op hf
    obtain ⟨o1, ho1, -, hcan⟩ := heap_trans t op o ho
    refine ⟨by rw [e]; exact e1, o1, ho1, ?_⟩
    rcases hcan with hsame | ⟨j, tg, f, hj⟩ | ⟨j, tg, hj⟩ | ⟨j, tg, rest, hj⟩
    · rw [hsame]
      exact hc
    · have := h.registered_unfired tg op (h.old_state j tg f op hj)
      omega
    · have := (h.cancel_state j tg op hj).2.2
      omega
    · have := h.registered_unfired tg op
        (h.reset_state j _ hj (tg, op) (List.mem_cons_self _ _))
      omega
  · obtain ⟨hnr, h0, hnc, -⟩ := h.call_state tid tag op ht
    obtain ⟨o, ho, -, hc⟩ := h.mtx_owner tid _ op ht rfl
    obtain ⟨o1, ho1, -, hcan⟩ := heap_trans t op o ho
    refine ⟨by rw [e, h0], o1, ho1, ?_⟩
    rcases hcan with hsame | ⟨j, tg, f, hj⟩ | ⟨j, tg, hj⟩ | ⟨j, tg, rest, hj⟩
    · rw [hsame]
      exact hc
    · exact absurd ⟨tg, h.old_state j tg f op hj⟩ hnr
    · exact absurd hj (hnc j tg)
    · exact absurd ⟨tg, h.reset_state j _ hj (tg, op) (List.mem_cons_self _ _)⟩ hnr

theorem inv_call_state {k : Kind} {s s1 : State} (h : Inv s) {who : Option Nat}
    (t : Trans k s who s1) :
    ∀ (i : Nat) (tag : Tag) (op : Nat), s1.threads[i]? = some (Pc.waiter_call tag op) →
      ¬ Registered s1 op ∧ fired s1 op = 0 ∧
      (∀ (j : Nat) (t : Tag), s1.threads[j]? ≠ some (Pc.cancel_signal t op)) ∧
      ∃ f : Nat, (s1.heap[op]?).bind (fun o : Operation => o.callback) = some f := by
  intro i tag op hi
  rcases arrive_waiter_call t hi with hold | ⟨hchk, hfind, hops, hlog, hheap, ⟨f, hcb⟩, hoth⟩
  · obtain ⟨hnr, h0, hnc, f, hcb⟩ := h.call_state i tag op hold
    have hlt := h.waits_lt i _ op hold rfl
    refine ⟨not_registered_trans t hlt hnr, ?_, ?_, ?_⟩
    · rcases fired_trans t op with e | ⟨-, tid, tag2, ht, hmv⟩
      · rw [e, h0]
      · have e := h.waits_inj i tid _ _ op hold ht rfl rfl
        subst e
        rw [hold] at ht
        cases ht
        exact absurd hi hmv
    · intro j tg hj
      rcases arrive_cancel_signal t hj with hj2 | ⟨hf2, -⟩
      · exact hnc j tg hj2
      · exact hnr ⟨tg, find_mem hf2⟩
    · cases ho : s.heap[op]? with
      | none => rw [ho] at hcb; cases hcb
      | some o =>
        rw [ho] at hcb
        obtain ⟨o1, ho1, hc1, -⟩ := heap_trans t op o ho
        refine ⟨f, ?_⟩
        rw [ho1]
        simpa [hc1] using hcb
  · refine ⟨?_, ?_, ?_, ?_⟩
    · exact not_registered_erase h hfind _ hops
    · rw [fired_same s s1 op hlog]
      exact h.registered_unfired tag op (find_mem hfind)
    · intro j tg hj
      have hji : j ≠ i := by
        rintro rfl
        rw [hi] at hj
        cases hj
      have := hoth j _ hj hji
      exact (h.cancel_state j tg op this).2.1 ⟨tag, find_mem hfind⟩
    · rw [hheap]
      exact ⟨f, hcb⟩

theorem inv_cancel_state {k : Kind} {s s1 : State} (h : Inv s) {who : Option Nat}
    (t : Trans k s who s1) :
    ∀ (i : Nat) (tag : Tag) (op : Nat), s1.threads[i]? = some (Pc.cancel_signal tag op) →
      op < s1.heap.length ∧ ¬ Registered s1 op ∧ fired s1 op = 0 := by
  intro i tag op hi
  have hl := heap_length_trans t
  rcases arrive_cancel_signal t hi with hold | ⟨hfind, hops, hlog, hheap⟩
  · obtain ⟨hlt, hnr, h0⟩ := h.cancel_state i tag op hold
    refine ⟨lt_of_lt_of_le hlt hl, not_registered_trans t hlt hnr, ?_⟩
    rcases fired_trans t op with e | ⟨-, tid, tag2, ht, -⟩
    · rw [e, h0]
    · exact absurd hold ((h.call_state tid tag2 op ht).2.2.1 i tag)
  · have hm := find_mem hfind
    refine ⟨lt_of_lt_of_le (h.reg_lt tag op hm) hl, ?_, ?_⟩
    · exact not_registered_erase h hfind _ hops
    · rw [fired_same s s1 op hlog]
      exact h.registered_unfired tag op hm

theorem inv_old_state {k : Kind} {s s1 : State} (h : Inv s) {who : Option Nat}
    (t : Trans k s who s1) :
    ∀ (i : Nat) (tag : Tag) (f : Option Nat) (op : Nat),
      s1.threads[i]? = some (Pc.debounce_old tag f op) → (tag, op) ∈ s1.operations := by
  intro i tag f op hi
  rcases arrive_debounce_old t hi with hold | ⟨hfind, hops⟩
  · have hg := h.global_owner i _ hold rfl
    rw [ops_stable h t i hg (by rw [hi, hold])]
    exact h.old_state i tag f op hold
  · rw [hops]
    exact find_mem hfind

theorem inv_reset_state {k : Kind} {s s1 : State} (h : Inv s) {who : Option Nat}
    (t : Trans k s who s1) :
    ∀ (i : Nat) (rest : List (Tag × Nat)), s1.threads[i]? = some (Pc.reset_loop rest) →
      ∀ e, e ∈ rest → e ∈ s1.operations := by
  intro i rest hi e he
  rcases arrive_reset_loop t hi with hold | ⟨hr, hops⟩ | ⟨x, hx, hops⟩
  · have hg := h.global_owner i _ hold rfl
    rw [ops_stable h t i hg (by rw [hi, hold])]
    exact h.reset_state i rest hold e he
  · rw [hops, ← hr]
    exact he
  · rw [hops]
    exact h.reset_state i _ hx e (List.mem_cons_of_mem _ he)

theorem inv_trans {k : Kind} {s s1 : State} (h : Inv s) {who : Option Nat}
    (t : Trans k s who s1) : Inv s1 where
  reg_lt := inv_reg_lt h t
  reg_inj := inv_reg_inj h t
  fired_lt := inv_fired_lt h t
  global_owner := inv_global_owner h t
  global_held := inv_global_held h t
  mtx_owner := inv_mtx_owner h t
  mtx_held := inv_mtx_held h t
  waits_lt := inv_waits_lt h t
  waits_inj := inv_waits_inj h t
  call_state := inv_call_state h t
  cancel_state := inv_cancel_state h t
  old_state := inv_old_state h t
  reset_state := inv_reset_state h t
  registered_unfired := inv_registered_unfired h t
  fired_once := inv_fired_once h t

theorem inv_init : Inv init where
  reg_lt := by intro tag op hm; cases hm
  reg_inj := by intro t1 t2 op hm; cases hm
  fired_lt := by intro op hf; simp [fired, init] at hf
  global_owner := by intro i pc hi; simp [init] at hi
  global_held := by intro i hi; simp [init] at hi
  mtx_owner := by intro i pc op hi; simp [init] at hi
  mtx_held := by intro op o i ho; simp [init] at ho
  waits_lt := by intro i pc op hi; simp [init] at hi
  waits_inj := by intro i j pci pcj op hi; simp [init] at hi
  call_state := by intro i tag op hi; simp [init] at hi
  cancel_state := by intro i tag op hi; simp [init] at hi
  old_state := by intro i tag f op hi; simp [init] at hi
  reset_state := by intro i rest hi; simp [init] at hi
  registered_unfired := by intro tag op hm; cases hm
  fired_once := by intro op hf; simp [fired, init] at hf

theorem inv_step {k : Kind} {s s1 : State} {a : Action} (h : Inv s)
    (hs : step k s a = some s1) : Inv s1 :=
  inv_trans h (trans_of_step hs)

theorem inv_run {k : Kind} (acts : List Action) {s s1 : State} (h : Inv s)
    (hr : run k s acts = some s1) : Inv s1 := by
  induction acts generalizing s with
  | nil =>
    simp only [run, Option.some.injEq] at hr
    subst hr
    exact h
  | cons a rest ih =>
    simp only [run, Option.bind_eq_some] at hr
    obtain ⟨s2, hs, hr2⟩ := hr
    exact ih (inv_step h hs) hr2

theorem inv_of_reachable {k : Kind} {s : State} (h : Reachable k s) : Inv s := by
  obtain ⟨acts, hr⟩ := h
  exact inv_run acts inv_init hr

/-! ## Blocked threads stay where they are -/

theorem blocked_thread_stays {k : Kind} {s s1 : State} {who : Option Nat}
    (t : Trans k s who s1) {i : Nat}
    (hb : Blocked s i) : s1.threads[i]? = s.threads[i]? := by
  have hil : i < s.threads.length := by
    rcases hb with ⟨tag, op, hi, -⟩ | ⟨pc, op, hi, -, -⟩ <;> exact lt_of_get hi
  cases t <;>
    (try have hlt := lt_of_get ‹s.threads[_]? = some _›) <;>
    (try have ht1 := ‹s.threads[_]? = some _›) <;>
    (try have hg1 := ‹s.global_mutex = none›) <;>
    (try have ho1 := ‹s.heap[_]? = some _›) <;>
    (try have hm1 := ‹Operation.mtx _ = none›) <;>
    (try simp only [goto, spawn, debounce_insert, waiter_exit, waiter_raise, List.getElem?_set,
      get_append_one, List.length_set]) <;>
    (try simp only [hlt, if_true]) <;>
    (try rw [if_neg (Nat.ne_of_lt hil)])
  all_goals first
    | rfl
    | (split_ifs with c
       · exfalso
         subst c
         rcases hb with ⟨tag, op, hi, hg⟩ | ⟨pc, op, hi, hw, hm⟩
         · rw [ht1] at hi
           first
             | (cases hi; done)
             | (cases hi; exact hg hg1)
         · rw [ht1] at hi
           cases hi
           first
             | (cases hw; done)
             | (simp only [Pc.wants_mtx, Option.some.injEq] at hw
                subst hw
                rw [mtx_owner_of_get ho1, hm1] at hm
                exact hm rfl)
       · rfl)

theorem wants_owns_global {pc : Pc} {op : Nat} (h : pc.wants_mtx = some op) :
    pc.owns_global = true := by
  cases pc <;> first | rfl | cases h

theorem deadlock_trans {k : Kind} {s s1 : State} {w c op : Nat} (h : Inv s)
    (hd : Deadlock s w c op) {who : Option Nat}
    (t : Trans k s who s1) :
    Deadlock s1 w c op ∧ s1.threads[w]? = s.threads[w]? ∧ s1.threads[c]? = s.threads[c]? := by
  obtain ⟨⟨tag, hw⟩, hm, hg, pc, hc, hp⟩ := hd
  have hbw : Blocked s w := Or.inl ⟨tag, op, hw, by rw [hg]; exact Option.some_ne_none c⟩
  have hbc : Blocked s c := Or.inr ⟨pc, op, hc, hp, by rw [hm]; exact Option.some_ne_none w⟩
  have ew := blocked_thread_stays t hbw
  have ec := blocked_thread_stays t hbc
  have h1 := inv_trans h t
  refine ⟨⟨⟨tag, by rw [ew]; exact hw⟩, ?_, ?_, pc, by rw [ec]; exact hc, hp⟩, ew, ec⟩
  · obtain ⟨o, ho, hmo, -⟩ :=
      h1.mtx_owner w (Pc.waiter_check tag op) op (by rw [ew]; exact hw) rfl
    rw [mtx_owner_of_get ho]
    exact hmo
  · exact h1.global_owner c pc (by rw [ec]; exact hc) (wants_owns_global hp)

theorem deadlock_forever {k : Kind} (acts : List Action) {s s1 : State} {w c op : Nat}
    (h : Inv s) (hd : Deadlock s w c op) (hr : run k s acts = some s1) :
    Deadlock s1 w c op ∧ s1.threads[w]? = s.threads[w]? ∧ s1.threads[c]? = s.threads[c]? := by
  induction acts generalizing s with
  | nil =>
    simp only [run, Option.some.injEq] at hr
    subst hr
    exact ⟨hd, rfl, rfl⟩
  | cons a rest ih =>
    simp only [run, Option.bind_eq_some] at hr
    obtain ⟨s2, hs, hr2⟩ := hr
    have t := trans_of_step hs
    obtain ⟨hd2, e1, e2⟩ := deadlock_trans h hd t
    obtain ⟨hd3, e3, e4⟩ := ih (inv_trans h t) hd2 hr2
    exact ⟨hd3, e3.trans e1, e4.trans e2⟩

/-! ## C10 -/

/-- C10 (fails on the code): the waiter locks `op->mtx` and then `_global_mutex`, while
`cancel` locks `_global_mutex` and then `op->mtx`.  After `debounce("t", d, f)`, the expiry of
the wait and `cancel("t")` taking `_global_mutex` first, the machine is in a reachable state in
which the waiter (thread 1) owns the mutex of Operation 0 and needs `_global_mutex`, `cancel`
(thread 2) owns `_global_mutex` and needs that mutex, neither can take a step, and both stay
there in every continuation. -/
theorem lock_order_inversion_deadlock :
    ∃ s : State, run Kind.debounce init deadlock_schedule = some s ∧
      s.threads[1]? = some (Pc.waiter_check "t" 0) ∧
      s.threads[2]? = some (Pc.cancel_signal "t" 0) ∧
      mtx_owner s 0 = some 1 ∧ s.global_mutex = some 2 ∧
      step Kind.debounce s (Action.step 1) = none ∧
      step Kind.debounce s (Action.step 2) = none ∧
      ∀ (acts : List Action) (s1 : State), run Kind.debounce s acts = some s1 →
        s1.threads[1]? = some (Pc.waiter_check "t" 0) ∧
        s1.threads[2]? = some (Pc.cancel_signal "t" 0) := by
  have hr : run Kind.debounce init deadlock_schedule =
      some { operations := [], global_mutex := some 2,
             heap := [{ mtx := some 1, is_cancelled := false, callback := some 7 }],
             threads := [Pc.returned none, Pc.waiter_check "t" 0, Pc.cancel_signal "t" 0],
             log := [], terminated := false } := by decide
  refine ⟨_, hr, rfl, rfl, rfl, rfl, by decide, by decide, ?_⟩
  intro acts s1 hr1
  have hinv := inv_of_reachable ⟨deadlock_schedule, hr⟩
  have hd : Deadlock
      { operations := [], global_mutex := some 2,
        heap := [{ mtx := some 1, is_cancelled := false, callback := some 7 }],
        threads := [Pc.returned none, Pc.waiter_check "t" 0, Pc.cancel_signal "t" 0],
        log := [], terminated := false } 1 2 0 :=
    ⟨⟨"t", rfl⟩, rfl, rfl, Pc.cancel_signal "t" 0, rfl, rfl⟩
  obtain ⟨-, e1, e2⟩ := deadlock_forever acts hinv hd hr1
  exact ⟨e1, e2⟩

/-! ## C7 -/

/-- C7 (invariants I2 and I3): in every state either class can reach from program start, the
callback stored in an Operation has run at most once, and not at all if the Operation's
`is_cancelled` flag is set. -/
theorem callback_at_most_once_and_never_when_cancelled (k : Kind) (s : State)
    (h : Reachable k s) (op : Nat) :
    fired s op ≤ 1 ∧
      ∀ o : Operation, s.heap[op]? = some o → o.is_cancelled = true → fired s op = 0 := by
  have hinv := inv_of_reachable h
  rcases Nat.eq_zero_or_pos (fired s op) with e | e
  · rw [e]
    exact ⟨Nat.zero_le 1, fun _ _ _ => rfl⟩
  · obtain ⟨e1, o, ho, hc⟩ := hinv.fired_once op e
    refine ⟨Nat.le_of_eq e1, ?_⟩
    intro o2 ho2 hc2
    rw [ho] at ho2
    cases ho2
    rw [hc] at hc2
    cases hc2

/-- Witness for C7: after two `debounce` calls on one tag and the expiry of the second waiter,
the superseded Operation 0 is cancelled and has never run. -/
theorem callback_at_most_once_and_never_when_cancelled_witness :
    Reachable Kind.debounce superseded_state ∧
      (fired superseded_state 0 ≤ 1 ∧
        ∀ o : Operation, superseded_state.heap[0]? = some o → o.is_cancelled = true →
          fired superseded_state 0 = 0) :=
  ⟨⟨superseded_schedule, by decide⟩,
    callback_at_most_once_and_never_when_cancelled Kind.debounce superseded_state
      ⟨superseded_schedule, by decide⟩ 0⟩

/-! ## C9 -/

theorem step_call {k : Kind} {s : State} {c : Call} {p : Pc} (hrun : s.terminated = false)
    (he : entry k c = some p) : step k s (Action.call c) = some (spawn s p) := by
  simp [step, hrun, he]

theorem step_thread {k : Kind} {s : State} {tid : Nat} {p : Pc} (hrun : s.terminated = false)
    (ht : s.threads[tid]? = some p) : step k s (Action.step tid) = advance k s tid p := by
  simp [step, hrun, ht]

theorem run_cons (k : Kind) (s s1 : State) (a : Action) (rest : List Action)
    (h : step k s a = some s1) : run k s (a :: rest) = run k s1 rest := by
  simp [run, h]

theorem run_append (k : Kind) (s s1 : State) (a b : List Action) (h : run k s a = some s1) :
    run k s (a ++ b) = run k s1 b := by
  induction a generalizing s with
  | nil =>
    simp only [run, Option.some.injEq] at h
    subst h
    rfl
  | cons x rest ih =>
    simp only [run, Option.bind_eq_some] at h
    obtain ⟨s2, hs, hr⟩ := h
    simp only [List.cons_append, run, hs, Option.some_bind]
    exact ih s2 hr

theorem reachable_run {k : Kind} {s s1 : State} {acts : List Action} (h : Reachable k s)
    (hr : run k s acts = some s1) : Reachable k s1 := by
  obtain ⟨a0, h0⟩ := h
  exact ⟨a0 ++ acts, by rw [run_append k init s a0 acts h0]; exact hr⟩

theorem get_spawned (l : List Pc) (pc : Pc) : (l ++ [pc])[l.length]? = some pc := by
  rw [get_append_one, if_pos rfl]

/-! ## Throttle never calls `std::terminate` -/

theorem terminated_trans {s s1 : State} {who : Option Nat}
    (t : Trans Kind.throttle s who s1)
    (h0 : s.terminated = false) : s1.terminated = false := by
  cases t
  case waiter_terminate tid tag op f hk ht hcb => cases hk
  all_goals exact h0

theorem throttle_running {s : State} (h : Reachable Kind.throttle s) : s.terminated = false := by
  obtain ⟨acts, hr⟩ := h
  have key : ∀ (acts : List Action) (s0 s1 : State), s0.terminated = false →
      run Kind.throttle s0 acts = some s1 → s1.terminated = false := by
    intro acts
    induction acts with
    | nil =>
      intro s0 s1 h0 hr
      simp only [run, Option.some.injEq] at hr
      subst hr
      exact h0
    | cons a rest ih =>
      intro s0 s1 h0 hr
      simp only [run, Option.bind_eq_some] at hr
      obtain ⟨s2, hs, hr2⟩ := hr
      exact ih s2 s1 (terminated_trans (trans_of_step hs) h0) hr2
  exact key acts init s rfl hr

/-! ## An Operation that has left the map never runs its callback -/

theorem erased_trans {k : Kind} {s s1 : State} {op : Nat} {who : Option Nat}
    (t : Trans k s who s1)
    (hlt : op < s.heap.length) (hnr : ¬ Registered s op)
    (hnc : ∀ (i : Nat) (tag : Tag), s.threads[i]? ≠ some (Pc.waiter_call tag op)) :
    fired s1 op = fired s op ∧ op < s1.heap.length ∧ ¬ Registered s1 op ∧
      ∀ (i : Nat) (tag : Tag), s1.threads[i]? ≠ some (Pc.waiter_call tag op) := by
  refine ⟨?_, lt_of_lt_of_le hlt (heap_length_trans t), not_registered_trans t hlt hnr, ?_⟩
  · rcases fired_trans t op with e | ⟨-, tid, tag, ht, -⟩
    · exact e
    · exact absurd ht (hnc tid tag)
  · intro i tag hi
    rcases arrive_waiter_call t hi with hold | ⟨-, hfind, -⟩
    · exact hnc i tag hold
    · exact hnr ⟨tag, find_mem hfind⟩

theorem erased_never_fires {k : Kind} (acts : List Action) {s s1 : State} {op : Nat}
    (hlt : op < s.heap.length) (hnr : ¬ Registered s op)
    (hnc : ∀ (i : Nat) (tag : Tag), s.threads[i]? ≠ some (Pc.waiter_call tag op))
    (hr : run k s acts = some s1) : fired s1 op = fired s op := by
  induction acts generalizing s with
  | nil =>
    simp only [run, Option.some.injEq] at hr
    subst hr
    rfl
  | cons a rest ih =>
    simp only [run, Option.bind_eq_some] at hr
    obtain ⟨s2, hs, hr2⟩ := hr
    obtain ⟨e, hlt2, hnr2, hnc2⟩ := erased_trans (trans_of_step hs) hlt hnr hnc
    rw [ih hlt2 hnr2 hnc2 hr2, e]

/-! ## C3 -/

/-- C3: when a `Throttle::throttle(tag, d, g, a)` call takes `_global_mutex` while `tag` has
an entry, the call returns `true` and nothing else changes: `_operations`, every Operation
(flag, callback, mutex), the log of user code run and all other threads are the same, and no
thread is added. -/
theorem throttle_suppressed_leaves_state (s : State) (tid : Nat) (tag : Tag)
    (g a : Option Nat) (op : Nat) (hrun : s.terminated = false)
    (ht : s.threads[tid]? = some (Pc.throttle tag g a))
    (hf : find s.operations tag = some op) (hg : s.global_mutex = none) :
    step Kind.throttle s (Action.step tid) =
      some { s with threads := s.threads.set tid (Pc.returned (some true)) } := by
  rw [step_thread hrun ht]
  simp [advance, throttle, hg, hf, goto]

/-- Witness for C3: a second `throttle("t", d, g, a)` while "t" is active. -/
theorem throttle_suppressed_leaves_state_witness :
    ((spawn active_state (Pc.throttle "t" (some 9) (some 10))).terminated = false ∧
      (spawn active_state (Pc.throttle "t" (some 9) (some 10))).threads[2]? =
        some (Pc.throttle "t" (some 9) (some 10)) ∧
      find (spawn active_state (Pc.throttle "t" (some 9) (some 10))).operations "t" = some 0 ∧
      (spawn active_state (Pc.throttle "t" (some 9) (some 10))).global_mutex = none) ∧
    step Kind.throttle (spawn active_state (Pc.throttle "t" (some 9) (some 10)))
        (Action.step 2) =
      some { spawn active_state (Pc.throttle "t" (some 9) (some 10)) with
        threads := (spawn active_state (Pc.throttle "t" (some 9) (some 10))).threads.set 2
          (Pc.returned (some true)) } :=
  ⟨⟨rfl, rfl, by decide, rfl⟩,
    throttle_suppressed_leaves_state (spawn active_state (Pc.throttle "t" (some 9) (some 10)))
      2 "t" (some 9) (some 10) 0 rfl rfl (by decide) rfl⟩

/-! ## Calls that run alone -/

theorem set_spawned (l : List Pc) (a b : Pc) : (l ++ [a]).set l.length b = l ++ [b] := by
  induction l with
  | nil => rfl
  | cons x rest ih => simp [List.set, ih]

theorem goto_spawn (s : State) (a b : Pc) :
    goto (spawn s a) s.threads.length b = spawn s b := by
  simp [goto, spawn, set_spawned]

/-- Running `cancel(tag)` alone, up to its second lock: the entry is erased and the thread, owning
`_global_mutex`, is about to lock the Operation's mutex. -/
theorem cancel_lock_run (k : Kind) (s : State) (tag : Tag) (op : Nat)
    (hrun : s.terminated = false) (hg : s.global_mutex = none)
    (hf : find s.operations tag = some op) :
    run k s (sequential s (Call.cancel tag) 1) =
      some { s with
        operations := erase s.operations tag
        global_mutex := some s.threads.length
        threads := s.threads ++ [Pc.cancel_signal tag op] } := by
  have he : entry k (Call.cancel tag) = some (Pc.cancel tag) := by cases k <;> rfl
  have h1 : step k (spawn s (Pc.cancel tag)) (Action.step s.threads.length) =
      some { s with
        operations := erase s.operations tag
        global_mutex := some s.threads.length
        threads := s.threads ++ [Pc.cancel_signal tag op] } := by
    rw [step_thread (s := spawn s (Pc.cancel tag)) (p := Pc.cancel tag) hrun (get_spawned _ _)]
    simp only [advance, cancel, spawn]
    rw [if_pos hg]
    simp only [hf, goto, set_spawned]
  simp only [sequential, List.replicate]
  rw [run_cons k s _ _ _ (step_call hrun he), run_cons k _ _ _ _ h1]
  rfl

/-- Running `cancel(tag)` alone, to its return, when the Operation's mutex is free. -/
theorem cancel_run (k : Kind) (s : State) (tag : Tag) (op : Nat) (o : Operation)
    (hrun : s.terminated = false) (hg : s.global_mutex = none)
    (hf : find s.operations tag = some op) (ho : s.heap[op]? = some o) (hm : o.mtx = none) :
    run k s (sequential s (Call.cancel tag) 2) =
      some { s with
        operations := erase s.operations tag
        global_mutex := none
        heap := s.heap.set op { o with is_cancelled := true }
        threads := s.threads ++ [Pc.returned none] } := by
  have h1 := cancel_lock_run k s tag op hrun hg hf
  have e : sequential s (Call.cancel tag) 2 =
      sequential s (Call.cancel tag) 1 ++ [Action.step s.threads.length] := rfl
  rw [e, run_append k s _ _ _ h1]
  have h2 : step k
      { s with
        operations := erase s.operations tag
        global_mutex := some s.threads.length
        threads := s.threads ++ [Pc.cancel_signal tag op] }
      (Action.step s.threads.length) =
      some { s with
        operations := erase s.operations tag
        global_mutex := none
        heap := s.heap.set op { o with is_cancelled := true }
        threads := s.threads ++ [Pc.returned none] } := by
    rw [step_thread (p := Pc.cancel_signal tag op) (by exact hrun) (get_spawned _ _)]
    simp only [advance, cancel_signal, signal_cancel, ho, hm, if_true, Option.map_some', goto,
      set_spawned]
  rw [run_cons k _ _ _ _ h2]
  rfl

/-- Running `cancel(tag)` alone when `tag` has no entry: only the returned thread is added. -/
theorem cancel_miss_run (k : Kind) (s : State) (tag : Tag)
    (hrun : s.terminated = false) (hg : s.global_mutex = none)
    (hf : find s.operations tag = none) :
    run k s (sequential s (Call.cancel tag) 1) =
      some { s with threads := s.threads ++ [Pc.returned none] } := by
  have he : entry k (Call.cancel tag) = some (Pc.cancel tag) := by cases k <;> rfl
  have h1 : step k (spawn s (Pc.cancel tag)) (Action.step s.threads.length) =
      some { s with threads := s.threads ++ [Pc.returned none] } := by
    rw [step_thread (s := spawn s (Pc.cancel tag)) (p := Pc.cancel tag) hrun (get_spawned _ _)]
    simp only [advance, cancel, spawn]
    rw [if_pos hg]
    simp only [hf, goto, set_spawned]
  simp only [sequential, List.replicate]
  rw [run_cons k s _ _ _ (step_call hrun he), run_cons k _ _ _ _ h1]
  rfl

/-- Running `throttle(tag, d, f, a)` alone on a tag without entry: the Operation is stored,
`f` is run
once (if not empty), the waiter is spawned and the call returns `false`. -/
theorem throttle_idle_run (s : State) (tag : Tag) (f a : Option Nat)
    (hrun : s.terminated = false) (hg : s.global_mutex = none)
    (hf : find s.operations tag = none) :
    run Kind.throttle s (sequential s (Call.throttle tag f a) 3) =
      some { s with
        operations := assign s.operations tag s.heap.length
        heap := s.heap ++ [{ mtx := none, is_cancelled := false, callback := a }]
        threads := s.threads ++ [Pc.returned (some false), Pc.waiter tag s.heap.length]
        log := s.log ++ f.toList.map Event.on_execute } := by
  have h1 : step Kind.throttle (spawn s (Pc.throttle tag f a)) (Action.step s.threads.length) =
      some { s with
        operations := assign s.operations tag s.heap.length
        heap := s.heap ++ [{ mtx := none, is_cancelled := false, callback := a }]
        threads := s.threads ++ [Pc.throttle_execute tag f s.heap.length] } := by
    rw [step_thread (s := spawn s (Pc.throttle tag f a)) (p := Pc.throttle tag f a) hrun
      (get_spawned _ _)]
    simp only [advance, throttle, spawn]
    rw [if_pos hg]
    simp only [hf, goto, set_spawned]
  have h2 : step Kind.throttle
      { s with
        operations := assign s.operations tag s.heap.length
        heap := s.heap ++ [{ mtx := none, is_cancelled := false, callback := a }]
        threads := s.threads ++ [Pc.throttle_execute tag f s.heap.length] }
      (Action.step s.threads.length) =
      some { s with
        operations := assign s.operations tag s.heap.length
        heap := s.heap ++ [{ mtx := none, is_cancelled := false, callback := a }]
        threads := s.threads ++ [Pc.throttle_spawn tag s.heap.length]
        log := s.log ++ f.toList.map Event.on_execute } := by
    rw [step_thread (p := Pc.throttle_execute tag f s.heap.length) (by exact hrun)
      (get_spawned _ _)]
    cases f <;> simp [advance, throttle_execute, goto, set_spawned]
  have h3 : step Kind.throttle
      { s with
        operations := assign s.operations tag s.heap.length
        heap := s.heap ++ [{ mtx := none, is_cancelled := false, callback := a }]
        threads := s.threads ++ [Pc.throttle_spawn tag s.heap.length]
        log := s.log ++ f.toList.map Event.on_execute }
      (Action.step s.threads.length) =
      some { s with
        operations := assign s.operations tag s.heap.length
        heap := s.heap ++ [{ mtx := none, is_cancelled := false, callback := a }]
        threads := s.threads ++ [Pc.returned (some false), Pc.waiter tag s.heap.length]
        log := s.log ++ f.toList.map Event.on_execute } := by
    rw [step_thread (p := Pc.throttle_spawn tag s.heap.length) (by exact hrun)
      (get_spawned _ _)]
    simp only [advance, throttle_spawn]
    rw [if_pos hg]
    simp [goto, spawn, set_spawned]
  simp only [sequential, List.replicate]
  rw [run_cons _ s _ _ _
      (step_call (k := Kind.throttle) (c := Call.throttle tag f a) (p := Pc.throttle tag f a)
        hrun rfl),
    run_cons _ _ _ _ _ h1, run_cons _ _ _ _ _ h2,
    run_cons _ _ _ _ _ h3]
  rfl

theorem get_first_spawned (l : List Pc) (a b : Pc) : (l ++ [a, b])[l.length]? = some a := by
  rw [List.getElem?_append_right (Nat.le_refl _)]
  simp

theorem exists_of_registered {s : State} (h : Inv s) {tag : Tag} {op : Nat}
    (hf : find s.operations tag = some op) : ∃ o : Operation, s.heap[op]? = some o := by
  have hlt := h.reg_lt tag op (find_mem hf)
  exact ⟨s.heap[op], by simp [hlt]⟩

theorem registered_not_calling {s : State} (h : Inv s) {tag : Tag} {op : Nat}
    (hf : find s.operations tag = some op) (i : Nat) (tg : Tag) :
    s.threads[i]? ≠ some (Pc.waiter_call tg op) := by
  intro hi
  exact (h.call_state i tg op hi).1 ⟨tag, find_mem hf⟩

/-- Once `cancel` (or anything else) has erased the entry of a stored Operation that has not
run, the Operation's callback never runs. -/
theorem erased_stays_unfired {k : Kind} {s s1 : State} (h : Inv s) {tag : Tag} {op : Nat}
    (hf : find s.operations tag = some op) (pc : Pc) (hpc : ∀ tg, pc ≠ Pc.waiter_call tg op)
    (g : Option Nat)
    (hs1 : s1 = { s with
      operations := erase s.operations tag
      global_mutex := g
      threads := s.threads ++ [pc] })
    (acts : List Action) (s2 : State) (hr : run k s1 acts = some s2) : fired s2 op = 0 := by
  have hlt : op < s1.heap.length := by
    rw [hs1]
    exact h.reg_lt tag op (find_mem hf)
  have hnr : ¬ Registered s1 op := by
    rw [hs1]
    exact not_registered_erase h hf _ rfl
  have hnc : ∀ (i : Nat) (tg : Tag), s1.threads[i]? ≠ some (Pc.waiter_call tg op) := by
    intro i tg hi
    rw [hs1] at hi
    simp only [get_append_one] at hi
    split_ifs at hi with c
    · exact hpc tg (Option.some.inj hi)
    · exact registered_not_calling h hf i tg hi
  rw [erased_never_fires acts hlt hnr hnc hr, hs1]
  exact h.registered_unfired tag op (find_mem hf)

/-! ## What `cancel` guarantees -/

/-- What `cancel` guarantees in every reachable Throttle state in which `tag` is stored with
Operation `op`: a `cancel(tag)` that takes `_global_mutex` erases the entry at once, and from
then on `op`'s `on_after` is never run, whatever happens next (also if `tag` is stored again
with a new Operation).  When `op`'s mutex is free `cancel` returns, and a following
`throttle(tag, d, f, a)` returns `false`, has run `f` once and leaves `tag` active.  When the
mutex is owned (by the waiter, its wait having timed out) `cancel` does not return. -/
theorem cancel_erases_entry (s : State) (tag : Tag) (op : Nat)
    (h : Reachable Kind.throttle s) (hf : find s.operations tag = some op)
    (hg : s.global_mutex = none) :
    ∃ s1 : State, run Kind.throttle s (sequential s (Call.cancel tag) 1) = some s1 ∧
      is_registered s1 tag = false ∧
      (∀ (acts : List Action) (s2 : State), run Kind.throttle s1 acts = some s2 →
        fired s2 op = 0) ∧
      (mtx_owner s op = none → ∃ s2 : State,
        run Kind.throttle s (sequential s (Call.cancel tag) 2) = some s2 ∧
        s2.threads[s.threads.length]? = some (Pc.returned none) ∧
        is_registered s2 tag = false ∧
        ∀ (f a : Option Nat), ∃ s3 : State,
          run Kind.throttle s2 (sequential s2 (Call.throttle tag f a) 3) = some s3 ∧
          s3.threads[s2.threads.length]? = some (Pc.returned (some false)) ∧
          s3.log = s2.log ++ f.toList.map Event.on_execute ∧
          is_registered s3 tag = true) := by
  have hinv := inv_of_reachable h
  have hrun := throttle_running h
  refine ⟨_, cancel_lock_run Kind.throttle s tag op hrun hg hf, ?_, ?_, ?_⟩
  · simp [is_registered, find_erase_self]
  · intro acts s2 hr
    exact erased_stays_unfired hinv hf (Pc.cancel_signal tag op) (fun tg e => by cases e)
      (some s.threads.length) rfl acts s2 hr
  · intro hm
    obtain ⟨o, ho⟩ := exists_of_registered hinv hf
    rw [mtx_owner_of_get ho] at hm
    refine ⟨_, cancel_run Kind.throttle s tag op o hrun hg hf ho hm, get_spawned _ _, ?_, ?_⟩
    · simp [is_registered, find_erase_self]
    · intro f a
      refine ⟨_, throttle_idle_run _ tag f a hrun rfl (find_erase_self _ _),
        get_first_spawned _ _ _, rfl, ?_⟩
      simp [is_registered, find_assign_self]

/-! ## The waiter running alone from its time-out -/

theorem spawn_after_goto (l : List Pc) (a b c : Pc) :
    (l ++ [a]).set l.length b ++ [c] = l ++ [b, c] := by
  rw [set_spawned]
  simp

/-- Running `debounce(tag, d, f)` alone, `_global_mutex` free and the mutex of the old Operation (if
any) free: the call returns, having stored a fresh Operation holding `f` under `tag` and
spawned its waiter. -/
theorem debounce_run (s : State) (tag : Tag) (f : Option Nat) (hinv : Inv s)
    (hrun : s.terminated = false) (hg : s.global_mutex = none)
    (hold : ∀ old : Nat, find s.operations tag = some old → mtx_owner s old = none) :
    ∃ s1 : State,
      run Kind.debounce s (sequential s (Call.debounce tag f) (debounce_steps s tag)) =
        some s1 ∧
      s1.operations = assign s.operations tag s.heap.length ∧
      s1.heap.length = s.heap.length + 1 ∧
      s1.heap[s.heap.length]? = some { mtx := none, is_cancelled := false, callback := f } ∧
      s1.threads = s.threads ++ [Pc.returned none, Pc.waiter tag s.heap.length] ∧
      s1.global_mutex = none ∧ s1.terminated = false ∧ s1.log = s.log := by
  have hc : step Kind.debounce s (Action.call (Call.debounce tag f)) =
      some (spawn s (Pc.debounce tag f)) :=
    step_call (k := Kind.debounce) (c := Call.debounce tag f) hrun rfl
  cases hfind : find s.operations tag with
  | none =>
    have h1 : step Kind.debounce (spawn s (Pc.debounce tag f)) (Action.step s.threads.length) =
        some { s with
          operations := assign s.operations tag s.heap.length
          heap := s.heap ++ [{ mtx := none, is_cancelled := false, callback := f }]
          threads := s.threads ++ [Pc.returned none, Pc.waiter tag s.heap.length] } := by
      rw [step_thread (s := spawn s (Pc.debounce tag f)) (p := Pc.debounce tag f) hrun
        (get_spawned _ _)]
      simp only [advance, debounce, spawn]
      rw [if_pos hg]
      simp only [hfind, debounce_insert, goto, spawn, spawn_after_goto, hg]
    refine ⟨{ s with
      operations := assign s.operations tag s.heap.length
      heap := s.heap ++ [{ mtx := none, is_cancelled := false, callback := f }]
      threads := s.threads ++ [Pc.returned none, Pc.waiter tag s.heap.length] },
      ?_, rfl, by simp, by simp, rfl, hg, hrun, rfl⟩
    simp only [sequential, debounce_steps, hfind, Option.isSome_none, Bool.false_eq_true,
      if_false, List.replicate]
    rw [run_cons _ _ _ _ _ hc, run_cons _ _ _ _ _ h1]
    rfl
  | some old =>
    obtain ⟨o, ho⟩ := exists_of_registered hinv hfind
    have hm : o.mtx = none := by
      have := hold old hfind
      rwa [mtx_owner_of_get ho] at this
    have h1 : step Kind.debounce (spawn s (Pc.debounce tag f)) (Action.step s.threads.length) =
        some { s with
          global_mutex := some s.threads.length
          threads := s.threads ++ [Pc.debounce_old tag f old] } := by
      rw [step_thread (s := spawn s (Pc.debounce tag f)) (p := Pc.debounce tag f) hrun
        (get_spawned _ _)]
      simp only [advance, debounce, spawn]
      rw [if_pos hg]
      simp only [hfind, goto, set_spawned]
    have h2 : step Kind.debounce
        { s with
          global_mutex := some s.threads.length
          threads := s.threads ++ [Pc.debounce_old tag f old] }
        (Action.step s.threads.length) =
        some { s with
          operations := assign s.operations tag s.heap.length
          global_mutex := none
          heap := s.heap.set old { o with is_cancelled := true } ++
            [{ mtx := none, is_cancelled := false, callback := f }]
          threads := s.threads ++ [Pc.returned none, Pc.waiter tag s.heap.length] } := by
      rw [step_thread (p := Pc.debounce_old tag f old) (by exact hrun) (get_spawned _ _)]
      simp only [advance, debounce_old, signal_cancel, ho, hm, if_true, Option.map_some',
        debounce_insert, goto, spawn, spawn_after_goto, List.length_set]
    refine ⟨{ s with
      operations := assign s.operations tag s.heap.length
      global_mutex := none
      heap := s.heap.set old { o with is_cancelled := true } ++
        [{ mtx := none, is_cancelled := false, callback := f }]
      threads := s.threads ++ [Pc.returned none, Pc.waiter tag s.heap.length] },
      ?_, rfl, by simp, ?_, rfl, rfl, hrun, rfl⟩
    · simp only [sequential, debounce_steps, hfind, Option.isSome_some, if_true, List.replicate]
      rw [run_cons _ _ _ _ _ hc, run_cons _ _ _ _ _ h1, run_cons _ _ _ _ _ h2]
      rfl
    · have e : s.heap.length = (s.heap.set old { o with is_cancelled := true }).length := by
        simp
      simp only
      rw [get_append_one, if_pos e]

/-! ## C5 -/

/-- C5: from every reachable state of a running Debounce with `_global_mutex` free (and the
mutex of the tag's old Operation, if any, free), `debounce(tag, d, f)` stores a fresh Operation
holding `f`.  An immediately following `cancel(tag)` returns with `is_pending(tag)` false, and
`f` (the callback of that Operation) is never run in any continuation.  The same holds for a
`cancel(tag)` that takes `_global_mutex` after any other activity, as long as that Operation is
still the entry of `tag`: the entry is erased at once and the callback never runs, however the
waiter wakes.  `cancel` on a tag without entry changes nothing but its own thread. -/
theorem debounce_then_cancel (s : State) (tag : Tag) (f : Option Nat)
    (h : Reachable Kind.debounce s) (hrun : s.terminated = false)
    (hg : s.global_mutex = none)
    (hold : ∀ old : Nat, find s.operations tag = some old → mtx_owner s old = none) :
    ∃ s1 : State,
      run Kind.debounce s (sequential s (Call.debounce tag f) (debounce_steps s tag)) =
        some s1 ∧
      find s1.operations tag = some s.heap.length ∧
      s1.heap[s.heap.length]? = some { mtx := none, is_cancelled := false, callback := f } ∧
      (∃ s2 : State, run Kind.debounce s1 (sequential s1 (Call.cancel tag) 2) = some s2 ∧
        s2.threads[s1.threads.length]? = some (Pc.returned none) ∧
        is_registered s2 tag = false ∧
        ∀ (acts : List Action) (s3 : State), run Kind.debounce s2 acts = some s3 →
          fired s3 s.heap.length = 0) ∧
      (∀ (mid : List Action) (s2 : State), run Kind.debounce s1 mid = some s2 →
        s2.terminated = false → s2.global_mutex = none →
        find s2.operations tag = some s.heap.length →
        ∃ s3 : State, run Kind.debounce s2 (sequential s2 (Call.cancel tag) 1) = some s3 ∧
          is_registered s3 tag = false ∧
          ∀ (acts : List Action) (s4 : State), run Kind.debounce s3 acts = some s4 →
            fired s4 s.heap.length = 0) ∧
      ∀ (s0 : State) (t : Tag), s0.terminated = false → s0.global_mutex = none →
        find s0.operations t = none →
        run Kind.debounce s0 (sequential s0 (Call.cancel t) 1) =
          some { s0 with threads := s0.threads ++ [Pc.returned none] } := by
  have hinv := inv_of_reachable h
  obtain ⟨s1, hr1, hops, hlen, hnew, hthr, hg1, hrun1, hlog⟩ :=
    debounce_run s tag f hinv hrun hg hold
  have hreach1 : Reachable Kind.debounce s1 := reachable_run h hr1
  have hinv1 := inv_of_reachable hreach1
  have hf1 : find s1.operations tag = some s.heap.length := by
    rw [hops]
    exact find_assign_self _ _ _
  refine ⟨s1, hr1, hf1, hnew, ?_, ?_, ?_⟩
  · have hlock := cancel_lock_run Kind.debounce s1 tag s.heap.length hrun1 hg1 hf1
    have hret := cancel_run Kind.debounce s1 tag s.heap.length _ hrun1 hg1 hf1 hnew rfl
    refine ⟨_, hret, get_spawned _ _, ?_, ?_⟩
    · simp [is_registered, find_erase_self]
    · intro acts s3 hr3
      have e : sequential s1 (Call.cancel tag) 2 =
          sequential s1 (Call.cancel tag) 1 ++ [Action.step s1.threads.length] := rfl
      rw [e, run_append _ _ _ _ _ hlock] at hret
      have hr4 : run Kind.debounce
          { s1 with
            operations := erase s1.operations tag
            global_mutex := some s1.threads.length
            threads := s1.threads ++ [Pc.cancel_signal tag s.heap.length] }
          ([Action.step s1.threads.length] ++ acts) = some s3 := by
        rw [run_append _ _ _ _ _ hret]
        exact hr3
      exact erased_stays_unfired hinv1 hf1 (Pc.cancel_signal tag s.heap.length)
        (fun tg e => by cases e) (some s1.threads.length) rfl _ s3 hr4
  · intro mid s2 hr2 hrun2 hg2 hf2
    have hinv2 := inv_of_reachable (reachable_run hreach1 hr2)
    refine ⟨_, cancel_lock_run Kind.debounce s2 tag s.heap.length hrun2 hg2 hf2, ?_, ?_⟩
    · simp [is_registered, find_erase_self]
    · intro acts s4 hr4
      exact erased_stays_unfired hinv2 hf2 (Pc.cancel_signal tag s.heap.length)
        (fun tg e => by cases e) (some s2.threads.length) rfl acts s4 hr4
  · intro s0 t hrun0 hg0 hf0
    exact cancel_miss_run Kind.debounce s0 t hrun0 hg0 hf0

/-- Witness for C5: `debounce("t", d, f)` then `cancel("t")` at program start. -/
theorem debounce_then_cancel_witness :
    (Reachable Kind.debounce init ∧ init.terminated = false ∧ init.global_mutex = none ∧
      ∀ old : Nat, find init.operations "t" = some old → mtx_owner init old = none) ∧
    ∃ s1 : State,
      run Kind.debounce init
        (sequential init (Call.debounce "t" (some 7)) (debounce_steps init "t")) = some s1 ∧
      find s1.operations "t" = some init.heap.length ∧
      s1.heap[init.heap.length]? =
        some { mtx := none, is_cancelled := false, callback := some 7 } ∧
      (∃ s2 : State, run Kind.debounce s1 (sequential s1 (Call.cancel "t") 2) = some s2 ∧
        s2.threads[s1.threads.length]? = some (Pc.returned none) ∧
        is_registered s2 "t" = false ∧
        ∀ (acts : List Action) (s3 : State), run Kind.debounce s2 acts = some s3 →
          fired s3 init.heap.length = 0) ∧
      (∀ (mid : List Action) (s2 : State), run Kind.debounce s1 mid = some s2 →
        s2.terminated = false → s2.global_mutex = none →
        find s2.operations "t" = some init.heap.length →
        ∃ s3 : State, run Kind.debounce s2 (sequential s2 (Call.cancel "t") 1) = some s3 ∧
          is_registered s3 "t" = false ∧
          ∀ (acts : List Action) (s4 : State), run Kind.debounce s3 acts = some s4 →
            fired s4 init.heap.length = 0) ∧
      ∀ (s0 : State) (t : Tag), s0.terminated = false → s0.global_mutex = none →
        find s0.operations t = none →
        run Kind.debounce s0 (sequential s0 (Call.cancel t) 1) =
          some { s0 with threads := s0.threads ++ [Pc.returned none] } :=
  ⟨⟨⟨[], rfl⟩, rfl, rfl, fun old hf => by cases hf⟩,
    debounce_then_cancel init "t" (some 7) ⟨[], rfl⟩ rfl rfl (fun old hf => by cases hf)⟩

/-! ## The frame of one move -/

theorem acts_on_thread {s : State} {a : Action} {t : Tag} {tid : Nat} (h : acts_on s a t)
    (ha : a.thread = some tid) : ∃ pc : Pc, s.threads[tid]? = some pc ∧ pc.tag = some t := by
  cases a <;> simp only [Action.thread, Option.some.injEq] at ha
  · cases ha
  all_goals (subst ha; exact h)

/-- The frame of a move by a thread working on tag `t`: the entry of any other tag and the
Operation stored there are untouched. -/
theorem frame_of_trans {k : Kind} {s s1 : State} {tid : Nat} (h : Inv s)
    (tr : Trans k s (some tid) s1) {pc : Pc} {t t2 : Tag} (ht : s.threads[tid]? = some pc)
    (hpt : pc.tag = some t) (hne : t2 ≠ t) :
    find s1.operations t2 = find s.operations t2 ∧
      ∀ (op : Nat) (o : Operation), find s.operations t2 = some op → s.heap[op]? = some o →
        ∃ o1 : Operation, s1.heap[op]? = some o1 ∧ o1.is_cancelled = o.is_cancelled ∧
          o1.callback = o.callback := by
  cases tr <;>
    (try have ht1 := ‹s.threads[_]? = some _›) <;>
    (try (rw [ht] at ht1; cases ht1; simp only [Pc.tag, Option.some.injEq] at hpt)) <;>
    (try cases hpt) <;>
    (try have hol := lt_of_get ‹s.heap[_]? = some _›) <;>
    (try simp only [goto, spawn, debounce_insert, waiter_exit, waiter_raise, List.getElem?_set,
      get_append_one, List.length_set, get_update_op]) <;>
    (try simp only [hol, if_true])
  case debounce_new f hg hf ht1 =>
    refine ⟨find_assign_ne _ _ hne, ?_⟩
    intro op o hfo ho
    have := lt_of_get ho
    exact ⟨o, by rw [if_neg (Nat.ne_of_lt this)]; exact ho, rfl, rfl⟩
  case throttle_new f a hg hf ht1 =>
    refine ⟨find_assign_ne _ _ hne, ?_⟩
    intro op o hfo ho
    have := lt_of_get ho
    exact ⟨o, by rw [if_neg (Nat.ne_of_lt this)]; exact ho, rfl, rfl⟩
  case debounce_old f old o2 ho2 hm ht1 =>
    refine ⟨find_assign_ne _ _ hne, ?_⟩
    intro op o hfo ho
    have := lt_of_get ho
    have hne2 : ¬ old = op := by
      rintro rfl
      exact hne (h.reg_inj _ _ _ (find_mem hfo) (h.old_state tid t f old ht))
    exact ⟨o, by rw [if_neg (Nat.ne_of_lt this), if_neg hne2]; exact ho, rfl, rfl⟩
  case cancel_signal op2 o2 ho2 hm ht1 =>
    refine ⟨trivial, ?_⟩
    intro op o hfo ho
    have hne2 : ¬ op2 = op := by
      rintro rfl
      exact (h.cancel_state tid t op2 ht).2.1 ⟨t2, find_mem hfo⟩
    exact ⟨o, by rw [if_neg hne2]; exact ho, rfl, rfl⟩
  case waiter_timeout op2 o2 ho2 hm hc ht1 =>
    refine ⟨trivial, ?_⟩
    intro op o hfo ho
    by_cases c : op2 = op
    · subst c
      rw [ho] at ho2
      cases ho2
      exact ⟨_, if_pos rfl, rfl, rfl⟩
    · exact ⟨o, by rw [if_neg c]; exact ho, rfl, rfl⟩
  all_goals first
    | exact ⟨trivial, fun op o _ ho => ⟨o, ho, rfl, rfl⟩⟩
    | (refine ⟨find_erase_ne _ hne, ?_⟩
       intro op o hfo ho
       first
         | exact ⟨o, ho, rfl, rfl⟩
         | (split_ifs with c
            · rw [ho]
              exact ⟨_, rfl, rfl, rfl⟩
            · exact ⟨o, ho, rfl, rfl⟩))
    | (refine ⟨trivial, ?_⟩
       intro op o hfo ho
       split_ifs with c
       · rw [ho]
         exact ⟨_, rfl, rfl, rfl⟩
       · exact ⟨o, ho, rfl, rfl⟩)

/-- A move leaves every thread but the moving one where it is. -/
theorem thread_kept {k : Kind} {s s1 : State} {who : Option Nat} (tr : Trans k s who s1)
    {j : Nat} {pc : Pc} (hj : s.threads[j]? = some pc) (hw : who ≠ some j) :
    s1.threads[j]? = some pc := by
  have hjl := lt_of_get hj
  cases tr <;>
    (try have hlt := lt_of_get ‹s.threads[_]? = some _›) <;>
    (try simp only [goto, spawn, debounce_insert, waiter_exit, waiter_raise, List.getElem?_set,
      get_append_one, List.length_set]) <;>
    (try simp only [hlt, if_true]) <;>
    (try rw [if_neg (Nat.ne_of_lt hjl)])
  all_goals first
    | exact hj
    | (rw [if_neg (fun e => hw (congrArg some e))]
       exact hj)

/-- The frame of one move: for distinct tags `t` and `t2`, any work on `t` in a reachable
state (a new call with argument `t`, or a step, time-out or throw of a `debounce`, `throttle`,
`cancel`, `is_pending` / `is_active` call or of a waiter working on `t`) leaves `t2` as it is:
the entry of `t2` is the same, the Operation stored under `t2` keeps its `is_cancelled` flag
and its callback, its callback is not run by the move, and no thread working on `t2` is moved.
This says nothing about what the threads working on `t2` can do afterwards. -/
theorem frame_of_step (k : Kind) (s s1 : State) (a : Action) (t t2 : Tag)
    (h : Reachable k s) (ha : acts_on s a t) (hne : t2 ≠ t) (hs : step k s a = some s1) :
    is_registered s1 t2 = is_registered s t2 ∧
    find s1.operations t2 = find s.operations t2 ∧
    (∀ (op : Nat) (o : Operation), find s.operations t2 = some op → s.heap[op]? = some o →
      fired s1 op = fired s op ∧
      ∃ o1 : Operation, s1.heap[op]? = some o1 ∧ o1.is_cancelled = o.is_cancelled ∧
        o1.callback = o.callback) ∧
    ∀ (j : Nat) (pc : Pc), s.threads[j]? = some pc → pc.tag = some t2 →
      s1.threads[j]? = some pc := by
  have hinv := inv_of_reachable h
  have tr := trans_of_step hs
  have hfired : ∀ op : Nat, find s.operations t2 = some op → fired s1 op = fired s op := by
    intro op hfo
    rcases fired_trans tr op with e | ⟨-, i, tg, hi, -⟩
    · exact e
    · exact absurd ⟨t2, find_mem hfo⟩ (hinv.call_state i tg op hi).1
  have hkept : ∀ (j : Nat) (pc : Pc), s.threads[j]? = some pc → pc.tag = some t2 →
      s1.threads[j]? = some pc := by
    intro j pc hj hpt
    refine thread_kept tr hj ?_
    intro e
    obtain ⟨pc2, hpc2, hpt2⟩ := acts_on_thread ha e
    rw [hj] at hpc2
    cases hpc2
    rw [hpt] at hpt2
    exact hne (Option.some.inj hpt2)
  have key : find s1.operations t2 = find s.operations t2 ∧
      ∀ (op : Nat) (o : Operation), find s.operations t2 = some op → s.heap[op]? = some o →
        ∃ o1 : Operation, s1.heap[op]? = some o1 ∧ o1.is_cancelled = o.is_cancelled ∧
          o1.callback = o.callback := by
    cases hth : a.thread with
    | none =>
      rw [hth] at tr
      cases tr
      exact ⟨rfl, fun op o _ ho => ⟨o, ho, rfl, rfl⟩⟩
    | some tid =>
      rw [hth] at tr
      obtain ⟨pc, hpc, hpt⟩ := acts_on_thread ha hth
      exact frame_of_trans hinv tr hpc hpt hne
  refine ⟨?_, key.1, ?_, hkept⟩
  · simp only [is_registered, key.1]
  · intro op o hfo ho
    exact ⟨hfired op hfo, key.2 op o hfo ho⟩

/-! ## C1 -/

theorem step_running {k : Kind} {s s1 : State} {a : Action} (h : step k s a = some s1) :
    s.terminated = false := by
  unfold step at h
  split at h
  · cases h
  · rename_i ht
    simpa using ht

/-- The entries of the racing calls only add their threads. -/
theorem run_calls (tag : Tag) (args : List (Option Nat × Option Nat)) (s0 : State)
    (hrun : s0.terminated = false) :
    run Kind.throttle s0 (race_calls tag args) =
      some { s0 with threads := s0.threads ++ args.map (fun x => Pc.throttle tag x.1 x.2) } := by
  induction args generalizing s0 with
  | nil => simp [race_calls, run]
  | cons x rest ih =>
    have h1 : step Kind.throttle s0 (Action.call (Call.throttle tag x.1 x.2)) =
        some (spawn s0 (Pc.throttle tag x.1 x.2)) := step_call hrun rfl
    have h2 := ih (spawn s0 (Pc.throttle tag x.1 x.2)) hrun
    simp only [race_calls, List.map_cons] at h2 ⊢
    rw [run_cons _ _ _ _ _ h1, h2]
    simp [spawn]

/-- A thread created by a move of a running thread is a waiter. -/
theorem thread_origin {k : Kind} {s s1 : State} {tid : Nat} (tr : Trans k s (some tid) s1)
    {j : Nat} {pc : Pc} (hj : s.threads.length ≤ j) (h1 : s1.threads[j]? = some pc) :
    pc.calm = true := by
  cases tr <;>
    (try have hlt := lt_of_get ‹s.threads[_]? = some _›) <;>
    (try simp only [goto, spawn, debounce_insert, waiter_exit, waiter_raise, List.getElem?_set,
      get_append_one, List.length_set] at h1) <;>
    (try simp only [hlt, if_true] at h1) <;>
    (try rw [if_neg (by omega)] at h1)
  all_goals first
    | (rw [List.getElem?_eq_none hj] at h1
       exact Option.noConfusion h1)
    | (split at h1
       · cases h1
         rfl
       · rw [if_neg (by omega)] at h1
         rw [List.getElem?_eq_none hj] at h1
         exact Option.noConfusion h1)

/-- A racing call that finds the tag registered returns `true` and changes nothing else. -/
theorem move_hit {s s1 : State} {act : Action} {tid : Nat} {tag : Tag} {f a : Option Nat}
    {op : Nat} (ht : s.threads[tid]? = some (Pc.throttle tag f a))
    (hf : find s.operations tag = some op)
    (ha : act = Action.step tid ∨ act = Action.throws tid)
    (hs : step Kind.throttle s act = some s1) :
    s1.operations = s.operations ∧ s1.log = s.log ∧
      s1.threads[tid]? = some (Pc.returned (some true)) := by
  have hrun := step_running hs
  have hlt := lt_of_get ht
  rcases ha with rfl | rfl
  · rw [step_thread hrun ht] at hs
    simp only [advance, throttle, hf] at hs
    split at hs
    · cases hs
      simp [goto, hlt]
    · cases hs
  · simp [step, hrun, ht] at hs

/-- The racing call that finds the tag idle stores a new Operation. -/
theorem move_new {s s1 : State} {act : Action} {tid : Nat} {tag : Tag} {f a : Option Nat}
    (ht : s.threads[tid]? = some (Pc.throttle tag f a))
    (hf : find s.operations tag = none)
    (ha : act = Action.step tid ∨ act = Action.throws tid)
    (hs : step Kind.throttle s act = some s1) :
    find s1.operations tag = some s.heap.length ∧ s1.log = s.log ∧
      s1.threads[tid]? = some (Pc.throttle_execute tag f s.heap.length) ∧
      s1.threads.length = s.threads.length := by
  have hrun := step_running hs
  have hlt := lt_of_get ht
  rcases ha with rfl | rfl
  · rw [step_thread hrun ht] at hs
    simp only [advance, throttle, hf] at hs
    split at hs
    · cases hs
      simp [goto, hlt, find_assign_self]
    · cases hs
  · simp [step, hrun, ht] at hs

/-- The winner runs `on_execute`. -/
theorem move_execute {s s1 : State} {act : Action} {tid : Nat} {tag : Tag} {f : Option Nat}
    {op : Nat} (ht : s.threads[tid]? = some (Pc.throttle_execute tag f op))
    (ha : act = Action.step tid ∨ act = Action.throws tid)
    (hs : step Kind.throttle s act = some s1) :
    s1.operations = s.operations ∧ s1.log = s.log ++ f.toList.map Event.on_execute ∧
      (s1.threads[tid]? = some (Pc.throttle_spawn tag op) ∨
        s1.threads[tid]? = some Pc.raised) := by
  have hrun := step_running hs
  have hlt := lt_of_get ht
  rcases ha with rfl | rfl
  · rw [step_thread hrun ht] at hs
    cases f <;>
      (simp only [advance, throttle_execute] at hs
       simp at hs
       subst hs
       simp [goto, hlt])
  · cases f
    · simp [step, hrun, ht, throttle_execute] at hs
    · simp [step, hrun, ht, throttle_execute] at hs
      subst hs
      simp [goto, hlt]

/-- The winner spawns its waiter and returns `false`. -/
theorem move_spawn {s s1 : State} {act : Action} {tid : Nat} {tag : Tag}
    {op : Nat} (ht : s.threads[tid]? = some (Pc.throttle_spawn tag op))
    (ha : act = Action.step tid ∨ act = Action.throws tid)
    (hs : step Kind.throttle s act = some s1) :
    s1.operations = s.operations ∧ s1.log = s.log ∧
      s1.threads[tid]? = some (Pc.returned (some false)) := by
  have hrun := step_running hs
  have hlt := lt_of_get ht
  rcases ha with rfl | rfl
  · rw [step_thread hrun ht] at hs
    simp only [advance, throttle_spawn] at hs
    split at hs
    · cases hs
      simp [goto, spawn, hlt, List.getElem?_append_left]
    · cases hs
  · simp [step, hrun, ht] at hs

/-- A waiter that does not time out, and a finished thread, stay calm and leave the map and
the log alone. -/
theorem move_calm {s s1 : State} {act : Action} {tid : Nat} {pc : Pc}
    (ht : s.threads[tid]? = some pc) (hc : pc.calm = true)
    (ha : act = Action.step tid ∨ act = Action.throws tid)
    (hs : step Kind.throttle s act = some s1) :
    s1.operations = s.operations ∧ s1.log = s.log ∧
      ∃ pc1 : Pc, s1.threads[tid]? = some pc1 ∧ pc1.calm = true := by
  have hrun := step_running hs
  have hlt := lt_of_get ht
  rcases ha with rfl | rfl
  · rw [step_thread hrun ht] at hs
    cases pc <;> simp only [Pc.calm] at hc <;> try exact Bool.noConfusion hc
    · rename_i tag op
      simp only [advance, waiter] at hs
      split at hs
      · cases hs
      · split at hs
        · split at hs <;> cases hs <;> simp [goto, hlt, Pc.calm]
        · cases hs
    · rename_i tag op
      simp only [advance, waiter_wake] at hs
      split at hs
      · cases hs
      · split at hs
        · split at hs
          · cases hs
            simp [goto, hlt, Pc.calm]
          · simp only [Bool.false_eq_true, if_false, Option.some.injEq] at hs
            subst hs
            exact ⟨rfl, rfl, _, ht, rfl⟩
        · cases hs
    · simp [advance] at hs
    · simp [advance] at hs
  · cases pc <;> simp only [Pc.calm] at hc <;> try exact Bool.noConfusion hc
    all_goals simp [step, hrun, ht] at hs

theorem moves_from_thread {base : Nat} {a : Action} (ha : a.moves_from base = true) :
    ∃ tid : Nat, base ≤ tid ∧ a.thread = some tid ∧
      (a = Action.step tid ∨ a = Action.throws tid) := by
  cases a with
  | call c => exact Bool.noConfusion ha
  | step tid => exact ⟨tid, by simpa [Action.moves_from] using ha, rfl, Or.inl rfl⟩
  | timeout tid => exact Bool.noConfusion ha
  | throws tid => exact ⟨tid, by simpa [Action.moves_from] using ha, rfl, Or.inr rfl⟩

/-- The moves of the race keep `RaceInv`. -/
theorem race_step {tag : Tag} {base : Nat} {args : List (Option Nat × Option Nat)} {w : Nat}
    {f : Option Nat} {op : Nat} {log0 : List Event} {s s1 : State} {a : Action}
    (h : RaceInv tag base args w f op log0 s) (ha : a.moves_from base = true)
    (hs : step Kind.throttle s a = some s1) : RaceInv tag base args w f op log0 s1 := by
  obtain ⟨hfind, hwb, hw, hoth, hcalm⟩ := h
  obtain ⟨tid, hb, hthr, ha2⟩ := moves_from_thread ha
  have tr := trans_of_step hs
  rw [hthr] at tr
  have hrun := step_running hs
  have hkept : ∀ (j : Nat) (pc : Pc), s.threads[j]? = some pc → j ≠ tid →
      s1.threads[j]? = some pc :=
    fun j pc hj hne => thread_kept tr hj (fun e => hne (Option.some.inj e).symm)
  -- what the move does to the map, the log and the moving thread
  have key : s1.operations = s.operations ∧
      ((tid = w ∧
          ((s1.threads[w]? = some (Pc.throttle_execute tag f op) ∧ s1.log = log0) ∨
            ((s1.threads[w]? = some (Pc.throttle_spawn tag op) ∨
                s1.threads[w]? = some (Pc.returned (some false)) ∨
                s1.threads[w]? = some Pc.raised) ∧
              s1.log = log0 ++ f.toList.map Event.on_execute))) ∨
        (tid ≠ w ∧ s1.log = s.log ∧
          ((∃ j : Nat, tid = base + j ∧ j < args.length ∧
              s1.threads[tid]? = some (Pc.returned (some true))) ∨
            (base + args.length ≤ tid ∧
              ∃ pc1 : Pc, s1.threads[tid]? = some pc1 ∧ pc1.calm = true)))) := by
    by_cases hw1 : tid = w
    · subst hw1
      rcases hw with ⟨hpc, hlog⟩ | ⟨hpc | hpc | hpc, hlog⟩
      · obtain ⟨e1, e2, e3⟩ := move_execute hpc ha2 hs
        exact ⟨e1, Or.inl ⟨rfl, Or.inr ⟨by
          rcases e3 with e3 | e3
          · exact Or.inl e3
          · exact Or.inr (Or.inr e3), by rw [e2, hlog]⟩⟩⟩
      · obtain ⟨e1, e2, e3⟩ := move_spawn hpc ha2 hs
        exact ⟨e1, Or.inl ⟨rfl, Or.inr ⟨Or.inr (Or.inl e3), by rw [e2, hlog]⟩⟩⟩
      · obtain ⟨e1, e2, pc1, e3, e4⟩ := move_calm hpc rfl ha2 hs
        have := lt_of_get hpc
        rcases ha2 with rfl | rfl
        · rw [step_thread hrun hpc] at hs
          cases hs
        · simp [step, hrun, hpc] at hs
      · have := lt_of_get hpc
        rcases ha2 with rfl | rfl
        · rw [step_thread hrun hpc] at hs
          cases hs
        · simp [step, hrun, hpc] at hs
    · by_cases hlt : tid < base + args.length
      · have hj : tid - base < args.length := by omega
        have hx : args[tid - base]? = some (args[tid - base]) := List.getElem?_eq_getElem hj
        have hbj : base + (tid - base) = tid := by omega
        have hp := hoth (tid - base) _ hx (by rw [hbj]; exact hw1)
        rw [hbj] at hp
        rcases hp with hp | hp
        · obtain ⟨e1, e2, e3⟩ := move_hit hp hfind ha2 hs
          exact ⟨e1, Or.inr ⟨hw1, e2, Or.inl ⟨tid - base, hbj.symm, hj, e3⟩⟩⟩
        · rcases ha2 with rfl | rfl
          · rw [step_thread hrun hp] at hs
            cases hs
          · simp [step, hrun, hp] at hs
      · cases hpc : s.threads[tid]? with
        | none =>
          rcases ha2 with rfl | rfl <;> simp [step, hrun, hpc] at hs
        | some pc =>
          obtain ⟨e1, e2, e3⟩ := move_calm hpc (hcalm tid pc (by omega) hpc) ha2 hs
          exact ⟨e1, Or.inr ⟨hw1, e2, Or.inr ⟨by omega, e3⟩⟩⟩
  obtain ⟨hops, hcase⟩ := key
  refine ⟨by rw [hops]; exact hfind, hwb, ?_, ?_, ?_⟩
  · rcases hcase with ⟨-, h1⟩ | ⟨hne, hlog, -⟩
    · exact h1
    · rcases hw with ⟨hpc, hl⟩ | ⟨hpc | hpc | hpc, hl⟩
      · exact Or.inl ⟨hkept _ _ hpc (Ne.symm hne), by rw [hlog, hl]⟩
      · exact Or.inr ⟨Or.inl (hkept _ _ hpc (Ne.symm hne)), by rw [hlog, hl]⟩
      · exact Or.inr ⟨Or.inr (Or.inl (hkept _ _ hpc (Ne.symm hne))), by rw [hlog, hl]⟩
      · exact Or.inr ⟨Or.inr (Or.inr (hkept _ _ hpc (Ne.symm hne))), by rw [hlog, hl]⟩
  · intro j x hx hjw
    by_cases hjt : base + j = tid
    · rcases hcase with ⟨e, -⟩ | ⟨-, -, ⟨j2, e1, e2, e3⟩ | ⟨e1, -⟩⟩
      · exact absurd (hjt.trans e) hjw
      · rw [hjt]
        exact Or.inr e3
      · have := (List.getElem?_eq_some.mp hx).1
        omega
    · rcases hoth j x hx hjw with hp | hp
      · exact Or.inl (hkept _ _ hp hjt)
      · exact Or.inr (hkept _ _ hp hjt)
  · intro j pc hj h1
    by_cases hjt : j = tid
    · subst hjt
      rcases hcase with ⟨e, -⟩ | ⟨-, -, ⟨j2, e1, e2, e3⟩ | ⟨-, pc1, e1, e2⟩⟩
      · omega
      · omega
      · rw [e1] at h1
        cases h1
        exact e2
    · rcases Nat.lt_or_ge j s.threads.length with hl | hl
      · have hget : s.threads[j]? = some (s.threads[j]) := List.getElem?_eq_getElem hl
        have h2 := hkept _ _ hget hjt
        rw [h2] at h1
        cases h1
        exact hcalm j _ hj hget
      · exact thread_origin tr hl h1

theorem race_run {tag : Tag} {base : Nat} {args : List (Option Nat × Option Nat)} {w : Nat}
    {f : Option Nat} {op : Nat} {log0 : List Event} (moves : List Action) {s s1 : State}
    (h : RaceInv tag base args w f op log0 s)
    (hm : ∀ a ∈ moves, a.moves_from base = true)
    (hr : run Kind.throttle s moves = some s1) : RaceInv tag base args w f op log0 s1 := by
  induction moves generalizing s with
  | nil =>
    simp only [run, Option.some.injEq] at hr
    subst hr
    exact h
  | cons a rest ih =>
    simp only [run, Option.bind_eq_some] at hr
    obtain ⟨s2, hs, hr2⟩ := hr
    exact ih (race_step h (hm a (List.mem_cons_self _ _)) hs)
      (fun b hb => hm b (List.mem_cons_of_mem _ hb)) hr2

theorem get_caller (l : List Pc) (tag : Tag) (args : List (Option Nat × Option Nat)) (j : Nat) :
    (l ++ args.map (fun x => Pc.throttle tag x.1 x.2))[l.length + j]? =
      (args[j]?).map (fun x => Pc.throttle tag x.1 x.2) := by
  rw [List.getElem?_append_right (Nat.le_add_right _ _)]
  simp

/-! ### No racing call is ever blocked -/

/-- A move of a thread that is not at the entry of `debounce`, `cancel` or
`reset_for_testing` leaves a free `_global_mutex` free. -/
theorem lock_stays_free {s s1 : State} {tid : Nat} (tr : Trans Kind.throttle s (some tid) s1)
    (hg : s.global_mutex = none)
    (hpc : ∀ pc : Pc, s.threads[tid]? = some pc →
      (∀ (tag : Tag) (f : Option Nat), pc ≠ Pc.debounce tag f) ∧
      (∀ tag : Tag, pc ≠ Pc.cancel tag) ∧ pc ≠ Pc.reset) :
    s1.global_mutex = none := by
  cases tr <;>
    (try have h3 := hpc _ ‹s.threads[_]? = some _›) <;>
    (try simp only [goto, spawn, debounce_insert, waiter_exit, waiter_raise])
  all_goals first
    | exact hg
    | rfl
    | exact absurd rfl (h3.1 _ _)
    | exact absurd rfl (h3.2.1 _)
    | exact absurd rfl h3.2.2

/-- The threads of the race are inside `throttle`, waiters or finished. -/
theorem race_pc {tag : Tag} {base : Nat} {args : List (Option Nat × Option Nat)} {w : Nat}
    {f : Option Nat} {op : Nat} {log0 : List Event} {s : State}
    (h : RaceInv tag base args w f op log0 s) {tid : Nat} (hb : base ≤ tid) {pc : Pc}
    (ht : s.threads[tid]? = some pc) :
    (∀ (tg : Tag) (g : Option Nat), pc ≠ Pc.debounce tg g) ∧
      (∀ tg : Tag, pc ≠ Pc.cancel tg) ∧ pc ≠ Pc.reset := by
  obtain ⟨-, -, hw, hoth, hcalm⟩ := h
  have hc : pc.calm = true ∨ (∃ (tg : Tag) (g a : Option Nat), pc = Pc.throttle tg g a) ∨
      (∃ (tg : Tag) (g : Option Nat) (o : Nat), pc = Pc.throttle_execute tg g o) ∨
      (∃ (tg : Tag) (o : Nat), pc = Pc.throttle_spawn tg o) := by
    by_cases hw1 : tid = w
    · subst hw1
      rcases hw with ⟨hpc, -⟩ | ⟨hpc | hpc | hpc, -⟩ <;> rw [ht] at hpc <;> cases hpc
      · exact Or.inr (Or.inr (Or.inl ⟨_, _, _, rfl⟩))
      · exact Or.inr (Or.inr (Or.inr ⟨_, _, rfl⟩))
      · exact Or.inl rfl
      · exact Or.inl rfl
    · by_cases hlt : tid < base + args.length
      · have hj : tid - base < args.length := by omega
        have hbj : base + (tid - base) = tid := by omega
        have hp := hoth (tid - base) _ (List.getElem?_eq_getElem hj) (by rw [hbj]; exact hw1)
        rw [hbj, ht] at hp
        rcases hp with hp | hp <;> cases hp
        · exact Or.inr (Or.inl ⟨_, _, _, rfl⟩)
        · exact Or.inl rfl
      · exact Or.inl (hcalm tid pc (by omega) ht)
  rcases hc with hc | ⟨tg, g, a, rfl⟩ | ⟨tg, g, o, rfl⟩ | ⟨tg, o, rfl⟩
  · cases pc <;> first
      | exact Bool.noConfusion hc
      | exact ⟨fun _ _ e => Pc.noConfusion e, fun _ e => Pc.noConfusion e,
          fun e => Pc.noConfusion e⟩
  · exact ⟨fun _ _ e => Pc.noConfusion e, fun _ e => Pc.noConfusion e,
      fun e => Pc.noConfusion e⟩
  · exact ⟨fun _ _ e => Pc.noConfusion e, fun _ e => Pc.noConfusion e,
      fun e => Pc.noConfusion e⟩
  · exact ⟨fun _ _ e => Pc.noConfusion e, fun _ e => Pc.noConfusion e,
      fun e => Pc.noConfusion e⟩

/-- The moves of the race keep `RaceInv`, leave `_global_mutex` free and the process
running. -/
theorem race_free_step {tag : Tag} {base : Nat} {args : List (Option Nat × Option Nat)}
    {w : Nat} {f : Option Nat} {op : Nat} {log0 : List Event} {s s1 : State} {a : Action}
    (h : RaceInv tag base args w f op log0 s) (hg : s.global_mutex = none)
    (hrun : s.terminated = false) (ha : a.moves_from base = true)
    (hs : step Kind.throttle s a = some s1) :
    RaceInv tag base args w f op log0 s1 ∧ s1.global_mutex = none ∧
      s1.terminated = false := by
  obtain ⟨tid, hb, hthr, -⟩ := moves_from_thread ha
  have tr := trans_of_step hs
  rw [hthr] at tr
  exact ⟨race_step h ha hs, lock_stays_free tr hg (fun pc ht => race_pc h hb ht),
    terminated_trans tr hrun⟩

theorem race_free_run {tag : Tag} {base : Nat} {args : List (Option Nat × Option Nat)}
    {w : Nat} {f : Option Nat} {op : Nat} {log0 : List Event} (moves : List Action)
    {s s1 : State} (h : RaceInv tag base args w f op log0 s) (hg : s.global_mutex = none)
    (hrun : s.terminated = false) (hm : ∀ a ∈ moves, a.moves_from base = true)
    (hr : run Kind.throttle s moves = some s1) :
    RaceInv tag base args w f op log0 s1 ∧ s1.global_mutex = none ∧
      s1.terminated = false := by
  induction moves generalizing s with
  | nil =>
    simp only [run, Option.some.injEq] at hr
    subst hr
    exact ⟨h, hg, hrun⟩
  | cons a rest ih =>
    simp only [run, Option.bind_eq_some] at hr
    obtain ⟨s2, hs, hr2⟩ := hr
    obtain ⟨h2, hg2, hrun2⟩ := race_free_step h hg hrun (hm a (List.mem_cons_self _ _)) hs
    exact ih h2 hg2 hrun2 (fun b hb => hm b (List.mem_cons_of_mem _ hb)) hr2

theorem hit_enabled {s : State} {tid : Nat} {tag : Tag} {f a : Option Nat} {op : Nat}
    (hrun : s.terminated = false) (hg : s.global_mutex = none)
    (ht : s.threads[tid]? = some (Pc.throttle tag f a))
    (hf : find s.operations tag = some op) :
    step Kind.throttle s (Action.step tid) = some (goto s tid (Pc.returned (some true))) := by
  rw [step_thread hrun ht]
  simp [advance, throttle, hg, hf]

theorem new_enabled {s : State} {tid : Nat} {tag : Tag} {f a : Option Nat}
    (hrun : s.terminated = false) (hg : s.global_mutex = none)
    (ht : s.threads[tid]? = some (Pc.throttle tag f a))
    (hf : find s.operations tag = none) :
    ∃ s1 : State, step Kind.throttle s (Action.step tid) = some s1 ∧
      s1.threads[tid]? = some (Pc.throttle_execute tag f s.heap.length) := by
  have hlt := lt_of_get ht
  rw [step_thread hrun ht]
  simp [advance, throttle, hg, hf, goto, hlt]

theorem execute_enabled {s : State} {tid : Nat} {tag : Tag} {f : Option Nat} {op : Nat}
    (hrun : s.terminated = false)
    (ht : s.threads[tid]? = some (Pc.throttle_execute tag f op)) :
    ∃ s1 : State, step Kind.throttle s (Action.step tid) = some s1 ∧
      s1.threads[tid]? = some (Pc.throttle_spawn tag op) := by
  have hlt := lt_of_get ht
  rw [step_thread hrun ht]
  cases f <;> simp [advance, throttle_execute, goto, hlt]

theorem spawn_enabled {s : State} {tid : Nat} {tag : Tag} {op : Nat}
    (hrun : s.terminated = false) (hg : s.global_mutex = none)
    (ht : s.threads[tid]? = some (Pc.throttle_spawn tag op)) :
    ∃ s1 : State, step Kind.throttle s (Action.step tid) = some s1 ∧
      s1.threads[tid]? = some (Pc.returned (some false)) := by
  have hlt := lt_of_get ht
  rw [step_thread hrun ht]
  simp [advance, throttle_spawn, hg, goto, spawn, hlt, List.getElem?_append_left]

theorem step_moves_from {base tid : Nat} (hb : base ≤ tid) :
    (Action.step tid).moves_from base = true := by
  simp [Action.moves_from, hb]

/-- The call that took the lock first runs to its return, unless its `on_execute` has
thrown. -/
theorem race_finish_winner {tag : Tag} {base : Nat} {args : List (Option Nat × Option Nat)}
    {w : Nat} {f : Option Nat} {op : Nat} {log0 : List Event} {s : State}
    (h : RaceInv tag base args w f op log0 s) (hbw : base ≤ w) (hg : s.global_mutex = none)
    (hrun : s.terminated = false) (hnr : s.threads[w]? ≠ some Pc.raised) :
    ∃ (more : List Action) (s1 : State), (∀ a ∈ more, a.moves_from base = true) ∧
      run Kind.throttle s more = some s1 ∧ RaceInv tag base args w f op log0 s1 ∧
      s1.global_mutex = none ∧ s1.terminated = false ∧
      s1.threads[w]? = some (Pc.returned (some false)) := by
  have hspawn : ∀ s2 : State, RaceInv tag base args w f op log0 s2 → s2.global_mutex = none →
      s2.terminated = false → s2.threads[w]? = some (Pc.throttle_spawn tag op) →
      ∃ s3 : State, run Kind.throttle s2 [Action.step w] = some s3 ∧
        RaceInv tag base args w f op log0 s3 ∧ s3.global_mutex = none ∧
        s3.terminated = false ∧ s3.threads[w]? = some (Pc.returned (some false)) := by
    intro s2 h2 hg2 hrun2 hp2
    obtain ⟨s3, hs3, hp3⟩ := spawn_enabled hrun2 hg2 hp2
    obtain ⟨k1, k2, k3⟩ := race_free_step h2 hg2 hrun2 (step_moves_from hbw) hs3
    exact ⟨s3, by simp [run, hs3], k1, k2, k3, hp3⟩
  have hmem1 : ∀ a ∈ [Action.step w], a.moves_from base = true := by
    intro a ha
    simp only [List.mem_singleton] at ha
    subst ha
    exact step_moves_from hbw
  rcases h.2.2.1 with ⟨hpc, -⟩ | ⟨hpc | hpc | hpc, -⟩
  · obtain ⟨s2, hs2, hp2⟩ := execute_enabled hrun hpc
    obtain ⟨k1, k2, k3⟩ := race_free_step h hg hrun (step_moves_from hbw) hs2
    obtain ⟨s3, hr3, g1, g2, g3, g4⟩ := hspawn s2 k1 k2 k3 hp2
    refine ⟨[Action.step w, Action.step w], s3, ?_, ?_, g1, g2, g3, g4⟩
    · intro a ha
      simp only [List.mem_cons, List.mem_singleton, List.not_mem_nil, or_false, or_self] at ha
      subst ha
      exact step_moves_from hbw
    · rw [run_cons _ _ _ _ _ hs2]
      exact hr3
  · obtain ⟨s3, hr3, g1, g2, g3, g4⟩ := hspawn s h hg hrun hpc
    exact ⟨[Action.step w], s3, hmem1, hr3, g1, g2, g3, g4⟩
  · exact ⟨[], s, fun a ha => absurd ha (List.not_mem_nil a), rfl, h, hg, hrun, hpc⟩
  · exact absurd hpc hnr

/-- Once the first call has returned, the first `k` racing calls can all be brought to their
return. -/
theorem race_finish_others {tag : Tag} {base : Nat} {args : List (Option Nat × Option Nat)}
    {w : Nat} {f : Option Nat} {op : Nat} {log0 : List Event} (k : Nat)
    (hk : k ≤ args.length) {s : State}
    (h : RaceInv tag base args w f op log0 s) (hg : s.global_mutex = none)
    (hrun : s.terminated = false) (hw : s.threads[w]? = some (Pc.returned (some false))) :
    ∃ (more : List Action) (s1 : State), (∀ a ∈ more, a.moves_from base = true) ∧
      run Kind.throttle s more = some s1 ∧ RaceInv tag base args w f op log0 s1 ∧
      s1.global_mutex = none ∧ s1.terminated = false ∧
      s1.threads[w]? = some (Pc.returned (some false)) ∧
      ∀ j : Nat, j < k → ∃ r : Bool, s1.threads[base + j]? = some (Pc.returned (some r)) := by
  induction k with
  | zero =>
    exact ⟨[], s, fun a ha => absurd ha (List.not_mem_nil a), rfl, h, hg, hrun, hw,
      fun j hj => absurd hj (Nat.not_lt_zero j)⟩
  | succ k ih =>
    obtain ⟨more, s1, hm, hr, h1, hg1, hrun1, hw1, hdone⟩ := ih (Nat.le_of_succ_le hk)
    have hkl : k < args.length := hk
    by_cases hkw : base + k = w
    · refine ⟨more, s1, hm, hr, h1, hg1, hrun1, hw1, ?_⟩
      intro j hj
      rcases Nat.lt_succ_iff_lt_or_eq.mp hj with hj | hj
      · exact hdone j hj
      · subst hj
        rw [hkw]
        exact ⟨false, hw1⟩
    · rcases h1.2.2.2.1 k _ (List.getElem?_eq_getElem hkl) hkw with hp | hp
      · have hs2 := hit_enabled hrun1 hg1 hp h1.1
        obtain ⟨k1, k2, k3⟩ :=
          race_free_step h1 hg1 hrun1 (step_moves_from (Nat.le_add_right base k)) hs2
        refine ⟨more ++ [Action.step (base + k)], _, ?_, ?_, k1, k2, k3, ?_, ?_⟩
        · intro a ha
          rcases List.mem_append.mp ha with ha | ha
          · exact hm a ha
          · simp only [List.mem_singleton] at ha
            subst ha
            exact step_moves_from (Nat.le_add_right base k)
        · rw [run_append _ _ _ _ _ hr]
          simp [run, hs2]
        · simp only [goto]
          rw [get_set_of_some _ _ hp, if_neg (fun e => hkw e.symm)]
          exact hw1
        · intro j hj
          simp only [goto]
          rw [get_set_of_some _ _ hp]
          rcases Nat.lt_succ_iff_lt_or_eq.mp hj with hj | hj
          · rw [if_neg (by omega)]
            exact hdone j hj
          · subst hj
            rw [if_pos rfl]
            exact ⟨true, rfl⟩
      · refine ⟨more, s1, hm, hr, h1, hg1, hrun1, hw1, ?_⟩
        intro j hj
        rcases Nat.lt_succ_iff_lt_or_eq.mp hj with hj | hj
        · exact hdone j hj
        · subst hj
          exact ⟨true, hp⟩

/-- Every state of the race in which `on_execute` has not thrown can be continued to a state
in which all racing calls have returned. -/
theorem race_finish {tag : Tag} {base : Nat} {args : List (Option Nat × Option Nat)}
    {w : Nat} {f : Option Nat} {op : Nat} {log0 : List Event} {s : State}
    (h : RaceInv tag base args w f op log0 s) (hbw : base ≤ w) (hg : s.global_mutex = none)
    (hrun : s.terminated = false) (hnr : s.threads[w]? ≠ some Pc.raised) :
    ∃ (more : List Action) (s1 : State), (∀ a ∈ more, a.moves_from base = true) ∧
      run Kind.throttle s more = some s1 ∧
      ∀ j : Nat, j < args.length →
        ∃ r : Bool, s1.threads[base + j]? = some (Pc.returned (some r)) := by
  obtain ⟨m1, s1, hm1, hr1, h1, hg1, hrun1, hw1⟩ := race_finish_winner h hbw hg hrun hnr
  obtain ⟨m2, s2, hm2, hr2, -, -, -, -, hdone⟩ :=
    race_finish_others args.length (Nat.le_refl _) h1 hg1 hrun1 hw1
  refine ⟨m1 ++ m2, s2, ?_, ?_, hdone⟩
  · intro a ha
    rcases List.mem_append.mp ha with ha | ha
    · exact hm1 a ha
    · exact hm2 a ha
  · rw [run_append _ _ _ _ _ hr1]
    exact hr2

/-! ### The race -/

/-- The first move of the race: a racing call takes `_global_mutex`, finds the tag idle and
stores its Operation. -/
theorem race_first {s0 : State} {tag : Tag} {args : List (Option Nat × Option Nat)}
    (hidle : find s0.operations tag = none) (hfree : s0.global_mutex = none) {m : Action}
    {sB : State} (hm : m.moves_from s0.threads.length = true)
    (hs : step Kind.throttle (State.mk s0.operations s0.global_mutex s0.heap
      (s0.threads ++ args.map (fun x => Pc.throttle tag x.1 x.2)) s0.log s0.terminated) m =
      some sB) :
    ∃ (i : Nat) (x : Option Nat × Option Nat), args[i]? = some x ∧
      m.thread = some (s0.threads.length + i) ∧
      RaceInv tag s0.threads.length args (s0.threads.length + i) x.1 s0.heap.length s0.log
        sB ∧
      sB.global_mutex = none ∧ sB.terminated = false := by
  obtain ⟨tid, hb, hthr, ha2⟩ := moves_from_thread hm
  have hrunA := step_running hs
  cases hpc : (s0.threads ++ args.map (fun x => Pc.throttle tag x.1 x.2))[tid]? with
  | none =>
    rcases ha2 with rfl | rfl <;> simp [step, hrunA, hpc] at hs
  | some pc =>
    have hlt := lt_of_get hpc
    simp only [List.length_append, List.length_map] at hlt
    have hbi : s0.threads.length + (tid - s0.threads.length) = tid := by omega
    have hi : tid - s0.threads.length < args.length := by omega
    have hpc2 : (s0.threads ++ args.map (fun x => Pc.throttle tag x.1 x.2))[
        s0.threads.length + (tid - s0.threads.length)]? = some pc := by
      rw [hbi]
      exact hpc
    rw [get_caller, List.getElem?_eq_getElem hi, Option.map_some'] at hpc2
    have hpc3 : (State.mk s0.operations s0.global_mutex s0.heap
        (s0.threads ++ args.map (fun x => Pc.throttle tag x.1 x.2)) s0.log
        s0.terminated).threads[tid]? = some (Pc.throttle tag
          (args[tid - s0.threads.length]).1 (args[tid - s0.threads.length]).2) := by
      rw [Option.some.inj hpc2]
      exact hpc
    obtain ⟨e1, e2, e3, e4⟩ := move_new hpc3 hidle ha2 hs
    have tr := trans_of_step hs
    rw [hthr] at tr
    refine ⟨tid - s0.threads.length, args[tid - s0.threads.length],
      List.getElem?_eq_getElem hi, by rw [hbi]; exact hthr, ?_, ?_, terminated_trans tr hrunA⟩
    · rw [hbi]
      refine ⟨e1, by omega, Or.inl ⟨e3, e2⟩, ?_, ?_⟩
      · intro j x hx hne
        refine Or.inl (thread_kept tr ?_ (fun e => hne (Option.some.inj e).symm))
        show (s0.threads ++ args.map (fun x => Pc.throttle tag x.1 x.2))[_]? = _
        rw [get_caller, hx]
        rfl
      · intro j pc1 hj h1
        have : sB.threads.length ≤ j := by
          rw [e4]
          simp only [List.length_append, List.length_map]
          exact hj
        rw [List.getElem?_eq_none this] at h1
        cases h1
    · refine lock_stays_free tr hfree ?_
      intro pc1 h1
      rw [hpc3] at h1
      cases h1
      exact ⟨fun _ _ e => Pc.noConfusion e, fun _ e => Pc.noConfusion e,
        fun e => Pc.noConfusion e⟩

/-- C1: let any number `N ≥ 1` of `Throttle::throttle` calls for the same tag enter (threads
`base .. base + N - 1`, with any `on_execute` / `on_after` arguments) while the tag is idle,
the process runs and `_global_mutex` is free, and let them and the waiters they spawn then
move in any order (`moves`: steps of these threads and throws of their user code; no other
call, no time-out, no move of an older thread).
(1) Each of the calls can be the first to take `_global_mutex`, and then there is a run of
the race in which all `N` calls return.
(2) No call is ever blocked: from every state of the race in which no `on_execute` has
thrown, the race can be continued until all `N` calls have returned.
(3) Whenever all `N` calls have returned, exactly one has returned `false`: it is the
thread that moved - took `_global_mutex` - first; its `on_execute`, if not empty, has been
run exactly once and nothing else has been run; all other calls have returned `true`; and
the tag is active.
(An `on_execute` that throws leaves `throttle` by the exception; that call returns
nothing.) -/
theorem throttle_race (s0 : State) (tag : Tag) (args : List (Option Nat × Option Nat))
    (hidle : find s0.operations tag = none) (hN : 0 < args.length)
    (hrun0 : s0.terminated = false) (hfree : s0.global_mutex = none) :
    (∀ i : Nat, i < args.length → ∃ (moves : List Action) (s1 : State),
      (∀ a ∈ moves, a.moves_from s0.threads.length = true) ∧
      first_mover moves = some (s0.threads.length + i) ∧
      run Kind.throttle s0 (race_calls tag args ++ moves) = some s1 ∧
      ∀ j : Nat, j < args.length →
        ∃ r : Bool, s1.threads[s0.threads.length + j]? = some (Pc.returned (some r))) ∧
    (∀ (moves : List Action) (s1 : State),
      (∀ a ∈ moves, a.moves_from s0.threads.length = true) →
      run Kind.throttle s0 (race_calls tag args ++ moves) = some s1 →
      (∀ j : Nat, j < args.length → s1.threads[s0.threads.length + j]? ≠ some Pc.raised) →
      ∃ (more : List Action) (s2 : State),
        (∀ a ∈ more, a.moves_from s0.threads.length = true) ∧
        run Kind.throttle s1 more = some s2 ∧
        ∀ j : Nat, j < args.length →
          ∃ r : Bool, s2.threads[s0.threads.length + j]? = some (Pc.returned (some r))) ∧
    ∀ (moves : List Action) (s1 : State),
      (∀ a ∈ moves, a.moves_from s0.threads.length = true) →
      run Kind.throttle s0 (race_calls tag args ++ moves) = some s1 →
      (∀ j : Nat, j < args.length →
        ∃ r : Bool, s1.threads[s0.threads.length + j]? = some (Pc.returned (some r))) →
      ∃ (i : Nat) (x : Option Nat × Option Nat), args[i]? = some x ∧
        first_mover moves = some (s0.threads.length + i) ∧
        s1.threads[s0.threads.length + i]? = some (Pc.returned (some false)) ∧
        (∀ j : Nat, j < args.length → j ≠ i →
          s1.threads[s0.threads.length + j]? = some (Pc.returned (some true))) ∧
        s1.log = s0.log ++ x.1.toList.map Event.on_execute ∧
        is_registered s1 tag = true := by
  have hcalls := run_calls tag args s0 hrun0
  -- (2), used for (1) as well
  have hprogress : ∀ (moves : List Action) (s1 : State),
      (∀ a ∈ moves, a.moves_from s0.threads.length = true) →
      run Kind.throttle s0 (race_calls tag args ++ moves) = some s1 →
      (∀ j : Nat, j < args.length → s1.threads[s0.threads.length + j]? ≠ some Pc.raised) →
      ∃ (more : List Action) (s2 : State),
        (∀ a ∈ more, a.moves_from s0.threads.length = true) ∧
        run Kind.throttle s1 more = some s2 ∧
        ∀ j : Nat, j < args.length →
          ∃ r : Bool, s2.threads[s0.threads.length + j]? = some (Pc.returned (some r)) := by
    intro moves s1 hmoves hr hok
    rw [run_append _ _ _ _ _ hcalls] at hr
    cases moves with
    | nil =>
      simp only [run, Option.some.injEq] at hr
      subst hr
      have hp0 : (s0.threads ++ args.map (fun x => Pc.throttle tag x.1 x.2))[
          s0.threads.length + 0]? = some (Pc.throttle tag (args[0]).1 (args[0]).2) := by
        rw [get_caller, List.getElem?_eq_getElem hN]
        rfl
      obtain ⟨sB, hsB, e3⟩ := new_enabled (s := State.mk s0.operations s0.global_mutex s0.heap
        (s0.threads ++ args.map (fun x => Pc.throttle tag x.1 x.2)) s0.log s0.terminated)
        hrun0 hfree hp0 hidle
      obtain ⟨i, x, hx, hthr, hinv, hgB, hrunB⟩ :=
        race_first hidle hfree (step_moves_from (Nat.le_add_right _ 0)) hsB
      have hlt := (List.getElem?_eq_some.mp hx).1
      have hnr : sB.threads[s0.threads.length + i]? ≠ some Pc.raised := by
        intro e
        rcases hinv.2.2.1 with ⟨g, -⟩ | ⟨g | g | g, glog⟩
        · rw [g] at e
          cases e
        · rw [g] at e
          cases e
        · rw [g] at e
          cases e
        · simp only [Action.thread, Option.some.injEq] at hthr
          rw [← hthr, e3] at g
          cases g
      obtain ⟨more, s2, hm2, hr2, hdone⟩ :=
        race_finish hinv (Nat.le_add_right _ i) hgB hrunB hnr
      refine ⟨Action.step (s0.threads.length + 0) :: more, s2, ?_, ?_, hdone⟩
      · intro a ha
        rcases List.mem_cons.mp ha with ha | ha
        · subst ha
          exact step_moves_from (Nat.le_add_right _ 0)
        · exact hm2 a ha
      · rw [run_cons _ _ _ _ _ hsB]
        exact hr2
    | cons m rest =>
      simp only [run, Option.bind_eq_some] at hr
      obtain ⟨sB, hs, hr2⟩ := hr
      obtain ⟨i, x, hx, hthr, hinv, hgB, hrunB⟩ :=
        race_first hidle hfree (hmoves m (List.mem_cons_self _ _)) hs
      have hlt := (List.getElem?_eq_some.mp hx).1
      obtain ⟨g1, g2, g3⟩ := race_free_run rest hinv hgB hrunB
        (fun b hb => hmoves b (List.mem_cons_of_mem _ hb)) hr2
      exact race_finish g1 (Nat.le_add_right _ i) g2 g3 (hok i hlt)
  refine ⟨?_, hprogress, ?_⟩
  · intro i hi
    have hpi : (s0.threads ++ args.map (fun x => Pc.throttle tag x.1 x.2))[
        s0.threads.length + i]? = some (Pc.throttle tag (args[i]).1 (args[i]).2) := by
      rw [get_caller, List.getElem?_eq_getElem hi]
      rfl
    obtain ⟨sB, hsB, e3⟩ := new_enabled (s := State.mk s0.operations s0.global_mutex s0.heap
      (s0.threads ++ args.map (fun x => Pc.throttle tag x.1 x.2)) s0.log s0.terminated)
      hrun0 hfree hpi hidle
    have hm1 : ∀ a ∈ [Action.step (s0.threads.length + i)],
        a.moves_from s0.threads.length = true := by
      intro a ha
      simp only [List.mem_singleton] at ha
      subst ha
      exact step_moves_from (Nat.le_add_right _ i)
    have hr1 : run Kind.throttle s0
        (race_calls tag args ++ [Action.step (s0.threads.length + i)]) = some sB := by
      rw [run_append _ _ _ _ _ hcalls]
      simp only [run, Option.bind_eq_some]
      exact ⟨sB, hsB, rfl⟩
    have hok : ∀ j : Nat, j < args.length →
        sB.threads[s0.threads.length + j]? ≠ some Pc.raised := by
      intro j hj e
      by_cases hji : j = i
      · subst hji
        rw [e3] at e
        cases e
      · have hpj : (s0.threads ++ args.map (fun x => Pc.throttle tag x.1 x.2))[
            s0.threads.length + j]? = some (Pc.throttle tag (args[j]).1 (args[j]).2) := by
          rw [get_caller, List.getElem?_eq_getElem hj]
          rfl
        have := thread_kept (trans_of_step hsB) hpj
          (fun e2 => hji (by
            simp only [Action.thread, Option.some.injEq] at e2
            omega))
        rw [this] at e
        cases e
    obtain ⟨more, s2, hm2, hr2, hdone⟩ := hprogress _ sB hm1 hr1 hok
    refine ⟨Action.step (s0.threads.length + i) :: more, s2, ?_, ?_, ?_, hdone⟩
    · intro a ha
      rcases List.mem_cons.mp ha with ha | ha
      · subst ha
        exact step_moves_from (Nat.le_add_right _ i)
      · exact hm2 a ha
    · simp [first_mover, Action.thread]
    · have e : race_calls tag args ++ Action.step (s0.threads.length + i) :: more =
          (race_calls tag args ++ [Action.step (s0.threads.length + i)]) ++ more := by
        simp
      rw [e, run_append _ _ _ _ _ hr1]
      exact hr2
  · intro moves s1 hmoves hr hdone
    rw [run_append _ _ _ _ _ hcalls] at hr
    cases moves with
    | nil =>
      simp only [run, Option.some.injEq] at hr
      subst hr
      obtain ⟨r, hr0⟩ := hdone 0 hN
      simp only [get_caller, List.getElem?_eq_getElem hN, Option.map_some'] at hr0
      cases hr0
    | cons m rest =>
      simp only [run, Option.bind_eq_some] at hr
      obtain ⟨sB, hs, hr2⟩ := hr
      obtain ⟨i, x, hx, hthr, hinv, -, -⟩ :=
        race_first hidle hfree (hmoves m (List.mem_cons_self _ _)) hs
      have hi := (List.getElem?_eq_some.mp hx).1
      obtain ⟨g1, -, g3, g4, -⟩ := race_run rest hinv
        (fun b hb => hmoves b (List.mem_cons_of_mem _ hb)) hr2
      refine ⟨i, x, hx, ?_, ?_, ?_, ?_, ?_⟩
      · simp [first_mover, hthr]
      · obtain ⟨r, hr0⟩ := hdone _ hi
        rcases g3 with ⟨g, -⟩ | ⟨g | g | g, -⟩
        · rw [g] at hr0
          cases hr0
        · rw [g] at hr0
          cases hr0
        · exact g
        · rw [g] at hr0
          cases hr0
      · intro j hj hne
        obtain ⟨r, hr0⟩ := hdone _ hj
        rcases g4 j _ (List.getElem?_eq_getElem hj) (by omega) with g | g
        · rw [g] at hr0
          cases hr0
        · exact g
      · rcases g3 with ⟨g, -⟩ | ⟨-, g⟩
        · obtain ⟨r, hr0⟩ := hdone _ hi
          rw [g] at hr0
          cases hr0
        · exact g
      · simp [is_registered, g1]

/-- Witness for C1: three calls race for the idle tag "t" at program start. -/
theorem throttle_race_witness :
    (find init.operations "t" = none ∧ 0 < race_args.length ∧ init.terminated = false ∧
      init.global_mutex = none) ∧
    ((∀ i : Nat, i < race_args.length → ∃ (moves : List Action) (s1 : State),
      (∀ a ∈ moves, a.moves_from init.threads.length = true) ∧
      first_mover moves = some (init.threads.length + i) ∧
      run Kind.throttle init (race_calls "t" race_args ++ moves) = some s1 ∧
      ∀ j : Nat, j < race_args.length →
        ∃ r : Bool, s1.threads[init.threads.length + j]? = some (Pc.returned (some r))) ∧
    (∀ (moves : List Action) (s1 : State),
      (∀ a ∈ moves, a.moves_from init.threads.length = true) →
      run Kind.throttle init (race_calls "t" race_args ++ moves) = some s1 →
      (∀ j : Nat, j < race_args.length →
        s1.threads[init.threads.length + j]? ≠ some Pc.raised) →
      ∃ (more : List Action) (s2 : State),
        (∀ a ∈ more, a.moves_from init.threads.length = true) ∧
        run Kind.throttle s1 more = some s2 ∧
        ∀ j : Nat, j < race_args.length →
          ∃ r : Bool, s2.threads[init.threads.length + j]? = some (Pc.returned (some r))) ∧
    ∀ (moves : List Action) (s1 : State),
      (∀ a ∈ moves, a.moves_from init.threads.length = true) →
      run Kind.throttle init (race_calls "t" race_args ++ moves) = some s1 →
      (∀ j : Nat, j < race_args.length →
        ∃ r : Bool, s1.threads[init.threads.length + j]? = some (Pc.returned (some r))) →
      ∃ (i : Nat) (x : Option Nat × Option Nat), race_args[i]? = some x ∧
        first_mover moves = some (init.threads.length + i) ∧
        s1.threads[init.threads.length + i]? = some (Pc.returned (some false)) ∧
        (∀ j : Nat, j < race_args.length → j ≠ i →
          s1.threads[init.threads.length + j]? = some (Pc.returned (some true))) ∧
        s1.log = init.log ++ x.1.toList.map Event.on_execute ∧
        is_registered s1 "t" = true) :=
  ⟨⟨rfl, by decide, rfl, rfl⟩, throttle_race init "t" race_args rfl (by decide) rfl rfl⟩

/-! ## Waiters that do not time out -/

/-- A blocked thread cannot take a step. -/
theorem blocked_cannot_move {k : Kind} {s s1 : State} {i : Nat}
    (t : Trans k s (some i) s1) (hb : Blocked s i) : False := by
  rcases hb with ⟨tag, op, hi, hg⟩ | ⟨pc, op, hi, hw, hm⟩
  · cases t <;>
      (try have ht1 := ‹s.threads[i]? = some _›) <;>
      (try rw [hi] at ht1) <;>
      (try cases ht1)
    all_goals exact hg ‹s.global_mutex = none›
  · cases t <;>
      (try have ht1 := ‹s.threads[i]? = some _›) <;>
      (try have ho1 := ‹s.heap[_]? = some _›) <;>
      (try have hm1 := ‹Operation.mtx _ = none›) <;>
      (try rw [hi] at ht1) <;>
      (try cases ht1)
    all_goals first
      | (cases hw; done)
      | (simp only [Pc.wants_mtx, Option.some.injEq] at hw
         subst hw
         rw [mtx_owner_of_get ho1, hm1] at hm
         exact hm rfl)

theorem step_blocked {k : Kind} {s : State} {i : Nat} (hb : Blocked s i) :
    step k s (Action.step i) = none := by
  cases hs : step k s (Action.step i) with
  | none => rfl
  | some s1 => exact (blocked_cannot_move (trans_of_step hs) hb).elim

/-- A call that needs `_global_mutex` cannot start while the mutex is owned. -/
theorem throttle_waits_for_lock {s : State} {tid c : Nat} {tag : Tag} {f a : Option Nat}
    (ht : s.threads[tid]? = some (Pc.throttle tag f a)) (hg : s.global_mutex = some c) :
    step Kind.throttle s (Action.step tid) = none := by
  simp [step, ht, advance, throttle, hg]

/-- In a deadlock `_operations` and the owner of `_global_mutex` stay as they are, whatever
the other threads do. -/
theorem deadlock_frozen {k : Kind} (acts : List Action) {s s1 : State} {w c op : Nat}
    (h : Inv s) (hd : Deadlock s w c op) (hr : run k s acts = some s1) :
    Inv s1 ∧ Deadlock s1 w c op ∧ s1.operations = s.operations ∧ s1.global_mutex = some c := by
  induction acts generalizing s with
  | nil =>
    simp only [run, Option.some.injEq] at hr
    subst hr
    exact ⟨h, hd, rfl, hd.2.2.1⟩
  | cons a rest ih =>
    simp only [run, Option.bind_eq_some] at hr
    obtain ⟨s2, hs, hr2⟩ := hr
    have t := trans_of_step hs
    obtain ⟨hd2, -, e2⟩ := deadlock_trans h hd t
    have e3 := ops_stable h t c hd.2.2.1 e2
    obtain ⟨g1, g2, g3, g4⟩ := ih (inv_trans h t) hd2 hr2
    exact ⟨g1, g2, g3.trans e3, g4⟩

/-! ## C4 -/

/-- C4 (fails on the code): "t" is active, `_global_mutex` is free and the wait of the waiter
of "t" has just timed out (`expired_state`, reached by `throttle("t", d, f, a)` and the
time-out).  `cancel("t")` locks `_global_mutex`, erases the entry and then needs the mutex of
the Operation, which the waiter owns while it needs `_global_mutex`.  From then on, in every
continuation, `cancel` is still before its second lock and cannot step, so it never returns,
and no `throttle` call (for any tag) can take its first step, so the next
`throttle("t", d, k)` never returns `false` and never runs `k`. -/
theorem throttle_cancel_never_returns :
    run Kind.throttle init expired_schedule = some expired_state ∧
    is_registered expired_state "t" = true ∧ find expired_state.operations "t" = some 0 ∧
    expired_state.global_mutex = none ∧
    run Kind.throttle expired_state (sequential expired_state (Call.cancel "t") 1) =
      some stuck_state ∧
    ∀ (acts : List Action) (s2 : State), run Kind.throttle stuck_state acts = some s2 →
      s2.threads[2]? = some (Pc.cancel_signal "t" 0) ∧
      step Kind.throttle s2 (Action.step 2) = none ∧
      ∀ (tid : Nat) (tag : Tag) (f a : Option Nat),
        s2.threads[tid]? = some (Pc.throttle tag f a) →
        step Kind.throttle s2 (Action.step tid) = none := by
  have h0 : run Kind.throttle init expired_schedule = some expired_state := by decide
  have h1 : run Kind.throttle expired_state (sequential expired_state (Call.cancel "t") 1) =
      some stuck_state := by decide
  refine ⟨h0, by decide, by decide, rfl, h1, ?_⟩
  intro acts s2 hr
  have hinv : Inv stuck_state :=
    inv_of_reachable (reachable_run ⟨expired_schedule, h0⟩ h1)
  have hd : Deadlock stuck_state 1 2 0 :=
    ⟨⟨"t", rfl⟩, rfl, rfl, Pc.cancel_signal "t" 0, rfl, rfl⟩
  obtain ⟨-, hd2, -, hg2⟩ := deadlock_frozen acts hinv hd hr
  obtain ⟨-, -, e2⟩ := deadlock_forever acts hinv hd hr
  have hc2 : s2.threads[2]? = some (Pc.cancel_signal "t" 0) := e2
  refine ⟨hc2, ?_, ?_⟩
  · apply step_blocked
    refine Or.inr ⟨Pc.cancel_signal "t" 0, 0, hc2, rfl, ?_⟩
    rw [hd2.2.1]
    exact Option.some_ne_none 1
  · intro tid tag f a ht
    exact throttle_waits_for_lock ht hg2

/-! ## C8 -/

/-- C8 (fails on the code): "a" and "b" are pending with both waiters in `wait_for`
(`both_pending_state`).  Left alone, the expiry of the waiter of "b" removes "b" and runs its
callback once.  After work on "a" only - the wait of the waiter of "a" times out and
`cancel("a")` locks `_global_mutex` (`work_on_a`) - the callback of "b" is never run and "b"
stays in `_operations`, in every continuation: once the wait of the waiter of "b" has timed
out, that waiter cannot take another step. -/
theorem tag_blocked_by_other_tag :
    run Kind.debounce init both_pending_schedule = some both_pending_state ∧
    run Kind.debounce both_pending_state (expiry 3 (some 2) false) = some b_done_state ∧
    fired b_done_state 1 = 1 ∧ is_registered b_done_state "b" = false ∧
    run Kind.debounce both_pending_state work_on_a = some a_stuck_state ∧
    run Kind.debounce a_stuck_state [Action.timeout 3] = some b_stuck_state ∧
    b_stuck_state.threads[3]? = some (Pc.waiter_check "b" 1) ∧
    ∀ (acts : List Action) (s2 : State), run Kind.debounce a_stuck_state acts = some s2 →
      fired s2 1 = 0 ∧ is_registered s2 "b" = true ∧
      ∀ (tag : Tag) (op : Nat), s2.threads[3]? = some (Pc.waiter_check tag op) →
        step Kind.debounce s2 (Action.step 3) = none := by
  have h0 : run Kind.debounce init both_pending_schedule = some both_pending_state := by
    decide
  have h1 : run Kind.debounce both_pending_state work_on_a = some a_stuck_state := by decide
  refine ⟨h0, by decide, by decide, by decide, h1, by decide, rfl, ?_⟩
  intro acts s2 hr
  have hinv : Inv a_stuck_state :=
    inv_of_reachable (reachable_run ⟨both_pending_schedule, h0⟩ h1)
  have hd : Deadlock a_stuck_state 1 4 0 :=
    ⟨⟨"a", rfl⟩, rfl, rfl, Pc.cancel_signal "a" 0, rfl, rfl⟩
  obtain ⟨hinv2, -, hops, hg2⟩ := deadlock_frozen acts hinv hd hr
  have hfind : find s2.operations "b" = some 1 := by
    rw [hops]
    decide
  refine ⟨hinv2.registered_unfired "b" 1 (find_mem hfind), by simp [is_registered, hfind], ?_⟩
  intro tag op h3
  apply step_blocked
  refine Or.inl ⟨tag, op, h3, ?_⟩
  rw [hg2]
  exact Option.some_ne_none 4

end Libcppdebounce
